import Mathlib

/-!
# booksim2 network interface: buffering and arbitration

A shallow embedding of `src/interface.hpp` and `src/src/interface.cpp`
(`booksim2::Interface` and its nested `BoundaryBufferItem`) and a
verification of its buffering and arbitration properties.

Conventions of the embedding:

* `uint32_t` values are `Nat` with an explicit `% 2 ^ 32` wherever the source
  arithmetic can wrap; `int` values are `Int`.
* `void*` payloads are `Nat` addresses, `0` being `nullptr`.
* `Flit*` is `Option Flit`, `none` being `nullptr`.
* `std::vector` and `std::queue` are `List` (front of a queue = head of the list).
* A failed `assert` is `Fault.assertion`; an out-of-range vector index, a null
  dereference or a division by zero (undefined behaviour in C++) is
  `Fault.undefined`; a `std::length_error` thrown by `std::vector::resize` is
  `Fault.exception`.
-/

namespace booksim2

/-- Ways a call can fail to return. -/
inductive Fault where
  | assertion
  | undefined
  | exception
  deriving DecidableEq, Repr

/-- The fields of `Flit` that `Interface` reads. -/
structure Flit where
  vc : Int
  head : Bool
  tail : Bool
  dest : Int
  data : Nat
  deriving DecidableEq, Repr

/-- `Interface::BoundaryBufferItem::Buffer`. -/
structure Buffer where
  packet : Nat
  is_tail : Bool
  deriving DecidableEq, Repr

/-- `Interface::BoundaryBufferItem`. -/
structure BoundaryBufferItem where
  buffer : List Buffer
  num_packets : Nat
  deriving DecidableEq, Repr

namespace BoundaryBufferItem

/-- `BoundaryBufferItem()`: empty vector, `num_packets(0)`. -/
def new : BoundaryBufferItem := { buffer := [], num_packets := 0 }

/-- `uint32_t size() const { return buffer.size(); }` -/
def size (self : BoundaryBufferItem) : Nat := self.buffer.length % 2 ^ 32

/-- `bool is_empty() const { return num_packets == 0; }` -/
def is_empty (self : BoundaryBufferItem) : Bool := self.num_packets == 0

/-- `BoundaryBufferItem::pop`: erase from the front through the first tail-marked entry. -/
def pop (self : BoundaryBufferItem) : Except Fault BoundaryBufferItem :=
  if self.is_empty then .error .assertion
  else
    match self.buffer.dropWhile (fun buf => !buf.is_tail) with
    | [] => .error .assertion
    | it :: rest =>
      if it.packet = 0 then .error .assertion
      else .ok { buffer := rest, num_packets := (self.num_packets + (2 ^ 32 - 1)) % 2 ^ 32 }

/-- `BoundaryBufferItem::top`: payload of the first tail-marked entry. -/
def top (self : BoundaryBufferItem) : Except Fault Nat :=
  if self.is_empty then .error .assertion
  else
    match self.buffer.dropWhile (fun buf => !buf.is_tail) with
    | [] => .error .assertion
    | it :: _ =>
      if it.packet = 0 then .error .assertion
      else .ok it.packet

/-- `BoundaryBufferItem::push`. -/
def push (self : BoundaryBufferItem) (packet : Nat) (is_tail : Bool) : BoundaryBufferItem :=
  { buffer := self.buffer ++ [{ packet := packet, is_tail := is_tail }],
    num_packets := (self.num_packets + (if is_tail then 1 else 0)) % 2 ^ 32 }

end BoundaryBufferItem

/-- `std::queue<Flit*>`. -/
abbrev EjectionBufferItem := List (Option Flit)

/-! ### Nested vector access -/

/-- `xs[i][j]`, `none` when an index is out of range. -/
def get2 {α : Type} (xs : List (List α)) (i j : Nat) : Option α :=
  match xs[i]? with
  | none => none
  | some row => row[j]?

/-- `xs[i][j][k]`, `none` when an index is out of range. -/
def get3 {α : Type} (xs : List (List (List α))) (i j k : Nat) : Option α :=
  match get2 xs i j with
  | none => none
  | some row => row[k]?

/-- `xs[i][j] = v`. -/
def set2 {α : Type} (xs : List (List α)) (i j : Nat) (v : α) : List (List α) :=
  match xs[i]? with
  | none => xs
  | some row => xs.set i (row.set j v)

/-- `xs[i][j][k] = v`. -/
def set3 {α : Type} (xs : List (List (List α))) (i j k : Nat) (v : α) : List (List (List α)) :=
  match get2 xs i j with
  | none => xs
  | some row => set2 xs i j (row.set k v)

/-- `xs[i][j][k]` with an `int` index `k`; a negative index is out of range. -/
def get3i {α : Type} (xs : List (List (List α))) (i j : Nat) (k : Int) : Option α :=
  if k < 0 then none else get3 xs i j k.toNat

/-- The data members of `Interface` used by the buffering pipeline. -/
structure Interface where
  HEADER_SIZE : Int
  num_nodes : Int
  num_subnets : Int
  vcs : Int
  flit_size : Nat
  input_buffer_capacity : Nat
  boundary_buffer_capacity : Nat
  boundary_buffer : List (List (List BoundaryBufferItem))
  ejection_buffer_capacity : Nat
  ejection_buffer : List (List (List EjectionBufferItem))
  ejected_flit_queue : List (List (List (Option Flit)))
  round_robin_turn : List (List Int)
  deriving DecidableEq, Repr

namespace Interface

/-- `Interface::Interface`, with the values read from the configuration file as arguments, in
the order of the source: `HEADER_SIZE(0)`; `assert(num_subnets)` (line 24);
`nets.resize(num_subnets)` (line 26), which throws on a negative count;
`assert(boundary_buffer_capacity)` (line 42); and the `resize` calls of lines 52-69, where
`resize(num_nodes)` runs for subnet 0 and `resize(vcs)` runs only when there is a node. -/
def construct (num_nodes num_subnets vcs : Int)
    (flit_size ejection_buffer_size vc_buf_size input_buffer_size boundary_buffer_size : Nat) :
    Except Fault Interface :=
  if num_subnets = 0 then .error .assertion
  else if num_subnets < 0 then .error .exception
  else if boundary_buffer_size % 2 ^ 32 = 0 then .error .assertion
  else if num_nodes < 0 then .error .exception
  else if 0 < num_nodes ∧ vcs < 0 then .error .exception
  else
    .ok
      { HEADER_SIZE := 0
        num_nodes := num_nodes
        num_subnets := num_subnets
        vcs := vcs
        flit_size := flit_size % 2 ^ 32
        input_buffer_capacity :=
          if input_buffer_size ≠ 0 then input_buffer_size % 2 ^ 32 else 9
        boundary_buffer_capacity := boundary_buffer_size % 2 ^ 32
        boundary_buffer :=
          List.replicate num_subnets.toNat
            (List.replicate num_nodes.toNat (List.replicate vcs.toNat BoundaryBufferItem.new))
        ejection_buffer_capacity :=
          if ejection_buffer_size ≠ 0 then ejection_buffer_size % 2 ^ 32
          else vc_buf_size % 2 ^ 32
        ejection_buffer :=
          List.replicate num_subnets.toNat
            (List.replicate num_nodes.toNat (List.replicate vcs.toNat []))
        ejected_flit_queue :=
          List.replicate num_subnets.toNat (List.replicate num_nodes.toNat [])
        round_robin_turn :=
          List.replicate num_subnets.toNat (List.replicate num_nodes.toNat 0) }

/-- `Interface::is_full`; `q` is `traffic_manager->_input_queue[subnet][nid][0].size()`,
a `size_t` owned by the traffic manager. -/
def is_full (self : Interface) (q : Nat) (size : Nat) : Except Fault Bool :=
  let size : Nat := (((size : Int) + self.HEADER_SIZE) % 2 ^ 32).toNat
  if self.flit_size = 0 then .error .undefined
  else
    let flits : Nat := (size / self.flit_size + (if size % self.flit_size > 0 then 1 else 0)) % 2 ^ 32
    let expected_size : Nat := ((q + flits) % 2 ^ 64) % 2 ^ 32
    .ok (decide (expected_size > self.input_buffer_capacity))

/-- One iteration of the loop of `Interface::Transfer2BoundaryBuffer`. -/
def transferVC (self : Interface) (subnet output : Nat) (vc : Nat) : Except Fault Interface :=
  match get3 self.ejection_buffer subnet output vc with
  | none => .error .undefined
  | some [] => .ok self
  | some (flit :: rest) =>
    match get3 self.boundary_buffer subnet output vc with
    | none => .error .undefined
    | some item =>
      if item.size < self.boundary_buffer_capacity then
        match flit with
        | none => .error .assertion
        | some f =>
          match get2 self.ejected_flit_queue subnet output with
          | none => .error .undefined
          | some q =>
            if f.head = true ∧ (f.dest % 2 ^ 32).toNat ≠ output then .error .assertion
            else
              .ok
                { self with
                  ejection_buffer := set3 self.ejection_buffer subnet output vc rest
                  boundary_buffer :=
                    set3 self.boundary_buffer subnet output vc (item.push f.data f.tail)
                  ejected_flit_queue :=
                    set2 self.ejected_flit_queue subnet output (q ++ [some f]) }
      else .ok self

/-- `Interface::Transfer2BoundaryBuffer`: `for (int vc=0; vc<vcs; ++vc)`. -/
def Transfer2BoundaryBuffer (self : Interface) (subnet output : Nat) : Except Fault Interface :=
  (List.range self.vcs.toNat).foldlM (fun s vc => s.transferVC subnet output vc) self

/-- `Interface::WriteOutBuffer`. -/
def WriteOutBuffer (self : Interface) (subnet : Nat) (output : Int) (flit : Option Flit) :
    Except Fault Interface :=
  match flit with
  | none => .error .undefined
  | some f =>
    if output < 0 then .error .undefined
    else
      match get3i self.ejection_buffer subnet output.toNat f.vc with
      | none => .error .undefined
      | some q =>
        if q.length < self.ejection_buffer_capacity then
          .ok { self with
                ejection_buffer :=
                  set3 self.ejection_buffer subnet output.toNat f.vc.toNat (q ++ [some f]) }
        else .error .assertion

/-- `Interface::GetEjectedFlit`. -/
def GetEjectedFlit (self : Interface) (subnet nid : Nat) :
    Except Fault (Option Flit × Interface) :=
  match get2 self.ejected_flit_queue subnet nid with
  | none => .error .undefined
  | some [] => .ok (none, self)
  | some (flit :: rest) =>
    .ok (flit, { self with ejected_flit_queue := set2 self.ejected_flit_queue subnet nid rest })

/-- `Interface::is_empty`: `find_if` for a non-empty item reaches `end()`. -/
def is_empty (self : Interface) (nid subnet : Nat) : Except Fault Bool :=
  match get2 self.boundary_buffer subnet nid with
  | none => .error .undefined
  | some items => .ok ((items.find? (fun item => !item.is_empty)).isNone)

/-- The loop of `Interface::top`; the first argument counts the remaining iterations. -/
def topLoop (self : Interface) (nid subnet : Nat) : Nat → Int → Except Fault Nat
  | 0, _ => .ok 0
  | n + 1, turn =>
    match get3i self.boundary_buffer subnet nid turn with
    | none => .error .undefined
    | some item =>
      if !item.is_empty then item.top
      else topLoop self nid subnet n ((turn + 1).tmod self.vcs)

/-- `Interface::top`; the result `0` is `nullptr`. -/
def top (self : Interface) (nid subnet : Nat) : Except Fault Nat :=
  match get2 self.round_robin_turn subnet nid with
  | none => .error .undefined
  | some turn => self.topLoop nid subnet self.vcs.toNat turn

/-- The loop of `Interface::pop`; the first argument counts the remaining iterations, `vc` is
the loop counter. Returns the state, the final `vc` and the final `turn`. -/
def popLoop (self : Interface) (nid subnet : Nat) :
    Nat → Int → Int → Except Fault (Interface × Int × Int)
  | 0, vc, turn => .ok (self, vc, turn)
  | n + 1, vc, turn =>
    match get3i self.boundary_buffer subnet nid turn with
    | none => .error .undefined
    | some item =>
      if !item.is_empty then
        match item.pop with
        | .error e => .error e
        | .ok item1 =>
          .ok ({ self with
                 boundary_buffer := set3 self.boundary_buffer subnet nid turn.toNat item1 },
               vc, turn)
      else popLoop self nid subnet n (vc + 1) ((turn + 1).tmod self.vcs)

/-- `Interface::pop`. -/
def pop (self : Interface) (nid subnet : Nat) : Except Fault Interface :=
  match get2 self.round_robin_turn subnet nid with
  | none => .error .undefined
  | some turn =>
    match self.popLoop nid subnet self.vcs.toNat 0 turn with
    | .error e => .error e
    | .ok (s, vc, turn1) =>
      if vc = self.vcs then
        .ok { s with round_robin_turn := set2 s.round_robin_turn subnet nid turn1 }
      else .ok s

end Interface

/-! ### Sequences of calls -/

/-- A call of one of the state-related member functions of `Interface`. -/
inductive Op where
  | WriteOutBuffer (subnet : Nat) (output : Int) (flit : Option Flit)
  | Transfer2BoundaryBuffer (subnet output : Nat)
  | GetEjectedFlit (subnet nid : Nat)
  | top (nid subnet : Nat)
  | pop (nid subnet : Nat)
  deriving DecidableEq, Repr

/-- The state after a call; `top` is `const` and leaves the state as it is. -/
def Op.run (s : Interface) : Op → Except Fault Interface
  | .WriteOutBuffer subnet output flit => s.WriteOutBuffer subnet output flit
  | .Transfer2BoundaryBuffer subnet output => s.Transfer2BoundaryBuffer subnet output
  | .GetEjectedFlit subnet nid =>
    match s.GetEjectedFlit subnet nid with
    | .error e => .error e
    | .ok (_, s1) => .ok s1
  | .top nid subnet =>
    match s.top nid subnet with
    | .error e => .error e
    | .ok _ => .ok s
  | .pop nid subnet => s.pop nid subnet

/-- The state after a sequence of calls, failing as soon as one call fails. -/
def runOps : List Op → Interface → Except Fault Interface
  | [], s => .ok s
  | op :: ops, s =>
    match op.run s with
    | .error e => .error e
    | .ok s1 => runOps ops s1

/-- The flit that one loop iteration of `Transfer2BoundaryBuffer` moves out of ejection slot
`[a][b][k]`, if any: the front flit, when the boundary slot has room. -/
def movesAt (s : Interface) (a b k : Nat) : Option Flit :=
  match get3 s.ejection_buffer a b k, get3 s.boundary_buffer a b k with
  | some (some f :: _), some item =>
    if item.size < s.boundary_buffer_capacity then some f else none
  | _, _ => none

/-- The boundary fragment made from a flit: `push(flit->data, flit->tail)`. -/
def frag (f : Flit) : Buffer := { packet := f.data, is_tail := f.tail }

/-- The configuration members of two states agree. -/
def SameConfig (s s1 : Interface) : Prop :=
  s1.HEADER_SIZE = s.HEADER_SIZE ∧ s1.num_nodes = s.num_nodes ∧
    s1.num_subnets = s.num_subnets ∧ s1.vcs = s.vcs ∧ s1.flit_size = s.flit_size ∧
    s1.input_buffer_capacity = s.input_buffer_capacity ∧
    s1.boundary_buffer_capacity = s.boundary_buffer_capacity ∧
    s1.ejection_buffer_capacity = s.ejection_buffer_capacity

/-- The conditions under which the loop iteration of `Transfer2BoundaryBuffer` for `vc` returns:
the ejection slot exists and, unless it is empty, the boundary slot exists and, unless that one
is full, the front flit is non-null, the ejected-flit queue exists, and a head flit is destined
to `output`. -/
def transferOK (s : Interface) (subnet output vc : Nat) : Prop :=
  ∃ ej, get3 s.ejection_buffer subnet output vc = some ej ∧
    (ej = [] ∨
      ∃ item, get3 s.boundary_buffer subnet output vc = some item ∧
        (¬ item.size < s.boundary_buffer_capacity ∨
          ∃ f rest, ej = some f :: rest ∧
            (get2 s.ejected_flit_queue subnet output).isSome = true ∧
            ¬ (f.head = true ∧ (f.dest % 2 ^ 32).toNat ≠ output)))

/-! ### Specification-side notions -/

/-- Number of complete packets held by a boundary slot: its tail-marked fragments. -/
def completePackets (item : BoundaryBufferItem) : Nat :=
  item.buffer.countP (fun buf => buf.is_tail)

/-- The counting invariant of a boundary slot: `num_packets` is a `uint32_t` equal to the
number of tail-marked fragments in `buffer`. -/
def Counted (item : BoundaryBufferItem) : Prop :=
  item.num_packets = completePackets item ∧ item.num_packets < 2 ^ 32

/-- The cyclic order `c, c+1, ..., c+N-1 (mod N)`. -/
def cyclicOrder (c N : Nat) : List Nat :=
  (List.range N).map (fun k => (c + k) % N)

/-- Whether slot `v` holds at least one complete packet. -/
def readyAt (slots : List BoundaryBufferItem) (v : Nat) : Bool :=
  match slots[v]? with
  | none => false
  | some item => decide (0 < completePackets item)

/-- The first VC in cyclic order from `c` whose slot holds at least one complete packet. -/
def firstReady (slots : List BoundaryBufferItem) (c : Nat) : Option Nat :=
  (cyclicOrder c slots.length).find? (readyAt slots)

/-- The first tail-marked fragment of a slot. -/
def firstTail (buffer : List Buffer) : Option Buffer :=
  buffer.find? (fun buf => buf.is_tail)

/-- Whether `is_empty()` is false for slot `v`: the test made by the scan. -/
def nonEmptyAt (slots : List BoundaryBufferItem) (v : Nat) : Bool :=
  match slots[v]? with
  | none => false
  | some item => !item.is_empty

/-- The flits that the calls `ops` write into ejection slot `[subnet][output][v]`, in call
order. -/
def writesTo (subnet output v : Nat) : List Op → List Flit
  | [] => []
  | .WriteOutBuffer sn out (some f) :: ops =>
    if sn = subnet ∧ out = (output : Int) ∧ f.vc = (v : Int) then
      f :: writesTo subnet output v ops
    else writesTo subnet output v ops
  | _ :: ops => writesTo subnet output v ops

/-- The capacity invariant: the boundary capacity is a `uint32_t`, every boundary slot holds at
most `boundary_buffer_capacity` fragments and satisfies the counting invariant, and every
ejection slot holds at most `ejection_buffer_capacity` flits. -/
def CapacityInv (s : Interface) : Prop :=
  s.boundary_buffer_capacity < 2 ^ 32 ∧
  (∀ a b k item, get3 s.boundary_buffer a b k = some item →
    item.buffer.length ≤ s.boundary_buffer_capacity ∧ Counted item) ∧
  (∀ a b k q, get3 s.ejection_buffer a b k = some q →
    q.length ≤ s.ejection_buffer_capacity)

/-! ### Concrete scenarios -/

/-- A single-flit packet (head and tail) for virtual channel `vc`, destined to node 0. -/
def pkt (vc : Int) (data : Nat) : Option Flit :=
  some { vc := vc, head := true, tail := true, dest := 0, data := data }

/-- One node, one subnet, two virtual channels, all capacities 4. -/
def twoVC : Except Fault Interface := Interface.construct 1 1 2 1 4 4 4 4

/-- Both virtual channels of `twoVC` supplied with two complete packets each:
payloads 11, 12 on VC 0 and 21, 22 on VC 1. -/
def twoVCsupplied : Except Fault Interface := do
  let s ← twoVC
  let s ← s.WriteOutBuffer 0 0 (pkt 0 11)
  let s ← s.WriteOutBuffer 0 0 (pkt 1 21)
  let s ← s.Transfer2BoundaryBuffer 0 0
  let s ← s.WriteOutBuffer 0 0 (pkt 0 12)
  let s ← s.WriteOutBuffer 0 0 (pkt 1 22)
  s.Transfer2BoundaryBuffer 0 0

/-- One complete packet (payload 11) on VC 0 of `twoVC`, nothing on VC 1. -/
def twoVCone : Except Fault Interface := do
  let s ← twoVC
  let s ← s.WriteOutBuffer 0 0 (pkt 0 11)
  s.Transfer2BoundaryBuffer 0 0

/-- The boundary slots of node 0, subnet 0. -/
def slots00 (r : Except Fault Interface) : Except Fault (Option (List BoundaryBufferItem)) :=
  r.map (fun s => get2 s.boundary_buffer 0 0)

/-- The round-robin cursor of node 0, subnet 0. -/
def cursor00 (r : Except Fault Interface) : Except Fault (Option Int) :=
  r.map (fun s => get2 s.round_robin_turn 0 0)

/-- A tail flit whose payload is `nullptr`, written to VC 0 of `twoVC` and transferred. -/
def twoVCnull : Except Fault Interface := do
  let s ← twoVC
  let s ← s.WriteOutBuffer 0 0 (pkt 0 0)
  s.Transfer2BoundaryBuffer 0 0

/-- A one-node, one-subnet interface whose boundary slots are `slots` and whose cursor is
`turn`; ejection slots and the ejected-flit queue are empty. -/
def demoNode (slots : List BoundaryBufferItem) (turn : Int) : Interface :=
  { HEADER_SIZE := 0
    num_nodes := 1
    num_subnets := 1
    vcs := slots.length
    flit_size := 1
    input_buffer_capacity := 9
    boundary_buffer_capacity := 4
    boundary_buffer := [[slots]]
    ejection_buffer_capacity := 4
    ejection_buffer := [[slots.map (fun _ => [])]]
    ejected_flit_queue := [[[]]]
    round_robin_turn := [[turn]] }

/-- Two boundary slots: VC 0 holds a two-fragment packet (payloads 7, 8), VC 1 a single-fragment
packet (payload 9) followed by a tail-less fragment (payload 10). -/
def demoSlots : List BoundaryBufferItem :=
  [⟨[⟨7, false⟩, ⟨8, true⟩], 1⟩, ⟨[⟨9, true⟩, ⟨10, false⟩], 1⟩]

/-- A flit for virtual channel 0 destined to node 0. -/
def flit0 (head tail : Bool) (data : Nat) : Flit :=
  { vc := 0, head := head, tail := tail, dest := 0, data := data }

/-- The flits of `demoPacket` arriving one per cycle, each followed by a transfer. -/
def demoArrival : List Op :=
  [.WriteOutBuffer 0 0 (some (flit0 true false 5)), .Transfer2BoundaryBuffer 0 0,
   .WriteOutBuffer 0 0 (some (flit0 false true 6)), .Transfer2BoundaryBuffer 0 0]

/-- The state of a run that is known to succeed (`d` otherwise). -/
def stateOf (r : Except Fault Interface) (d : Interface) : Interface :=
  match r with
  | .ok s => s
  | .error _ => d

/-- Two empty boundary slots. -/
def emptySlots : List BoundaryBufferItem := [BoundaryBufferItem.new, BoundaryBufferItem.new]

/-- Two boundary slots without a complete packet; VC 0 holds a tail-less fragment. -/
def idleSlots : List BoundaryBufferItem := [⟨[⟨3, false⟩], 0⟩, ⟨[], 0⟩]

/-- The interface constructed with four nodes, one subnet, two VCs and all capacities 4. -/
def fourNodes : Interface :=
  stateOf (Interface.construct 4 1 2 1 4 4 4 4) (demoNode emptySlots 0)

/-- A single-flit packet with payload 77 for VC 0, destined to node 3. -/
def flitTo3 : Flit := { vc := 0, head := true, tail := true, dest := 3, data := 77 }

/-- Both VCs of `twoVC` hold one single-flit packet; the one on VC 0 has a null payload. -/
def twoVCnullFirst : Except Fault Interface := do
  let s ← twoVC
  let s ← s.WriteOutBuffer 0 0 (pkt 0 0)
  let s ← s.WriteOutBuffer 0 0 (pkt 1 21)
  s.Transfer2BoundaryBuffer 0 0

/-- The flits that one `Transfer2BoundaryBuffer(subnet, output)` call moves out of the ejection
slots of VCs `0..n-1`, in increasing VC order. -/
def movedFlits (s : Interface) (subnet output n : Nat) : List Flit :=
  (List.range n).filterMap (fun k => movesAt s subnet output k)

/-- A node with a flit waiting on each of its two VCs (payloads 5 and 6, both single-flit
packets for node 0). -/
def waitingNode : Interface :=
  { demoNode emptySlots 0 with
    ejection_buffer := [[[[pkt 0 5], [pkt 1 6]]]] }

/-- The fragments that a `pop` call taking `s` to `s1` removed from the front of boundary slot
`[a][b][k]` (none for any other call). -/
def removedBy (op : Op) (s s1 : Interface) (a b k : Nat) : List Buffer :=
  match op, get3 s.boundary_buffer a b k, get3 s1.boundary_buffer a b k with
  | .pop _ _, some i0, some i1 => i0.buffer.take (i0.buffer.length - i1.buffer.length)
  | _, _, _ => []

/-- The fragments that the `pop` calls of the run of `ops` from `s` removed from boundary slot
`[a][b][k]`, in order of removal. -/
def poppedFrom (a b k : Nat) : List Op → Interface → List Buffer
  | [], _ => []
  | op :: ops, s =>
    match op.run s with
    | .error _ => []
    | .ok s1 => removedBy op s s1 a b k ++ poppedFrom a b k ops s1

/-- Two single-flit packets arrive on VC 0 and are transferred; the first one is popped. -/
def demoTraffic : List Op :=
  [.WriteOutBuffer 0 0 (pkt 0 5), .WriteOutBuffer 0 0 (pkt 0 6), .Transfer2BoundaryBuffer 0 0,
   .pop 0 0, .Transfer2BoundaryBuffer 0 0]

/-- The results of `n` successive `GetEjectedFlit(subnet, nid)` calls, oldest first, and the
state after them. -/
def getEjectedFlits (subnet nid : Nat) :
    Nat → Interface → Except Fault (List (Option Flit) × Interface)
  | 0, s => .ok ([], s)
  | n + 1, s =>
    match s.GetEjectedFlit subnet nid with
    | .error e => .error e
    | .ok (fl, s1) =>
      match getEjectedFlits subnet nid n s1 with
      | .error e => .error e
      | .ok (fls, s2) => .ok (fl :: fls, s2)

/-- The state of `waitingNode` after one transfer: both flits are in the ejected-flit queue. -/
def transferredNode : Interface :=
  stateOf (waitingNode.Transfer2BoundaryBuffer 0 0) waitingNode

/-- The slots and the ejected-flit queue of node `(subnet, output)` exist for every VC below
`vcs`, as after construction. -/
def NodeShape (s : Interface) (subnet output : Nat) : Prop :=
  (∀ k, k < s.vcs.toNat →
    (get3 s.ejection_buffer subnet output k).isSome = true ∧
    (get3 s.boundary_buffer subnet output k).isSome = true) ∧
  (get2 s.ejected_flit_queue subnet output).isSome = true

/-- The loop iteration of `Transfer2BoundaryBuffer` for VC `k` transfers a flit (the ejection
slot is non-empty and the boundary slot has room) that is null or is a head flit whose recorded
destination differs from `output`. -/
def transferBad (s : Interface) (subnet output k : Nat) : Prop :=
  ∃ flit rest item,
    get3 s.ejection_buffer subnet output k = some (flit :: rest) ∧
    get3 s.boundary_buffer subnet output k = some item ∧
    item.size < s.boundary_buffer_capacity ∧
    (flit = none ∨ ∃ f, flit = some f ∧ f.head = true ∧ f.dest ≠ (output : Int))

/-- A node whose VC 0 holds a head flit destined to node 3 and whose VC 1 holds a body flit
destined to node 3; the node itself is node 0. -/
def misroutedNode : Interface :=
  { demoNode emptySlots 0 with
    ejection_buffer :=
      [[[[some ⟨0, true, true, 3, 5⟩], [some ⟨1, false, true, 3, 6⟩]]]] }

/-- A call of `push` or `pop` on a `BoundaryBufferItem`. -/
inductive ItemOp where
  | push (packet : Nat) (is_tail : Bool)
  | pop
  deriving DecidableEq, Repr

/-- The slot after a call. -/
def ItemOp.run (item : BoundaryBufferItem) : ItemOp → Except Fault BoundaryBufferItem
  | .push packet is_tail => .ok (item.push packet is_tail)
  | .pop => item.pop

/-- The slot after a sequence of calls, failing as soon as a `pop` fails. -/
def runItemOps : List ItemOp → BoundaryBufferItem → Except Fault BoundaryBufferItem
  | [], item => .ok item
  | op :: ops, item =>
    match op.run item with
    | .error e => .error e
    | .ok item1 => runItemOps ops item1

/-- The interface constructed with one node, one subnet, two VCs and all capacities 4. -/
def twoVCstate : Interface :=
  stateOf (Interface.construct 1 1 2 1 4 4 4 4) (demoNode emptySlots 0)

/-- Calls that supply each of the two VCs with two single-flit packets. -/
def supplyOps : List Op :=
  [.WriteOutBuffer 0 0 (pkt 0 11), .WriteOutBuffer 0 0 (pkt 1 21), .Transfer2BoundaryBuffer 0 0,
   .WriteOutBuffer 0 0 (pkt 0 12), .WriteOutBuffer 0 0 (pkt 1 22), .Transfer2BoundaryBuffer 0 0]

/-- The state of `twoVCstate` after `supplyOps`. -/
def suppliedState : Interface :=
  stateOf (runOps supplyOps twoVCstate) twoVCstate

/-- Where the flit stream `S` of one VC is while its first `cap` flits carry no tail: the first
`j` flits have arrived, the first `m ≤ cap` of them sit in the boundary slot as tail-less
fragments (complete-packet count 0) and flits `m..j-1` wait in the ejection slot. -/
def OversizeInv (S : List Flit) (cap : Nat) (s : Interface) (a b k j : Nat) : Prop :=
  s.boundary_buffer_capacity = cap ∧
  ∃ m, m ≤ j ∧ m ≤ cap ∧ j ≤ S.length ∧
    get3 s.ejection_buffer a b k = some (((S.take j).drop m).map some) ∧
    get3 s.boundary_buffer a b k = some ⟨(S.take m).map frag, 0⟩

/-- A body (non-head, non-tail) flit for VC 0 with payload `data`. -/
def body0 (data : Nat) : Flit := flit0 false false data

/-- A node with boundary capacity 4 whose VC 0 has the first four flits of a five-flit packet
waiting in its ejection slot. -/
def oversizeNode : Interface :=
  { demoNode emptySlots 0 with
    ejection_buffer :=
      [[[[some (flit0 true false 1), some (body0 2), some (body0 3), some (body0 4)], []]]] }

/-- Four transfers, the arrival of the tail flit, further transfers and a `pop`. -/
def oversizeOps : List Op :=
  [.Transfer2BoundaryBuffer 0 0, .Transfer2BoundaryBuffer 0 0, .Transfer2BoundaryBuffer 0 0,
   .Transfer2BoundaryBuffer 0 0, .WriteOutBuffer 0 0 (some (flit0 false true 5)),
   .Transfer2BoundaryBuffer 0 0, .pop 0 0, .top 0 0, .Transfer2BoundaryBuffer 0 0]

/-- The four flits waiting in the ejection slot of VC 0 of `oversizeNode`. -/
def oversizeHead : List Flit := [flit0 true false 1, body0 2, body0 3, body0 4]

/-- The state of `oversizeNode` after `oversizeOps`. -/
def oversizeAfter : Interface :=
  stateOf (runOps oversizeOps oversizeNode) oversizeNode

theorem get2_set2 {α : Type} (xs : List (List α)) (i j a b : Nat) (v : α) :
    get2 (set2 xs i j v) a b =
      if i = a ∧ j = b then (if (get2 xs i j).isSome then some v else none) else get2 xs a b := by
  unfold set2 get2
  cases hi : xs[i]? with
  | none =>
    simp only []
    by_cases h : i = a ∧ j = b
    · obtain ⟨rfl, rfl⟩ := h; simp [hi]
    · simp [h]
  | some row =>
    simp only [List.getElem?_set]
    have hlt : i < xs.length := by
      rcases List.getElem?_eq_some.mp hi with ⟨h, _⟩; exact h
    by_cases hia : i = a
    · subst hia
      simp only [hlt, if_true, true_and, hi, List.getElem?_set]
      by_cases hjb : j = b
      · subst hjb
        by_cases hj : j < row.length
        · simp [hj]
        · simp [hj, List.getElem?_eq_none (Nat.le_of_not_lt hj)]
      · simp [hjb]
    · simp [hia]

theorem get2_set2_self {α : Type} (xs : List (List α)) (i j : Nat) (v w : α)
    (h : get2 xs i j = some w) : get2 (set2 xs i j v) i j = some v := by
  rw [get2_set2]; simp [h]

theorem get3_eq {α : Type} (xs : List (List (List α))) (i j k : Nat) (row : List α)
    (h : get2 xs i j = some row) : get3 xs i j k = row[k]? := by
  simp [get3, h]

theorem get2_set3_self {α : Type} (xs : List (List (List α))) (i j k : Nat) (v : α)
    (row : List α) (h : get2 xs i j = some row) :
    get2 (set3 xs i j k v) i j = some (row.set k v) := by
  simp only [set3, h]
  exact get2_set2_self xs i j _ row h

theorem get2_set3_ne {α : Type} (xs : List (List (List α))) (i j k a b : Nat) (v : α)
    (h : ¬ (i = a ∧ j = b)) :
    get2 (set3 xs i j k v) a b = get2 xs a b := by
  unfold set3
  cases hg : get2 xs i j with
  | none => rfl
  | some row => simp only [get2_set2, h, if_false]

theorem get3i_natCast {α : Type} (xs : List (List (List α))) (i j t : Nat) :
    get3i xs i j (t : Int) = get3 xs i j t := by
  simp [get3i]

theorem tmod_succ_natCast (t N : Nat) :
    ((t : Int) + 1).tmod (N : Int) = (((t + 1) % N : Nat) : Int) := by
  rw [Int.tmod_eq_emod (by omega) (by omega)]
  push_cast
  rfl
/-! ### Claims on the round-robin cursor -/

/-- C1 (code defect): with two virtual channels that both hold two complete packets and the
cursor at 0, two consecutive `pop(0, 0)` calls both remove a packet from VC 0 (payloads 11 and
12) and leave VC 1 untouched, so VC 1 is not serviced in a round of two calls. -/
theorem pop_twice_services_vc0_twice :
    slots00 twoVCsupplied
        = .ok (some [⟨[⟨11, true⟩, ⟨12, true⟩], 2⟩, ⟨[⟨21, true⟩, ⟨22, true⟩], 2⟩]) ∧
      cursor00 twoVCsupplied = .ok (some 0) ∧
      slots00 (twoVCsupplied >>= fun s => s.pop 0 0)
        = .ok (some [⟨[⟨12, true⟩], 1⟩, ⟨[⟨21, true⟩, ⟨22, true⟩], 2⟩]) ∧
      slots00 ((twoVCsupplied >>= fun s => s.pop 0 0) >>= fun s => s.pop 0 0)
        = .ok (some [⟨[], 0⟩, ⟨[⟨21, true⟩, ⟨22, true⟩], 2⟩]) := by
  refine ⟨?_, ?_, ?_, ?_⟩ <;> rfl

/-- C2 (code defect): with two virtual channels, the cursor at 0 and one complete packet on
VC 0, `pop(0, 0)` removes that packet from VC 0 and the cursor afterwards is still 0, not
`(0 + 1) mod 2 = 1`. -/
theorem pop_serviced_cursor_stays :
    slots00 twoVCone = .ok (some [⟨[⟨11, true⟩], 1⟩, ⟨[], 0⟩]) ∧
      cursor00 twoVCone = .ok (some 0) ∧
      slots00 (twoVCone >>= fun s => s.pop 0 0) = .ok (some [⟨[], 0⟩, ⟨[], 0⟩]) ∧
      cursor00 (twoVCone >>= fun s => s.pop 0 0) = .ok (some 0) := by
  refine ⟨?_, ?_, ?_, ?_⟩ <;> rfl

/-! ### The scan of `top` and `pop` -/

theorem set2_get2_self {α : Type} (xs : List (List α)) (i j : Nat) (v : α)
    (h : get2 xs i j = some v) : set2 xs i j v = xs := by
  unfold get2 at h
  unfold set2
  cases hi : xs[i]? with
  | none => rfl
  | some row =>
    rw [hi] at h
    simp only at h
    have h1 : row.set j v = row := by
      apply List.ext_getElem?
      intro n
      rw [List.getElem?_set]
      by_cases hjn : j = n
      · subst hjn
        rcases List.getElem?_eq_some.mp h with ⟨hlt, _⟩
        simp [hlt, h]
      · simp [hjn]
    simp only [h1]
    apply List.ext_getElem?
    intro n
    rw [List.getElem?_set]
    by_cases hin : i = n
    · subst hin
      rcases List.getElem?_eq_some.mp hi with ⟨hlt, _⟩
      simp [hlt, hi]
    · simp [hin]

theorem cyclic_shift (t N n : Nat) :
    (List.range (n + 1)).map (fun k => (t + k) % N)
      = t % N :: (List.range n).map (fun k => ((t + 1) % N + k) % N) := by
  rw [List.range_succ_eq_map, List.map_cons, List.map_map]
  simp only [Nat.add_zero, List.cons.injEq, true_and]
  apply List.map_congr_left
  intro k _
  simp only [Function.comp, Nat.succ_eq_add_one]
  rw [Nat.add_mod ((t + 1) % N), Nat.mod_mod, ← Nat.add_mod]
  congr 1
  omega

theorem topLoop_eq (s : Interface) (nid subnet N : Nat) (slots : List BoundaryBufferItem)
    (hs : get2 s.boundary_buffer subnet nid = some slots)
    (hN : s.vcs = (N : Int)) (hlen : slots.length = N) :
    ∀ (n t : Nat), t < N →
      s.topLoop nid subnet n (t : Int) =
        match ((List.range n).map (fun k => (t + k) % N)).find? (nonEmptyAt slots) with
        | none => .ok 0
        | some v =>
          match slots[v]? with
          | none => .error .undefined
          | some item => item.top := by
  intro n
  induction n with
  | zero => intro t _; rfl
  | succ n ih =>
    intro t ht
    rw [cyclic_shift, Nat.mod_eq_of_lt ht, List.find?_cons]
    unfold Interface.topLoop
    rw [get3i_natCast, get3_eq _ _ _ _ _ hs]
    have hlt : t < slots.length := by omega
    obtain ⟨item, hitem⟩ : ∃ item, slots[t]? = some item := ⟨slots[t], by simp [hlt]⟩
    simp only [hitem, nonEmptyAt]
    by_cases he : item.is_empty = true
    · simp only [he, Bool.not_true, Bool.false_eq_true, if_false]
      rw [hN, tmod_succ_natCast, ih _ (Nat.mod_lt _ (by omega))]
    · simp only [Bool.not_eq_true] at he
      simp [he, hitem]

theorem popLoop_eq (s : Interface) (nid subnet N : Nat) (slots : List BoundaryBufferItem)
    (hs : get2 s.boundary_buffer subnet nid = some slots)
    (hN : s.vcs = (N : Int)) (hlen : slots.length = N) :
    ∀ (n : Nat) (vc : Int) (t : Nat), t < N →
      match ((List.range n).map (fun k => (t + k) % N)).find? (nonEmptyAt slots) with
      | none => s.popLoop nid subnet n vc (t : Int) = .ok (s, vc + n, (((t + n) % N : Nat) : Int))
      | some v =>
        ∃ vc1 : Int, vc ≤ vc1 ∧ vc1 < vc + n ∧
          s.popLoop nid subnet n vc (t : Int) =
            match slots[v]? with
            | none => .error .undefined
            | some item =>
              match item.pop with
              | .error e => .error e
              | .ok item1 =>
                .ok ({ s with boundary_buffer := set3 s.boundary_buffer subnet nid v item1 },
                     vc1, (v : Int)) := by
  intro n
  induction n with
  | zero =>
    intro vc t ht
    simp [Interface.popLoop, Nat.mod_eq_of_lt ht]
  | succ n ih =>
    intro vc t ht
    rw [cyclic_shift, Nat.mod_eq_of_lt ht, List.find?_cons]
    have hlt : t < slots.length := by omega
    obtain ⟨item, hitem⟩ : ∃ item, slots[t]? = some item := ⟨slots[t], by simp [hlt]⟩
    have hunf : s.popLoop nid subnet (n + 1) vc (t : Int) =
        if (!item.is_empty) = true then
          match item.pop with
          | .error e => .error e
          | .ok item1 =>
            .ok ({ s with boundary_buffer := set3 s.boundary_buffer subnet nid t item1 },
                 vc, (t : Int))
        else s.popLoop nid subnet n (vc + 1) ((((t + 1) % N : Nat)) : Int) := by
      rw [Interface.popLoop, get3i_natCast, get3_eq _ _ _ _ _ hs, hitem]
      simp only [Int.toNat_ofNat, hN, tmod_succ_natCast]
    by_cases he : item.is_empty = true
    · have hne : nonEmptyAt slots t = false := by simp [nonEmptyAt, hitem, he]
      simp only [hne]
      have := ih (vc + 1) ((t + 1) % N) (Nat.mod_lt _ (by omega))
      have hmod : ((t + 1) % N + n) % N = (t + (n + 1)) % N := by
        rw [Nat.add_mod ((t + 1) % N), Nat.mod_mod, ← Nat.add_mod]
        congr 1
        omega
      rw [hunf]
      simp only [he, Bool.not_true, Bool.false_eq_true, if_false]
      split at this
      · rename_i h1
        have hvc : vc + 1 + (n : Int) = vc + ((n + 1 : Nat) : Int) := by push_cast; omega
        simp only [h1, this, hmod, hvc]
      · rename_i v h1
        simp only [h1]
        obtain ⟨vc1, h2, h3, h4⟩ := this
        exact ⟨vc1, by omega, by push_cast; omega, h4⟩
    · simp only [Bool.not_eq_true] at he
      have hne : nonEmptyAt slots t = true := by simp [nonEmptyAt, hitem, he]
      simp only [hne]
      refine ⟨vc, le_refl _, by push_cast; omega, ?_⟩
      rw [hunf]
      simp [he, hitem]

/-! ### Boundary slots -/

theorem dropWhile_of_tail (buffer : List Buffer)
    (h : 0 < buffer.countP (fun buf => buf.is_tail)) :
    ∃ pre t rest, buffer = pre ++ t :: rest ∧ (∀ b ∈ pre, b.is_tail = false) ∧
      t.is_tail = true ∧ buffer.dropWhile (fun buf => !buf.is_tail) = t :: rest ∧
      buffer.find? (fun buf => buf.is_tail) = some t ∧
      rest.countP (fun buf => buf.is_tail) + 1 = buffer.countP (fun buf => buf.is_tail) := by
  induction buffer with
  | nil => simp at h
  | cons a l ih =>
    by_cases ha : a.is_tail = true
    · refine ⟨[], a, l, rfl, by simp, ha, ?_, ?_, ?_⟩
      · simp [List.dropWhile_cons, ha]
      · simp [List.find?_cons, ha]
      · simp [List.countP_cons, ha]
    · simp only [Bool.not_eq_true] at ha
      have h1 : 0 < l.countP (fun buf => buf.is_tail) := by
        simpa [List.countP_cons, ha] using h
      obtain ⟨pre, t, rest, e1, e2, e3, e4, e5, e6⟩ := ih h1
      refine ⟨a :: pre, t, rest, by simp [e1], ?_, e3, ?_, ?_, ?_⟩
      · intro b hb
        rcases List.mem_cons.mp hb with rfl | hb
        · exact ha
        · exact e2 b hb
      · simp [List.dropWhile_cons, ha, e4]
      · simp [List.find?_cons, ha, e5]
      · simp [List.countP_cons, ha, e6]

theorem is_empty_iff_of_counted (item : BoundaryBufferItem) (h : Counted item) :
    item.is_empty = true ↔ completePackets item = 0 := by
  unfold Counted at h
  simp [BoundaryBufferItem.is_empty, h.1]

theorem nonEmptyAt_eq_readyAt (slots : List BoundaryBufferItem)
    (h : ∀ item ∈ slots, Counted item) : nonEmptyAt slots = readyAt slots := by
  funext v
  unfold nonEmptyAt readyAt
  cases hv : slots[v]? with
  | none => rfl
  | some item =>
    have hc := is_empty_iff_of_counted item (h item (List.getElem?_mem hv))
    by_cases he : item.is_empty = true
    · simp [he, hc.mp he]
    · have : completePackets item ≠ 0 := fun h0 => he (hc.mpr h0)
      simp only [Bool.not_eq_true] at he
      simp [he]
      omega

theorem item_top_eq (item : BoundaryBufferItem) (h : Counted item)
    (hr : 0 < completePackets item) :
    ∃ b, firstTail item.buffer = some b ∧ b.is_tail = true ∧
      item.top = if b.packet = 0 then .error .assertion else .ok b.packet := by
  obtain ⟨pre, t, rest, _, _, e3, e4, e5, _⟩ := dropWhile_of_tail item.buffer hr
  have hne : item.is_empty = false := by
    have := is_empty_iff_of_counted item h
    cases hb : item.is_empty
    · rfl
    · have := this.mp hb; omega
  refine ⟨t, e5, e3, ?_⟩
  simp [BoundaryBufferItem.top, hne, e4]

theorem item_pop_eq (item : BoundaryBufferItem) (h : Counted item)
    (hr : 0 < completePackets item) :
    ∃ pre t rest, item.buffer = pre ++ t :: rest ∧ (∀ b ∈ pre, b.is_tail = false) ∧
      t.is_tail = true ∧ firstTail item.buffer = some t ∧
      completePackets ⟨rest, item.num_packets - 1⟩ + 1 = completePackets item ∧
      Counted ⟨rest, item.num_packets - 1⟩ ∧
      item.pop = if t.packet = 0 then .error .assertion
                 else .ok ⟨rest, item.num_packets - 1⟩ := by
  obtain ⟨pre, t, rest, e1, e2, e3, e4, e5, e6⟩ := dropWhile_of_tail item.buffer hr
  have hne : item.is_empty = false := by
    have := is_empty_iff_of_counted item h
    cases hb : item.is_empty
    · rfl
    · have := this.mp hb; omega
  obtain ⟨hc1, hc2⟩ := h
  have hnp : (item.num_packets + (2 ^ 32 - 1)) % 2 ^ 32 = item.num_packets - 1 := by
    have : 0 < item.num_packets := by rw [hc1]; exact hr
    omega
  refine ⟨pre, t, rest, e1, e2, e3, e5, e6, ?_, ?_⟩
  · constructor
    · show item.num_packets - 1 = rest.countP (fun buf => buf.is_tail)
      unfold completePackets at hc1
      omega
    · show item.num_packets - 1 < 2 ^ 32
      omega
  · have hnp1 : (item.num_packets + 4294967295) % 4294967296 = item.num_packets - 1 := by
      omega
    simp [BoundaryBufferItem.pop, hne, e4, hnp1]

/-! ### `top` and `pop` on a node -/

theorem scan_eq_firstReady (slots : List BoundaryBufferItem) (t : Nat)
    (h : ∀ item ∈ slots, Counted item) :
    ((List.range slots.length).map (fun k => (t + k) % slots.length)).find? (nonEmptyAt slots)
      = firstReady slots t := by
  rw [nonEmptyAt_eq_readyAt slots h]
  rfl

theorem mem_cyclicOrder (c N i : Nat) (hc : c < N) (hi : i < N) : i ∈ cyclicOrder c N := by
  unfold cyclicOrder
  rw [List.mem_map]
  by_cases h : c ≤ i
  · refine ⟨i - c, List.mem_range.mpr (by omega), ?_⟩
    have : c + (i - c) = i := by omega
    rw [this, Nat.mod_eq_of_lt hi]
  · refine ⟨i + N - c, List.mem_range.mpr (by omega), ?_⟩
    have : c + (i + N - c) = i + N := by omega
    rw [this, Nat.add_mod_right, Nat.mod_eq_of_lt hi]

theorem firstReady_isSome (slots : List BoundaryBufferItem) (c : Nat) (hc : c < slots.length)
    (h : ∃ item ∈ slots, 0 < completePackets item) :
    ∃ v item, firstReady slots c = some v ∧ slots[v]? = some item ∧
      0 < completePackets item := by
  obtain ⟨item, hmem, hpos⟩ := h
  obtain ⟨i, hi⟩ := List.mem_iff_getElem?.mp hmem
  have hilt : i < slots.length := (List.getElem?_eq_some.mp hi).1
  have hsome : (firstReady slots c).isSome = true := by
    unfold firstReady
    rw [List.find?_isSome]
    exact ⟨i, mem_cyclicOrder c _ i hc hilt, by simp [readyAt, hi, hpos]⟩
  obtain ⟨v, hv⟩ := Option.isSome_iff_exists.mp hsome
  have hp := List.find?_some hv
  unfold readyAt at hp
  cases hvi : slots[v]? with
  | none => simp [hvi] at hp
  | some item1 =>
    simp only [hvi, decide_eq_true_eq] at hp
    exact ⟨v, item1, hv, hvi, hp⟩

theorem firstReady_none (slots : List BoundaryBufferItem) (c : Nat) (hc : c < slots.length)
    (h : firstReady slots c = none) : ∀ item ∈ slots, completePackets item = 0 := by
  intro item hmem
  by_contra hne
  obtain ⟨v, item1, hv, _, _⟩ :=
    firstReady_isSome slots c hc ⟨item, hmem, Nat.pos_of_ne_zero hne⟩
  rw [h] at hv
  cases hv

theorem top_eq (s : Interface) (nid subnet : Nat) (c : Int) (slots : List BoundaryBufferItem)
    (hturn : get2 s.round_robin_turn subnet nid = some c)
    (hc : 0 ≤ c ∧ c < s.vcs)
    (hslots : get2 s.boundary_buffer subnet nid = some slots)
    (hlen : (slots.length : Int) = s.vcs)
    (hcnt : ∀ item ∈ slots, Counted item) :
    s.top nid subnet =
      match firstReady slots c.toNat with
      | none => .ok 0
      | some v =>
        match slots[v]? with
        | none => .error .undefined
        | some item => item.top := by
  have hct : c = ((c.toNat : Nat) : Int) := (Int.toNat_of_nonneg hc.1).symm
  have ht : c.toNat < slots.length := by omega
  have hv : s.vcs.toNat = slots.length := by omega
  unfold Interface.top
  rw [hturn]
  simp only []
  rw [hct, hv, topLoop_eq s nid subnet slots.length slots hslots hlen.symm rfl _ _ ht,
    scan_eq_firstReady slots _ hcnt, ← hct]

theorem pop_eq (s : Interface) (nid subnet : Nat) (c : Int) (slots : List BoundaryBufferItem)
    (hturn : get2 s.round_robin_turn subnet nid = some c)
    (hc : 0 ≤ c ∧ c < s.vcs)
    (hslots : get2 s.boundary_buffer subnet nid = some slots)
    (hlen : (slots.length : Int) = s.vcs)
    (hcnt : ∀ item ∈ slots, Counted item) :
    s.pop nid subnet =
      match firstReady slots c.toNat with
      | none => .ok s
      | some v =>
        match slots[v]? with
        | none => .error .undefined
        | some item =>
          match item.pop with
          | .error e => .error e
          | .ok item1 =>
            .ok { s with boundary_buffer := set3 s.boundary_buffer subnet nid v item1 } := by
  have hct : c = ((c.toNat : Nat) : Int) := (Int.toNat_of_nonneg hc.1).symm
  have ht : c.toNat < slots.length := by omega
  have hv : s.vcs.toNat = slots.length := by omega
  have hloop := popLoop_eq s nid subnet slots.length slots hslots hlen.symm rfl
    slots.length 0 c.toNat ht
  rw [scan_eq_firstReady slots _ hcnt] at hloop
  unfold Interface.pop
  rw [hturn]
  simp only []
  rw [hv]
  cases hf : firstReady slots c.toNat with
  | none =>
    rw [hf] at hloop
    simp only [] at hloop
    rw [← hct] at hloop
    rw [hloop]
    have hm : (c.toNat + slots.length) % slots.length = c.toNat := by
      rw [Nat.add_mod_right, Nat.mod_eq_of_lt ht]
    simp only [hm, zero_add, hlen, if_true, ← hct]
    rw [set2_get2_self _ _ _ _ hturn]
  | some v =>
    rw [hf] at hloop
    obtain ⟨vc1, h1, h2, h3⟩ := hloop
    rw [← hct] at h3
    rw [h3]
    cases hsv : slots[v]? with
    | none => simp [hsv]
    | some item =>
      simp only []
      cases hp : item.pop with
      | error e => simp [hsv, hp]
      | ok item1 =>
        simp only []
        have : vc1 ≠ s.vcs := by omega
        simp [hsv, hp, this]

/-! ### Claims on `top` and `pop` -/

theorem demoSlots_counted : ∀ item ∈ demoSlots, Counted item := by
  intro item h
  simp only [demoSlots, List.mem_cons, List.mem_singleton, List.not_mem_nil, or_false] at h
  rcases h with rfl | rfl <;> exact ⟨by decide, by decide⟩

/-- C3 (counterexample): after a tail flit with a null payload has been transferred to VC 0,
that slot holds one complete packet and the cursor is 0, yet `top(0, 0)` does not return: it
stops on the assertion `it->packet != nullptr`. -/
theorem top_null_payload_aborts :
    slots00 twoVCnull = .ok (some [⟨[⟨0, true⟩], 1⟩, ⟨[], 0⟩]) ∧
      cursor00 twoVCnull = .ok (some 0) ∧
      (twoVCnull >>= fun s => s.top 0 0) = .error .assertion := by
  refine ⟨?_, ?_, ?_⟩ <;> rfl

/-- C3 (amended): for a node whose cursor `c` lies in `[0, vcs)` and whose slots satisfy the
counting invariant, `top` returns null when no VC holds a complete packet; otherwise, for the
first VC `v` in the cyclic order `c, c+1, ...` that holds a complete packet, it returns the
payload of the first tail-marked fragment of slot `v` when that payload is non-null and fails
an assertion when it is null. `top` yields only this value: it has no effect on the state. -/
theorem top_returns_first_ready (s : Interface) (nid subnet : Nat) (c : Int)
    (slots : List BoundaryBufferItem)
    (hturn : get2 s.round_robin_turn subnet nid = some c)
    (hc : 0 ≤ c ∧ c < s.vcs)
    (hslots : get2 s.boundary_buffer subnet nid = some slots)
    (hlen : (slots.length : Int) = s.vcs)
    (hcnt : ∀ item ∈ slots, Counted item) :
    match firstReady slots c.toNat with
    | none => (∀ item ∈ slots, completePackets item = 0) ∧ s.top nid subnet = .ok 0
    | some v =>
      ∃ item b, slots[v]? = some item ∧ firstTail item.buffer = some b ∧ b.is_tail = true ∧
        s.top nid subnet = if b.packet = 0 then .error .assertion else .ok b.packet := by
  have ht : c.toNat < slots.length := by omega
  have htop := top_eq s nid subnet c slots hturn hc hslots hlen hcnt
  cases hf : firstReady slots c.toNat with
  | none =>
    rw [hf] at htop
    exact ⟨firstReady_none slots _ ht hf, htop⟩
  | some v =>
    rw [hf] at htop
    simp only []
    have hp := List.find?_some hf
    unfold readyAt at hp
    cases hvi : slots[v]? with
    | none => simp [hvi] at hp
    | some item =>
      simp only [hvi, decide_eq_true_eq] at hp htop
      obtain ⟨b, hb1, hb2, hb3⟩ := item_top_eq item (hcnt item (List.getElem?_mem hvi)) hp
      exact ⟨item, b, rfl, hb1, hb2, by rw [htop, hb3]⟩

/-- C3 (witness): with the cursor at 1, `top` reads VC 1 and returns its payload 9. -/
theorem top_returns_first_ready_witness :
    ∃ item b, demoSlots[1]? = some item ∧ firstTail item.buffer = some b ∧ b.is_tail = true ∧
      (demoNode demoSlots 1).top 0 0 = if b.packet = 0 then .error .assertion else .ok b.packet :=
  top_returns_first_ready (demoNode demoSlots 1) 0 0 1 demoSlots rfl (by decide) rfl rfl
    demoSlots_counted

/-- C4 (counterexample): in the same state (one complete packet on VC 0 whose tail fragment has
a null payload, cursor 0) `pop(0, 0)` removes nothing: it stops on the assertion
`it->packet != nullptr`. -/
theorem pop_null_payload_aborts :
    slots00 twoVCnull = .ok (some [⟨[⟨0, true⟩], 1⟩, ⟨[], 0⟩]) ∧
      cursor00 twoVCnull = .ok (some 0) ∧
      slots00 (twoVCnull >>= fun s => s.pop 0 0) = .error .assertion := by
  refine ⟨?_, ?_, ?_⟩ <;> rfl

/-- C4 (amended): for a node whose cursor `c` lies in `[0, vcs)`, whose slots satisfy the
counting invariant and at least one of which holds a complete packet, let `v` be the first
ready VC in cyclic order from `c`; provided the first tail-marked fragment of slot `v` has a
non-null payload, `pop` succeeds, `top` reads that same fragment, and the new state differs from
the old one only in slot `v`, whose buffer loses exactly its fragments from the head through the
first tail-marked fragment `t` (the fragments `rest` after it are kept in order) and whose
complete-packet count drops by one; every other slot is unchanged. -/
theorem pop_removes_first_packet (s : Interface) (nid subnet : Nat) (c : Int)
    (slots : List BoundaryBufferItem)
    (hturn : get2 s.round_robin_turn subnet nid = some c)
    (hc : 0 ≤ c ∧ c < s.vcs)
    (hslots : get2 s.boundary_buffer subnet nid = some slots)
    (hlen : (slots.length : Int) = s.vcs)
    (hcnt : ∀ item ∈ slots, Counted item)
    (hex : ∃ item ∈ slots, 0 < completePackets item)
    (hnz : ∀ v item b, firstReady slots c.toNat = some v → slots[v]? = some item →
      firstTail item.buffer = some b → b.packet ≠ 0) :
    ∃ v item pre t rest,
      firstReady slots c.toNat = some v ∧ slots[v]? = some item ∧
      item.buffer = pre ++ t :: rest ∧ (∀ b ∈ pre, b.is_tail = false) ∧ t.is_tail = true ∧
      s.top nid subnet = .ok t.packet ∧
      s.pop nid subnet =
        .ok { s with
              boundary_buffer :=
                set3 s.boundary_buffer subnet nid v ⟨rest, item.num_packets - 1⟩ } ∧
      get2 (set3 s.boundary_buffer subnet nid v ⟨rest, item.num_packets - 1⟩) subnet nid
        = some (slots.set v ⟨rest, item.num_packets - 1⟩) ∧
      (∀ a b, ¬ (subnet = a ∧ nid = b) →
        get2 (set3 s.boundary_buffer subnet nid v ⟨rest, item.num_packets - 1⟩) a b
          = get2 s.boundary_buffer a b) ∧
      completePackets ⟨rest, item.num_packets - 1⟩ + 1 = completePackets item ∧
      (item.num_packets - 1) + 1 = item.num_packets := by
  have ht : c.toNat < slots.length := by omega
  obtain ⟨v, item, hv, hvi, hpos⟩ := firstReady_isSome slots c.toNat ht hex
  have hci := hcnt item (List.getElem?_mem hvi)
  obtain ⟨pre, t, rest, e1, e2, e3, e4, e5, _, e7⟩ := item_pop_eq item hci hpos
  obtain ⟨b, hb1, _, hb3⟩ := item_top_eq item hci hpos
  have hbt : b = t := by
    rw [e4] at hb1
    exact (Option.some.inj hb1).symm
  subst hbt
  have hb0 : b.packet ≠ 0 := hnz v item b hv hvi e4
  have htop := top_eq s nid subnet c slots hturn hc hslots hlen hcnt
  have hpop := pop_eq s nid subnet c slots hturn hc hslots hlen hcnt
  rw [hv] at htop hpop
  simp only [hvi, hb3, e7, hb0, if_false] at htop hpop
  refine ⟨v, item, pre, b, rest, hv, hvi, e1, e2, e3, htop, hpop,
    get2_set3_self _ _ _ _ _ _ hslots, ?_, e5, ?_⟩
  · intro a b1 hab
    exact get2_set3_ne _ _ _ _ _ _ _ hab
  · have : 0 < item.num_packets := by rw [hci.1]; exact hpos
    omega

/-- C4 (witness): with the cursor at 1, `pop` removes the packet with payload 9 from VC 1 and
keeps the tail-less fragment 10 behind it. -/
theorem pop_removes_first_packet_witness :
    (∃ item ∈ demoSlots, 0 < completePackets item) ∧
    ∃ v item pre t rest,
      firstReady demoSlots 1 = some v ∧ demoSlots[v]? = some item ∧
      item.buffer = pre ++ t :: rest ∧ (∀ b ∈ pre, b.is_tail = false) ∧ t.is_tail = true ∧
      (demoNode demoSlots 1).top 0 0 = .ok t.packet ∧
      (demoNode demoSlots 1).pop 0 0 =
        .ok { demoNode demoSlots 1 with
              boundary_buffer :=
                set3 (demoNode demoSlots 1).boundary_buffer 0 0 v
                  ⟨rest, item.num_packets - 1⟩ } ∧
      get2 (set3 (demoNode demoSlots 1).boundary_buffer 0 0 v ⟨rest, item.num_packets - 1⟩) 0 0
        = some (demoSlots.set v ⟨rest, item.num_packets - 1⟩) ∧
      (∀ a b, ¬ (0 = a ∧ 0 = b) →
        get2 (set3 (demoNode demoSlots 1).boundary_buffer 0 0 v ⟨rest, item.num_packets - 1⟩) a b
          = get2 (demoNode demoSlots 1).boundary_buffer a b) ∧
      completePackets ⟨rest, item.num_packets - 1⟩ + 1 = completePackets item ∧
      (item.num_packets - 1) + 1 = item.num_packets :=
  have hex : ∃ item ∈ demoSlots, 0 < completePackets item :=
    ⟨⟨[⟨9, true⟩, ⟨10, false⟩], 1⟩, by simp [demoSlots], by decide⟩
  ⟨hex, pop_removes_first_packet (demoNode demoSlots 1) 0 0 1 demoSlots rfl (by decide) rfl rfl
    demoSlots_counted hex (by
      intro v item b hv hvi hb
      have hv1 : v = 1 := by
        have : firstReady demoSlots 1 = some 1 := by decide
        rw [show ((1 : Int).toNat) = 1 from rfl, this] at hv
        exact (Option.some.inj hv).symm
      subst hv1
      have hi : item = ⟨[⟨9, true⟩, ⟨10, false⟩], 1⟩ := by
        have : demoSlots[1]? = some ⟨[⟨9, true⟩, ⟨10, false⟩], 1⟩ := rfl
        rw [this] at hvi
        exact (Option.some.inj hvi).symm
      subst hi
      have : b = ⟨9, true⟩ := by
        have h9 : firstTail [(⟨9, true⟩ : Buffer), ⟨10, false⟩] = some ⟨9, true⟩ := rfl
        rw [h9] at hb
        exact (Option.some.inj hb).symm
      subst this
      decide)⟩

/-! ### Effect of each call on the slots -/

theorem get3_set3 {α : Type} (xs : List (List (List α))) (i j k a b c : Nat) (v : α) :
    get3 (set3 xs i j k v) a b c =
      if i = a ∧ j = b ∧ k = c then (if (get3 xs i j k).isSome then some v else none)
      else get3 xs a b c := by
  by_cases hab : i = a ∧ j = b
  · obtain ⟨rfl, rfl⟩ := hab
    cases hrow : get2 xs i j with
    | none => simp [get3, set3, hrow]
    | some row =>
      simp only [get3, get2_set3_self xs i j k v row hrow, hrow, List.getElem?_set, true_and]
      by_cases hkc : k = c
      · subst hkc
        by_cases hk : k < row.length
        · simp [hk]
        · simp [hk, List.getElem?_eq_none (Nat.le_of_not_lt hk)]
      · simp [hkc]
  · have hne : ¬ (i = a ∧ j = b ∧ k = c) := fun h => hab ⟨h.1, h.2.1⟩
    simp only [get3, get2_set3_ne xs i j k a b v hab, hne, if_false]

theorem get3_set3_isSome {α : Type} (xs : List (List (List α))) (i j k a b c : Nat) (v : α) :
    (get3 (set3 xs i j k v) a b c).isSome = (get3 xs a b c).isSome := by
  rw [get3_set3]
  by_cases h : i = a ∧ j = b ∧ k = c
  · obtain ⟨rfl, rfl, rfl⟩ := h
    cases hg : get3 xs i j k <;> simp
  · simp [h]

theorem WriteOutBuffer_ok (s s1 : Interface) (subnet : Nat) (output : Int) (flit : Option Flit)
    (h : s.WriteOutBuffer subnet output flit = .ok s1) :
    ∃ f q, flit = some f ∧ 0 ≤ output ∧ 0 ≤ f.vc ∧
      get3 s.ejection_buffer subnet output.toNat f.vc.toNat = some q ∧
      q.length < s.ejection_buffer_capacity ∧
      s1 = { s with
             ejection_buffer :=
               set3 s.ejection_buffer subnet output.toNat f.vc.toNat (q ++ [some f]) } := by
  unfold Interface.WriteOutBuffer at h
  cases flit with
  | none => simp at h
  | some f =>
    simp only [] at h
    by_cases ho : output < 0
    · simp [ho] at h
    · simp only [ho, if_false] at h
      unfold get3i at h
      by_cases hvc : f.vc < 0
      · simp [hvc] at h
      · simp only [hvc, if_false] at h
        cases hq : get3 s.ejection_buffer subnet output.toNat f.vc.toNat with
        | none => simp [hq] at h
        | some q =>
          simp only [hq] at h
          by_cases hcap : q.length < s.ejection_buffer_capacity
          · simp only [hcap, if_true, Except.ok.injEq] at h
            exact ⟨f, q, rfl, by omega, by omega, hq, hcap, h.symm⟩
          · simp [hcap] at h

theorem transferVC_ok (s s1 : Interface) (subnet output vc : Nat)
    (h : s.transferVC subnet output vc = .ok s1) :
    (get3 s.ejection_buffer subnet output vc).isSome = true ∧
    match movesAt s subnet output vc with
    | none => s1 = s
    | some f =>
      ∃ rest item q,
        get3 s.ejection_buffer subnet output vc = some (some f :: rest) ∧
        get3 s.boundary_buffer subnet output vc = some item ∧
        item.size < s.boundary_buffer_capacity ∧
        get2 s.ejected_flit_queue subnet output = some q ∧
        ¬ (f.head = true ∧ (f.dest % 2 ^ 32).toNat ≠ output) ∧
        s1 = { s with
               ejection_buffer := set3 s.ejection_buffer subnet output vc rest
               boundary_buffer :=
                 set3 s.boundary_buffer subnet output vc (item.push f.data f.tail)
               ejected_flit_queue :=
                 set2 s.ejected_flit_queue subnet output (q ++ [some f]) } := by
  unfold Interface.transferVC at h
  unfold movesAt
  cases hej : get3 s.ejection_buffer subnet output vc with
  | none => simp [hej] at h
  | some ej =>
    refine ⟨rfl, ?_⟩
    cases ej with
    | nil =>
      simp only [hej, Except.ok.injEq] at h
      simp [h]
    | cons flit rest =>
      simp only [hej] at h
      cases hbb : get3 s.boundary_buffer subnet output vc with
      | none => simp [hbb] at h
      | some item =>
        simp only [hbb] at h
        by_cases hroom : item.size < s.boundary_buffer_capacity
        · simp only [hroom, if_true] at h
          cases flit with
          | none => simp at h
          | some f =>
            simp only [] at h
            cases hq : get2 s.ejected_flit_queue subnet output with
            | none => simp [hq] at h
            | some q =>
              simp only [hq] at h
              by_cases hd : f.head = true ∧ (f.dest % 2 ^ 32).toNat ≠ output
              · rw [if_pos hd] at h
                cases h
              · rw [if_neg hd] at h
                simp only [Except.ok.injEq] at h
                simp only [hroom, if_true]
                exact ⟨rest, item, q, rfl, rfl, hroom, rfl, hd, h.symm⟩
        · simp only [hroom, if_false, Except.ok.injEq] at h
          cases flit <;> simp [hroom, h.symm]

theorem SameConfig.refl (s : Interface) : SameConfig s s :=
  ⟨rfl, rfl, rfl, rfl, rfl, rfl, rfl, rfl⟩

theorem SameConfig.trans {s s1 s2 : Interface} (h1 : SameConfig s s1) (h2 : SameConfig s1 s2) :
    SameConfig s s2 := by
  obtain ⟨a1, a2, a3, a4, a5, a6, a7, a8⟩ := h1
  obtain ⟨b1, b2, b3, b4, b5, b6, b7, b8⟩ := h2
  exact ⟨b1.trans a1, b2.trans a2, b3.trans a3, b4.trans a4, b5.trans a5, b6.trans a6,
    b7.trans a7, b8.trans a8⟩

theorem transferVC_effect (s s1 : Interface) (subnet output vc : Nat)
    (h : s.transferVC subnet output vc = .ok s1) :
    SameConfig s s1 ∧ s1.round_robin_turn = s.round_robin_turn ∧
    (get3 s.ejection_buffer subnet output vc).isSome = true ∧
    (∀ a b k, get3 s1.ejection_buffer a b k =
      if a = subnet ∧ b = output ∧ k = vc then
        match movesAt s a b k with
        | some _ => (get3 s.ejection_buffer a b k).map List.tail
        | none => get3 s.ejection_buffer a b k
      else get3 s.ejection_buffer a b k) ∧
    (∀ a b k, get3 s1.boundary_buffer a b k =
      if a = subnet ∧ b = output ∧ k = vc then
        match movesAt s a b k with
        | some f => (get3 s.boundary_buffer a b k).map (fun item => item.push f.data f.tail)
        | none => get3 s.boundary_buffer a b k
      else get3 s.boundary_buffer a b k) := by
  obtain ⟨hsome, hm⟩ := transferVC_ok s s1 subnet output vc h
  cases hmv : movesAt s subnet output vc with
  | none =>
    rw [hmv] at hm
    subst hm
    refine ⟨SameConfig.refl _, rfl, hsome, ?_, ?_⟩ <;>
    · intro a b k
      by_cases hit : a = subnet ∧ b = output ∧ k = vc
      · obtain ⟨rfl, rfl, rfl⟩ := hit
        simp [hmv]
      · simp [hit]
  | some f =>
    rw [hmv] at hm
    obtain ⟨rest, item, q, e1, e2, _, _, _, e6⟩ := hm
    subst e6
    refine ⟨SameConfig.refl _, rfl, hsome, ?_, ?_⟩
    · intro a b k
      simp only [get3_set3]
      by_cases hit : a = subnet ∧ b = output ∧ k = vc
      · obtain ⟨rfl, rfl, rfl⟩ := hit
        simp [hmv, e1]
      · have : ¬ (subnet = a ∧ output = b ∧ vc = k) := fun h => hit ⟨h.1.symm, h.2.1.symm, h.2.2.symm⟩
        simp [hit, this]
    · intro a b k
      simp only [get3_set3]
      by_cases hit : a = subnet ∧ b = output ∧ k = vc
      · obtain ⟨rfl, rfl, rfl⟩ := hit
        simp [hmv, e2]
      · have : ¬ (subnet = a ∧ output = b ∧ vc = k) := fun h => hit ⟨h.1.symm, h.2.1.symm, h.2.2.symm⟩
        simp [hit, this]

theorem transferLoop_effect (subnet output : Nat) :
    ∀ (n : Nat) (s s1 : Interface),
      (List.range n).foldlM (fun s vc => s.transferVC subnet output vc) s = .ok s1 →
      SameConfig s s1 ∧ s1.round_robin_turn = s.round_robin_turn ∧
      (∀ k, k < n → (get3 s.ejection_buffer subnet output k).isSome = true) ∧
      (∀ a b k, get3 s1.ejection_buffer a b k =
        if a = subnet ∧ b = output ∧ k < n then
          match movesAt s a b k with
          | some _ => (get3 s.ejection_buffer a b k).map List.tail
          | none => get3 s.ejection_buffer a b k
        else get3 s.ejection_buffer a b k) ∧
      (∀ a b k, get3 s1.boundary_buffer a b k =
        if a = subnet ∧ b = output ∧ k < n then
          match movesAt s a b k with
          | some f => (get3 s.boundary_buffer a b k).map (fun item => item.push f.data f.tail)
          | none => get3 s.boundary_buffer a b k
        else get3 s.boundary_buffer a b k) := by
  intro n
  induction n with
  | zero =>
    intro s s1 h
    simp only [List.range_zero, List.foldlM_nil, pure, Except.pure, Except.ok.injEq] at h
    subst h
    refine ⟨SameConfig.refl _, rfl, ?_, ?_, ?_⟩
    · intro k hk; omega
    · intro a b k; simp
    · intro a b k; simp
  | succ n ih =>
    intro s s1 h
    rw [List.range_succ, List.foldlM_append] at h
    cases hmid : (List.range n).foldlM (fun s vc => s.transferVC subnet output vc) s with
    | error e => simp [hmid, bind, Except.bind] at h
    | ok s2 =>
      simp only [hmid, bind, Except.bind, List.foldlM_cons, List.foldlM_nil, pure,
        Except.pure] at h
      have hstep : s2.transferVC subnet output n = .ok s1 := by
        cases hx : s2.transferVC subnet output n with
        | error e => simp [hx] at h
        | ok s3 => simp only [hx, Except.ok.injEq] at h; rw [h]
      obtain ⟨c1, r1, some1, ej1, bb1⟩ := ih s s2 hmid
      obtain ⟨c2, r2, some2, ej2, bb2⟩ := transferVC_effect s2 s1 subnet output n hstep
      have hejn : get3 s2.ejection_buffer subnet output n = get3 s.ejection_buffer subnet output n := by
        rw [ej1]; simp
      have hbbn : get3 s2.boundary_buffer subnet output n = get3 s.boundary_buffer subnet output n := by
        rw [bb1]; simp
      have hmv : movesAt s2 subnet output n = movesAt s subnet output n := by
        unfold movesAt
        rw [hejn, hbbn, c1.2.2.2.2.2.2.1]
      refine ⟨c1.trans c2, r2.trans r1, ?_, ?_, ?_⟩
      · intro k hk
        by_cases hkn : k = n
        · subst hkn; rw [← hejn]; exact some2
        · exact some1 k (by omega)
      · intro a b k
        rw [ej2]
        by_cases hit : a = subnet ∧ b = output ∧ k = n
        · obtain ⟨rfl, rfl, rfl⟩ := hit
          simp [hmv, hejn]
        · rw [if_neg hit, ej1]
          by_cases hit1 : a = subnet ∧ b = output ∧ k < n
          · have : a = subnet ∧ b = output ∧ k < n + 1 := ⟨hit1.1, hit1.2.1, by omega⟩
            simp [hit1, this]
          · have : ¬ (a = subnet ∧ b = output ∧ k < n + 1) := by
              intro hh
              by_cases hkn : k = n
              · exact hit ⟨hh.1, hh.2.1, hkn⟩
              · exact hit1 ⟨hh.1, hh.2.1, by omega⟩
            simp [hit1, this]
      · intro a b k
        rw [bb2]
        by_cases hit : a = subnet ∧ b = output ∧ k = n
        · obtain ⟨rfl, rfl, rfl⟩ := hit
          simp [hmv, hbbn]
        · rw [if_neg hit, bb1]
          by_cases hit1 : a = subnet ∧ b = output ∧ k < n
          · have : a = subnet ∧ b = output ∧ k < n + 1 := ⟨hit1.1, hit1.2.1, by omega⟩
            simp [hit1, this]
          · have : ¬ (a = subnet ∧ b = output ∧ k < n + 1) := by
              intro hh
              by_cases hkn : k = n
              · exact hit ⟨hh.1, hh.2.1, hkn⟩
              · exact hit1 ⟨hh.1, hh.2.1, by omega⟩
            simp [hit1, this]

theorem popLoop_effect (s : Interface) (nid subnet : Nat) :
    ∀ (n : Nat) (vc turn : Int) (s1 : Interface) (vc1 turn1 : Int),
      s.popLoop nid subnet n vc turn = .ok (s1, vc1, turn1) →
      s1 = s ∨
      ∃ w item item1, get3 s.boundary_buffer subnet nid w = some item ∧
        item.is_empty = false ∧ item.pop = .ok item1 ∧
        s1 = { s with boundary_buffer := set3 s.boundary_buffer subnet nid w item1 } := by
  intro n
  induction n with
  | zero =>
    intro vc turn s1 vc1 turn1 h
    simp only [Interface.popLoop, Except.ok.injEq, Prod.mk.injEq] at h
    exact Or.inl h.1.symm
  | succ n ih =>
    intro vc turn s1 vc1 turn1 h
    unfold Interface.popLoop at h
    cases hg : get3i s.boundary_buffer subnet nid turn with
    | none => simp [hg] at h
    | some item =>
      simp only [hg] at h
      by_cases he : item.is_empty = true
      · simp only [he, Bool.not_true, Bool.false_eq_true, if_false] at h
        exact ih _ _ _ _ _ h
      · simp only [Bool.not_eq_true] at he
        simp only [he, Bool.not_false, if_true] at h
        cases hp : item.pop with
        | error e => simp [hp] at h
        | ok item1 =>
          simp only [hp, Except.ok.injEq, Prod.mk.injEq] at h
          refine Or.inr ⟨turn.toNat, item, item1, ?_, he, hp, h.1.symm⟩
          unfold get3i at hg
          by_cases hneg : turn < 0
          · simp [hneg] at hg
          · simpa [hneg] using hg

theorem pop_effect (s s1 : Interface) (nid subnet : Nat) (h : s.pop nid subnet = .ok s1) :
    SameConfig s s1 ∧ s1.ejection_buffer = s.ejection_buffer ∧
    s1.ejected_flit_queue = s.ejected_flit_queue ∧
    (s1.boundary_buffer = s.boundary_buffer ∨
      ∃ w item item1, get3 s.boundary_buffer subnet nid w = some item ∧
        item.is_empty = false ∧ item.pop = .ok item1 ∧
        s1.boundary_buffer = set3 s.boundary_buffer subnet nid w item1) := by
  unfold Interface.pop at h
  cases ht : get2 s.round_robin_turn subnet nid with
  | none => simp [ht] at h
  | some turn =>
    simp only [ht] at h
    cases hl : s.popLoop nid subnet s.vcs.toNat 0 turn with
    | error e => simp [hl] at h
    | ok r =>
      obtain ⟨s2, vc1, turn1⟩ := r
      simp only [hl] at h
      have hcase := popLoop_effect s nid subnet _ _ _ _ _ _ hl
      have hs1 : s1 = s2 ∨ s1 = { s2 with round_robin_turn := set2 s2.round_robin_turn subnet nid turn1 } := by
        by_cases hv : vc1 = s.vcs
        · simp only [hv, if_true, Except.ok.injEq] at h
          exact Or.inr h.symm
        · simp only [hv, if_false, Except.ok.injEq] at h
          exact Or.inl h.symm
      rcases hcase with rfl | ⟨w, item, item1, e1, e2, e3, rfl⟩
      · rcases hs1 with rfl | rfl
        · exact ⟨SameConfig.refl _, rfl, rfl, Or.inl rfl⟩
        · exact ⟨SameConfig.refl _, rfl, rfl, Or.inl rfl⟩
      · rcases hs1 with rfl | rfl
        · exact ⟨SameConfig.refl _, rfl, rfl, Or.inr ⟨w, item, item1, e1, e2, e3, rfl⟩⟩
        · exact ⟨SameConfig.refl _, rfl, rfl, Or.inr ⟨w, item, item1, e1, e2, e3, rfl⟩⟩

theorem GetEjectedFlit_effect (s s1 : Interface) (subnet nid : Nat) (r : Option Flit)
    (h : s.GetEjectedFlit subnet nid = .ok (r, s1)) :
    SameConfig s s1 ∧ s1.ejection_buffer = s.ejection_buffer ∧
    s1.boundary_buffer = s.boundary_buffer ∧ s1.round_robin_turn = s.round_robin_turn := by
  unfold Interface.GetEjectedFlit at h
  cases hq : get2 s.ejected_flit_queue subnet nid with
  | none => simp [hq] at h
  | some q =>
    cases q with
    | nil =>
      simp only [hq, Except.ok.injEq, Prod.mk.injEq] at h
      obtain ⟨_, rfl⟩ := h
      exact ⟨SameConfig.refl _, rfl, rfl, rfl⟩
    | cons flit rest =>
      simp only [hq, Except.ok.injEq, Prod.mk.injEq] at h
      obtain ⟨_, rfl⟩ := h
      exact ⟨SameConfig.refl _, rfl, rfl, rfl⟩

/-! ### Reassembly of one packet -/

theorem writesTo_cons (subnet output v : Nat) (op : Op) (ops : List Op) :
    writesTo subnet output v (op :: ops)
      = writesTo subnet output v [op] ++ writesTo subnet output v ops := by
  cases op with
  | WriteOutBuffer sn out flit =>
    cases flit with
    | none => simp [writesTo]
    | some f =>
      by_cases h : sn = subnet ∧ out = (output : Int) ∧ f.vc = (v : Int)
      · simp [writesTo, h]
      · simp [writesTo, h]
  | Transfer2BoundaryBuffer _ _ => simp [writesTo]
  | GetEjectedFlit _ _ => simp [writesTo]
  | top _ _ => simp [writesTo]
  | pop _ _ => simp [writesTo]

theorem topLoop_skip (s : Interface) (nid subnet v : Nat) (item : BoundaryBufferItem)
    (hitem : get3 s.boundary_buffer subnet nid v = some item) (he : item.is_empty = true) :
    ∀ (n : Nat) (turn : Int),
      Interface.topLoop
        { s with boundary_buffer := set3 s.boundary_buffer subnet nid v BoundaryBufferItem.new }
        nid subnet n turn = s.topLoop nid subnet n turn := by
  intro n
  induction n with
  | zero => intro turn; rfl
  | succ n ih =>
    intro turn
    unfold Interface.topLoop
    rw [ih]
    unfold get3i
    by_cases hneg : turn < 0
    · simp [hneg]
    · simp only [hneg, if_false, get3_set3]
      by_cases hv : v = turn.toNat
      · subst hv
        have he0 : item.num_packets = 0 := by
          simpa [BoundaryBufferItem.is_empty] using he
        simp [hitem, he0, BoundaryBufferItem.new, BoundaryBufferItem.is_empty]
      · simp [hv]

theorem pop_keeps_empty_slot (s s1 : Interface) (nid subnet v : Nat) (item : BoundaryBufferItem)
    (hitem : get3 s.boundary_buffer subnet nid v = some item) (he : item.is_empty = true)
    (hpop : s.pop nid subnet = .ok s1) :
    get3 s1.boundary_buffer subnet nid v = some item := by
  obtain ⟨_, _, _, hbb⟩ := pop_effect s s1 nid subnet hpop
  rcases hbb with hbb | ⟨w, item2, item1, hitem2, hne, _, hbb⟩
  · rw [hbb, hitem]
  · rw [hbb, get3_set3]
    by_cases hw : w = v
    · subst hw
      rw [hitem] at hitem2
      simp only [Option.some.injEq] at hitem2
      subst hitem2
      rw [he] at hne
      cases hne
    · simp [hw, hitem]

theorem get3_replicate {α : Type} (x y : α) (n1 n2 n3 a b k : Nat)
    (h : get3 (List.replicate n1 (List.replicate n2 (List.replicate n3 x))) a b k = some y) :
    y = x := by
  unfold get3 get2 at h
  rw [List.getElem?_replicate] at h
  by_cases h1 : a < n1
  · simp only [h1, if_true] at h
    rw [List.getElem?_replicate] at h
    by_cases h2 : b < n2
    · simp only [h2, if_true] at h
      rw [List.getElem?_replicate] at h
      by_cases h3 : k < n3
      · simp only [h3, if_true, Option.some.injEq] at h
        exact h.symm
      · simp [h3] at h
    · simp [h2] at h
  · simp [h1] at h

theorem construct_ok (num_nodes num_subnets vcs : Int)
    (flit_size ejection_buffer_size vc_buf_size input_buffer_size boundary_buffer_size : Nat)
    (s0 : Interface)
    (h : Interface.construct num_nodes num_subnets vcs flit_size ejection_buffer_size
      vc_buf_size input_buffer_size boundary_buffer_size = .ok s0) :
    num_subnets ≠ 0 ∧ ¬ num_subnets < 0 ∧ boundary_buffer_size % 2 ^ 32 ≠ 0 ∧
    ¬ num_nodes < 0 ∧ ¬ (0 < num_nodes ∧ vcs < 0) ∧
    s0 =
      { HEADER_SIZE := 0
        num_nodes := num_nodes
        num_subnets := num_subnets
        vcs := vcs
        flit_size := flit_size % 2 ^ 32
        input_buffer_capacity :=
          if input_buffer_size ≠ 0 then input_buffer_size % 2 ^ 32 else 9
        boundary_buffer_capacity := boundary_buffer_size % 2 ^ 32
        boundary_buffer :=
          List.replicate num_subnets.toNat
            (List.replicate num_nodes.toNat (List.replicate vcs.toNat BoundaryBufferItem.new))
        ejection_buffer_capacity :=
          if ejection_buffer_size ≠ 0 then ejection_buffer_size % 2 ^ 32
          else vc_buf_size % 2 ^ 32
        ejection_buffer :=
          List.replicate num_subnets.toNat
            (List.replicate num_nodes.toNat (List.replicate vcs.toNat []))
        ejected_flit_queue :=
          List.replicate num_subnets.toNat (List.replicate num_nodes.toNat [])
        round_robin_turn :=
          List.replicate num_subnets.toNat (List.replicate num_nodes.toNat 0) } := by
  unfold Interface.construct at h
  by_cases h1 : num_subnets = 0
  · rw [if_pos h1] at h
    cases h
  by_cases h2 : num_subnets < 0
  · rw [if_neg h1, if_pos h2] at h
    cases h
  by_cases h3 : boundary_buffer_size % 2 ^ 32 = 0
  · rw [if_neg h1, if_neg h2, if_pos h3] at h
    cases h
  by_cases h4 : num_nodes < 0
  · rw [if_neg h1, if_neg h2, if_neg h3, if_pos h4] at h
    cases h
  by_cases h5 : 0 < num_nodes ∧ vcs < 0
  · rw [if_neg h1, if_neg h2, if_neg h3, if_neg h4, if_pos h5] at h
    cases h
  rw [if_neg h1, if_neg h2, if_neg h3, if_neg h4, if_neg h5] at h
  simp only [Except.ok.injEq] at h
  exact ⟨h1, h2, h3, h4, h5, h.symm⟩

theorem construct_capacityInv (num_nodes num_subnets vcs : Int)
    (flit_size ejection_buffer_size vc_buf_size input_buffer_size boundary_buffer_size : Nat)
    (s0 : Interface)
    (h : Interface.construct num_nodes num_subnets vcs flit_size ejection_buffer_size
      vc_buf_size input_buffer_size boundary_buffer_size = .ok s0) :
    CapacityInv s0 := by
  obtain ⟨_, _, _, _, _, h⟩ := construct_ok _ _ _ _ _ _ _ _ s0 h
  subst h
  refine ⟨Nat.mod_lt _ (by norm_num), ?_, ?_⟩
  · intro a b k item hitem
    have := get3_replicate _ _ _ _ _ _ _ _ hitem
    subst this
    exact ⟨Nat.zero_le _, rfl, by norm_num [BoundaryBufferItem.new]⟩
  · intro a b k q hq
    have := get3_replicate _ _ _ _ _ _ _ _ hq
    subst this
    exact Nat.zero_le _

theorem push_counted (item : BoundaryBufferItem) (cap : Nat) (packet : Nat) (is_tail : Bool)
    (hcap : cap < 2 ^ 32) (hlen : item.buffer.length ≤ cap) (hc : Counted item)
    (hroom : item.size < cap) :
    (item.push packet is_tail).buffer.length ≤ cap ∧ Counted (item.push packet is_tail) := by
  have hsize : item.size = item.buffer.length := by
    unfold BoundaryBufferItem.size
    exact Nat.mod_eq_of_lt (by omega)
  rw [hsize] at hroom
  obtain ⟨hc1, hc2⟩ := hc
  have hle : completePackets item ≤ item.buffer.length := by
    unfold completePackets
    exact List.countP_le_length _
  unfold Counted completePackets BoundaryBufferItem.push
  simp only [List.length_append, List.length_singleton, List.countP_append,
    List.countP_singleton]
  unfold completePackets at hc1 hle
  refine ⟨by omega, ?_, Nat.mod_lt _ (by norm_num)⟩
  cases is_tail
  · simp only [Bool.false_eq_true, if_false, Nat.add_zero]
    rw [Nat.mod_eq_of_lt (by omega)]
    exact hc1
  · simp only [if_true]
    rw [Nat.mod_eq_of_lt (by omega), hc1]

theorem CapacityInv_step (s s1 : Interface) (op : Op) (hinv : CapacityInv s)
    (hrun : op.run s = .ok s1) : CapacityInv s1 := by
  obtain ⟨hcap, hbb, hej⟩ := hinv
  cases op with
  | WriteOutBuffer sn out flit =>
    obtain ⟨f, q, rfl, _, _, hq, hlt, rfl⟩ := WriteOutBuffer_ok s s1 sn out flit hrun
    refine ⟨hcap, hbb, ?_⟩
    intro a b k q1 hq1
    simp only [get3_set3] at hq1
    by_cases hit : sn = a ∧ out.toNat = b ∧ f.vc.toNat = k
    · simp only [hit, and_self, if_true] at hq1
      obtain ⟨rfl, rfl, rfl⟩ := hit
      simp only [hq, Option.isSome_some, if_true, Option.some.injEq] at hq1
      subst hq1
      simp only [List.length_append, List.length_singleton]
      exact hlt
    · simp only [hit, if_false] at hq1
      exact hej a b k q1 hq1
  | Transfer2BoundaryBuffer sn out =>
    obtain ⟨hcfg, _, _, hej1, hbb1⟩ := transferLoop_effect sn out s.vcs.toNat s s1 hrun
    obtain ⟨_, _, _, _, _, _, c7, c8⟩ := hcfg
    refine ⟨by rw [c7]; exact hcap, ?_, ?_⟩
    · intro a b k item hitem
      rw [hbb1, c7] at *
      by_cases hit : a = sn ∧ b = out ∧ k < s.vcs.toNat
      · rw [if_pos hit] at hitem
        cases hmv : movesAt s a b k with
        | none =>
          rw [hmv] at hitem
          exact hbb a b k item hitem
        | some f =>
          rw [hmv] at hitem
          simp only [] at hitem
          cases hold : get3 s.boundary_buffer a b k with
          | none => simp [hold] at hitem
          | some item0 =>
            simp only [hold, Option.map_some', Option.some.injEq] at hitem
            subst hitem
            obtain ⟨h1, h2⟩ := hbb a b k item0 hold
            have hroom : item0.size < s.boundary_buffer_capacity := by
              unfold movesAt at hmv
              rw [hold] at hmv
              split at hmv
              · rename_i heq1 heq2
                simp only [Option.some.injEq] at heq2
                subst heq2
                by_contra hcon
                simp [hcon] at hmv
              · cases hmv
            exact push_counted item0 _ _ _ hcap h1 h2 hroom
      · rw [if_neg hit] at hitem
        exact hbb a b k item hitem
    · intro a b k q hq
      rw [hej1] at hq
      rw [c8]
      by_cases hit : a = sn ∧ b = out ∧ k < s.vcs.toNat
      · rw [if_pos hit] at hq
        cases hmv : movesAt s a b k with
        | none =>
          rw [hmv] at hq
          exact hej a b k q hq
        | some f =>
          rw [hmv] at hq
          simp only [] at hq
          cases hold : get3 s.ejection_buffer a b k with
          | none => simp [hold] at hq
          | some q0 =>
            simp only [hold, Option.map_some', Option.some.injEq] at hq
            subst hq
            have := hej a b k q0 hold
            simp only [List.length_tail]
            omega
      · rw [if_neg hit] at hq
        exact hej a b k q hq
  | GetEjectedFlit sn nid =>
    simp only [Op.run] at hrun
    cases hg : s.GetEjectedFlit sn nid with
    | error e => simp [hg] at hrun
    | ok r =>
      obtain ⟨fl, s2⟩ := r
      simp only [hg, Except.ok.injEq] at hrun
      subst hrun
      obtain ⟨hcfg, hej2, hbb2, _⟩ := GetEjectedFlit_effect s s2 sn nid fl hg
      obtain ⟨_, _, _, _, _, _, c7, c8⟩ := hcfg
      unfold CapacityInv
      rw [hej2, hbb2, c7, c8]
      exact ⟨hcap, hbb, hej⟩
  | top nid sn =>
    simp only [Op.run] at hrun
    cases hg : s.top nid sn with
    | error e => simp [hg] at hrun
    | ok r =>
      simp only [hg, Except.ok.injEq] at hrun
      subst hrun
      exact ⟨hcap, hbb, hej⟩
  | pop nid sn =>
    obtain ⟨hcfg, hej2, _, hcase⟩ := pop_effect s s1 nid sn hrun
    obtain ⟨_, _, _, _, _, _, c7, c8⟩ := hcfg
    unfold CapacityInv
    rw [hej2, c7, c8]
    refine ⟨hcap, ?_, hej⟩
    rcases hcase with hsame | ⟨w, item0, item1, hitem0, hne, hp, hset⟩
    · rw [hsame]; exact hbb
    · intro a b k item hitem
      rw [hset, get3_set3] at hitem
      by_cases hit : sn = a ∧ nid = b ∧ w = k
      · obtain ⟨rfl, rfl, rfl⟩ := hit
        simp only [and_self, if_true, hitem0, Option.isSome_some, Option.some.injEq] at hitem
        subst hitem
        obtain ⟨h1, h2⟩ := hbb _ _ _ item0 hitem0
        have hpos : 0 < completePackets item0 := by
          rw [← h2.1]
          have : item0.num_packets ≠ 0 := by
            simpa [BoundaryBufferItem.is_empty] using hne
          omega
        obtain ⟨pre, t, rest, e1, _, _, _, _, e6, e7⟩ := item_pop_eq item0 h2 hpos
        rw [e7] at hp
        by_cases hz : t.packet = 0
        · simp [hz] at hp
        · simp only [hz, if_false, Except.ok.injEq] at hp
          subst hp
          refine ⟨?_, e6⟩
          have := congrArg List.length e1
          simp only [List.length_append, List.length_cons] at this
          show rest.length ≤ s.boundary_buffer_capacity
          omega
      · rw [if_neg hit] at hitem
        exact hbb a b k item hitem

theorem CapacityInv_run : ∀ (ops : List Op) (s s1 : Interface),
    CapacityInv s → runOps ops s = .ok s1 → CapacityInv s1 := by
  intro ops
  induction ops with
  | nil =>
    intro s s1 hinv hrun
    simp only [runOps, Except.ok.injEq] at hrun
    subst hrun
    exact hinv
  | cons op ops ih =>
    intro s s1 hinv hrun
    simp only [runOps] at hrun
    cases hop : op.run s with
    | error e => simp [hop] at hrun
    | ok s2 =>
      simp only [hop] at hrun
      exact ih s2 s1 (CapacityInv_step s s2 op hinv hop) hrun

/-- C6: in every state reached from the constructed interface by a sequence of non-failing
`WriteOutBuffer`, `Transfer2BoundaryBuffer`, `GetEjectedFlit`, `top` and `pop` calls, every
boundary slot holds at most `boundary_buffer_capacity` complete packets (both as counted by
`num_packets` and as tail-marked fragments, and even at most that many fragments), and every
ejection slot holds at most `ejection_buffer_capacity` flits. -/
theorem capacity_invariant (num_nodes num_subnets vcs : Int)
    (flit_size ejection_buffer_size vc_buf_size input_buffer_size boundary_buffer_size : Nat)
    (s0 s : Interface) (ops : List Op)
    (hc : Interface.construct num_nodes num_subnets vcs flit_size ejection_buffer_size
      vc_buf_size input_buffer_size boundary_buffer_size = .ok s0)
    (hrun : runOps ops s0 = .ok s) :
    ∀ a b k,
      (∀ item, get3 s.boundary_buffer a b k = some item →
        completePackets item ≤ s.boundary_buffer_capacity ∧
        item.num_packets ≤ s.boundary_buffer_capacity ∧
        item.buffer.length ≤ s.boundary_buffer_capacity) ∧
      (∀ q, get3 s.ejection_buffer a b k = some q →
        q.length ≤ s.ejection_buffer_capacity) := by
  have hinv := CapacityInv_run ops s0 s (construct_capacityInv _ _ _ _ _ _ _ _ s0 hc) hrun
  obtain ⟨_, hbb, hej⟩ := hinv
  intro a b k
  refine ⟨?_, fun q hq => hej a b k q hq⟩
  intro item hitem
  obtain ⟨h1, h2, _⟩ := hbb a b k item hitem
  have hle : completePackets item ≤ item.buffer.length := by
    unfold completePackets
    exact List.countP_le_length _
  exact ⟨by omega, by omega, h1⟩

/-- C6 (witness): the interface constructed with two VCs and all capacities 4, after the
arrival of a two-flit packet. -/
theorem capacity_invariant_witness :
    Interface.construct 1 1 2 1 4 4 4 4
      = .ok (stateOf (Interface.construct 1 1 2 1 4 4 4 4) (demoNode emptySlots 0)) ∧
    runOps demoArrival (stateOf (Interface.construct 1 1 2 1 4 4 4 4) (demoNode emptySlots 0))
      = .ok (stateOf (runOps demoArrival
          (stateOf (Interface.construct 1 1 2 1 4 4 4 4) (demoNode emptySlots 0)))
          (demoNode emptySlots 0)) ∧
    ∀ a b k,
      (∀ item, get3 (stateOf (runOps demoArrival
          (stateOf (Interface.construct 1 1 2 1 4 4 4 4) (demoNode emptySlots 0)))
          (demoNode emptySlots 0)).boundary_buffer a b k = some item →
        completePackets item ≤ 4 ∧ item.num_packets ≤ 4 ∧ item.buffer.length ≤ 4) ∧
      (∀ q, get3 (stateOf (runOps demoArrival
          (stateOf (Interface.construct 1 1 2 1 4 4 4 4) (demoNode emptySlots 0)))
          (demoNode emptySlots 0)).ejection_buffer a b k = some q →
        q.length ≤ 4) :=
  ⟨rfl, rfl,
    capacity_invariant 1 1 2 1 4 4 4 4 _ _ demoArrival rfl rfl⟩

/-! ### Admission check -/

theorem ceil_div_eq (x d : Nat) (hd : 0 < d) :
    x / d + (if x % d > 0 then 1 else 0) = (x + d - 1) / d := by
  have hx := Nat.div_add_mod x d
  have hr := Nat.mod_lt x hd
  by_cases h : x % d > 0
  · simp only [h, if_true]
    have hm : d * (x / d + 1) = d * (x / d) + d := by rw [Nat.mul_add, Nat.mul_one]
    have h1 : x + d - 1 = (x % d - 1) + d * (x / d + 1) := by
      rw [hm]
      generalize d * (x / d) = m at hx ⊢
      omega
    rw [h1, Nat.add_mul_div_left _ _ hd,
      Nat.div_eq_of_lt (lt_of_le_of_lt (Nat.sub_le _ _) hr), Nat.zero_add]
  · simp only [h, if_false, Nat.add_zero]
    have h1 : x + d - 1 = (d - 1) + d * (x / d) := by
      generalize d * (x / d) = m at hx ⊢
      omega
    rw [h1, Nat.add_mul_div_left _ _ hd, Nat.div_eq_of_lt (Nat.sub_lt hd Nat.one_pos),
      Nat.zero_add]

theorem is_full_eq (s : Interface) (q size : Nat) (hfs : 0 < s.flit_size)
    (h0 : 0 ≤ (size : Int) + s.HEADER_SIZE) (h1 : (size : Int) + s.HEADER_SIZE < 2 ^ 32) :
    s.is_full q size =
      .ok (decide ((q + (((size : Int) + s.HEADER_SIZE).toNat + s.flit_size - 1) / s.flit_size)
        % 2 ^ 32 > s.input_buffer_capacity)) := by
  unfold Interface.is_full
  have hne : s.flit_size ≠ 0 := by omega
  have hsz : (((size : Int) + s.HEADER_SIZE) % 2 ^ 32).toNat
      = ((size : Int) + s.HEADER_SIZE).toNat := by
    rw [Int.emod_eq_of_lt h0 h1]
  have hlt : ((size : Int) + s.HEADER_SIZE).toNat < 2 ^ 32 := by omega
  simp only [hne, if_false, hsz, ceil_div_eq _ _ hfs]
  have hfl : (((size : Int) + s.HEADER_SIZE).toNat + s.flit_size - 1) / s.flit_size < 2 ^ 32 := by
    apply lt_of_le_of_lt _ hlt
    rw [Nat.div_le_iff_le_mul_add_pred hfs]
    have : ((size : Int) + s.HEADER_SIZE).toNat ≤ s.flit_size * ((size : Int) + s.HEADER_SIZE).toNat :=
      Nat.le_mul_of_pos_left _ hfs
    omega
  rw [Nat.mod_eq_of_lt hfl, Nat.mod_mod_of_dvd _ (by norm_num : 2 ^ 32 ∣ 2 ^ 64)]

/-- C7 (counterexample): with flit size 1, capacity 9, one flit queued and a packet of
`2^32 - 1` bytes, the occupancy plus the packet's `2^32 - 1` flits is `2^32`, far above the
capacity, yet `is_full` returns false: the sum is stored in a `uint32_t` and wraps to 0. -/
theorem is_full_wraps :
    0 < (demoNode emptySlots 0).flit_size ∧
    1 + (4294967295 + 0 + (demoNode emptySlots 0).flit_size - 1)
          / (demoNode emptySlots 0).flit_size
        > (demoNode emptySlots 0).input_buffer_capacity ∧
    (demoNode emptySlots 0).HEADER_SIZE = 0 ∧
    (demoNode emptySlots 0).is_full 1 4294967295 = .ok false := by
  refine ⟨by decide, by decide, rfl, ?_⟩
  rfl

/-- C7 (amended): for every flit size > 0, occupancy `q`, capacity and byte size `s` with
`s + HEADER_SIZE` in `[0, 2^32)`, `is_full` returns true exactly when
`(q + ceil((s + HEADER_SIZE) / flit_size)) mod 2^32` exceeds `input_buffer_capacity`; hence,
whenever `q + ceil((s + HEADER_SIZE) / flit_size) < 2^32`, exactly when that sum exceeds the
capacity. `is_full` yields only this value: it has no effect on the state. -/
theorem is_full_formula (s : Interface) (q size : Nat) (hfs : 0 < s.flit_size)
    (h0 : 0 ≤ (size : Int) + s.HEADER_SIZE) (h1 : (size : Int) + s.HEADER_SIZE < 2 ^ 32) :
    s.is_full q size =
      .ok (decide ((q + (((size : Int) + s.HEADER_SIZE).toNat + s.flit_size - 1) / s.flit_size)
        % 2 ^ 32 > s.input_buffer_capacity)) ∧
    (q + (((size : Int) + s.HEADER_SIZE).toNat + s.flit_size - 1) / s.flit_size < 2 ^ 32 →
      s.is_full q size =
        .ok (decide (q + (((size : Int) + s.HEADER_SIZE).toNat + s.flit_size - 1) / s.flit_size
          > s.input_buffer_capacity))) := by
  have h := is_full_eq s q size hfs h0 h1
  refine ⟨h, fun hnw => ?_⟩
  rw [h, Nat.mod_eq_of_lt hnw]

/-- C7 (witness): flit size 1, capacity 9, occupancy 3 and a 7-byte packet: 3 + 7 exceeds 9. -/
theorem is_full_formula_witness :
    0 < (demoNode emptySlots 0).flit_size ∧
    ((demoNode emptySlots 0).is_full 3 7 =
        .ok (decide ((3 + (7 + 1 - 1) / 1) % 2 ^ 32 > 9)) ∧
      (3 + (7 + 1 - 1) / 1 < 2 ^ 32 →
        (demoNode emptySlots 0).is_full 3 7 = .ok (decide (3 + (7 + 1 - 1) / 1 > 9)))) ∧
    (demoNode emptySlots 0).is_full 3 7 = .ok true :=
  ⟨by decide, is_full_formula (demoNode emptySlots 0) 3 7 (by decide) (by decide) (by decide),
    rfl⟩

/-- C8 (counterexample): with flit size 1, capacity 9 and one flit queued, `is_full` is true
for size 100 but false for the larger 32-bit size `2^32 - 1`, whose flit count makes the
`uint32_t` sum wrap to 0. -/
theorem is_full_not_monotone :
    (100 : Nat) < 4294967295 ∧ (4294967295 : Nat) < 2 ^ 32 ∧
    0 < (demoNode emptySlots 0).flit_size ∧
    (demoNode emptySlots 0).is_full 1 100 = .ok true ∧
    (demoNode emptySlots 0).is_full 1 4294967295 = .ok false := by
  refine ⟨by decide, by decide, by decide, ?_, ?_⟩ <;> rfl

/-- C8 (amended): for fixed occupancy `q`, flit size > 0 and capacity, and sizes `S < S'` with
`S + HEADER_SIZE ≥ 0` and `S' + HEADER_SIZE < 2^32`, if the sum for the larger size does not
wrap, `q + ceil((S' + HEADER_SIZE) / flit_size) < 2^32`, then `is_full` true for `S` implies
`is_full` true for `S'`. -/
theorem is_full_monotone (s : Interface) (q S S' : Nat) (hfs : 0 < s.flit_size)
    (hlt : S < S')
    (h0 : 0 ≤ (S : Int) + s.HEADER_SIZE) (h1 : (S' : Int) + s.HEADER_SIZE < 2 ^ 32)
    (hnw : q + (((S' : Int) + s.HEADER_SIZE).toNat + s.flit_size - 1) / s.flit_size < 2 ^ 32)
    (hS : s.is_full q S = .ok true) : s.is_full q S' = .ok true := by
  have hle : (((S : Int) + s.HEADER_SIZE).toNat + s.flit_size - 1) / s.flit_size
      ≤ (((S' : Int) + s.HEADER_SIZE).toNat + s.flit_size - 1) / s.flit_size := by
    apply Nat.div_le_div_right
    omega
  rw [is_full_eq s q S hfs h0 (by omega)] at hS
  rw [is_full_eq s q S' hfs (by omega) h1]
  simp only [Except.ok.injEq, decide_eq_true_eq] at hS ⊢
  rw [Nat.mod_eq_of_lt (by omega)] at hS
  rw [Nat.mod_eq_of_lt hnw]
  omega

/-- C8 (witness): flit size 1, capacity 9, occupancy 3: full for 7 bytes, hence for 8. -/
theorem is_full_monotone_witness :
    (7 : Nat) < 8 ∧ (demoNode emptySlots 0).is_full 3 7 = .ok true ∧
      (demoNode emptySlots 0).is_full 3 8 = .ok true :=
  ⟨by decide, rfl,
    is_full_monotone (demoNode emptySlots 0) 3 7 8 (by decide) (by decide) (by decide)
      (by decide) (by decide) rfl⟩

/-! ### Empty node -/

theorem firstReady_eq_none (slots : List BoundaryBufferItem) (c : Nat)
    (h : ∀ item ∈ slots, completePackets item = 0) : firstReady slots c = none := by
  unfold firstReady
  rw [List.find?_eq_none]
  intro x _
  unfold readyAt
  cases hx : slots[x]? with
  | none => simp
  | some item => simp [h item (List.getElem?_mem hx)]

theorem idleSlots_counted : ∀ item ∈ idleSlots, Counted item := by
  intro item h
  simp only [idleSlots, List.mem_cons, List.mem_singleton, List.not_mem_nil, or_false] at h
  rcases h with rfl | rfl <;> exact ⟨by decide, by decide⟩

/-- C9: for a node whose cursor lies in `[0, vcs)` and whose slots satisfy the counting
invariant, `is_empty` returns, and it returns true if and only if every VC's boundary slot has
zero complete packets (`num_packets = 0`, equivalently no tail-marked fragment); whenever it
returns true, `top` returns null and `pop` returns the state it was given, unchanged in every
member (cursor, buffers and their tail-less fragments included). -/
theorem empty_node_behaviour (s : Interface) (nid subnet : Nat) (c : Int)
    (slots : List BoundaryBufferItem)
    (hturn : get2 s.round_robin_turn subnet nid = some c)
    (hc : 0 ≤ c ∧ c < s.vcs)
    (hslots : get2 s.boundary_buffer subnet nid = some slots)
    (hlen : (slots.length : Int) = s.vcs)
    (hcnt : ∀ item ∈ slots, Counted item) :
    (∃ r, s.is_empty nid subnet = .ok r) ∧
    (s.is_empty nid subnet = .ok true ↔ ∀ item ∈ slots, item.num_packets = 0) ∧
    (s.is_empty nid subnet = .ok true ↔ ∀ item ∈ slots, completePackets item = 0) ∧
    (s.is_empty nid subnet = .ok true →
      s.top nid subnet = .ok 0 ∧ s.pop nid subnet = .ok s) := by
  have hie : s.is_empty nid subnet
      = .ok ((slots.find? (fun item => !item.is_empty)).isNone) := by
    simp [Interface.is_empty, hslots]
  have h1 : s.is_empty nid subnet = .ok true ↔ ∀ item ∈ slots, item.num_packets = 0 := by
    rw [hie]
    simp only [Except.ok.injEq, Option.isNone_iff_eq_none, List.find?_eq_none]
    constructor
    · intro h item hmem
      have := h item hmem
      simpa [BoundaryBufferItem.is_empty] using this
    · intro h item hmem
      simp [BoundaryBufferItem.is_empty, h item hmem]
  have h2 : (∀ item ∈ slots, item.num_packets = 0) ↔
      ∀ item ∈ slots, completePackets item = 0 := by
    constructor
    · intro h item hmem
      rw [← (hcnt item hmem).1]
      exact h item hmem
    · intro h item hmem
      rw [(hcnt item hmem).1]
      exact h item hmem
  refine ⟨⟨_, hie⟩, h1, h1.trans h2, ?_⟩
  intro he
  have hnone := firstReady_eq_none slots c.toNat ((h1.trans h2).mp he)
  have htop := top_eq s nid subnet c slots hturn hc hslots hlen hcnt
  have hpop := pop_eq s nid subnet c slots hturn hc hslots hlen hcnt
  rw [hnone] at htop hpop
  exact ⟨htop, hpop⟩

/-- C9 (witness): two VCs without a complete packet, one tail-less fragment buffered on VC 0,
cursor 1: `is_empty` is true, `top` is null and `pop` changes nothing. -/
theorem empty_node_behaviour_witness :
    (∃ r, (demoNode idleSlots 1).is_empty 0 0 = .ok r) ∧
    ((demoNode idleSlots 1).is_empty 0 0 = .ok true ↔
      ∀ item ∈ idleSlots, item.num_packets = 0) ∧
    ((demoNode idleSlots 1).is_empty 0 0 = .ok true ↔
      ∀ item ∈ idleSlots, completePackets item = 0) ∧
    ((demoNode idleSlots 1).is_empty 0 0 = .ok true →
      (demoNode idleSlots 1).top 0 0 = .ok 0 ∧
      (demoNode idleSlots 1).pop 0 0 = .ok (demoNode idleSlots 1)) :=
  empty_node_behaviour (demoNode idleSlots 1) 0 0 1 idleSlots rfl (by decide) rfl rfl
    idleSlots_counted

/-! ### When a transfer returns -/

theorem transferVC_succeeds (s : Interface) (subnet output vc : Nat)
    (h : transferOK s subnet output vc) : ∃ s1, s.transferVC subnet output vc = .ok s1 := by
  obtain ⟨ej, hej, hcase⟩ := h
  unfold Interface.transferVC
  rw [hej]
  rcases hcase with rfl | ⟨item, hbb, hcase⟩
  · exact ⟨s, rfl⟩
  · cases ej with
    | nil => exact ⟨s, rfl⟩
    | cons flit rest =>
      simp only [hbb]
      rcases hcase with hfull | ⟨f, rest1, hcons, hq, hd⟩
      · rw [if_neg hfull]
        exact ⟨s, rfl⟩
      · by_cases hroom : item.size < s.boundary_buffer_capacity
        · rw [if_pos hroom]
          simp only [List.cons.injEq] at hcons
          obtain ⟨rfl, rfl⟩ := hcons
          obtain ⟨q, hq1⟩ := Option.isSome_iff_exists.mp hq
          simp only [hq1]
          rw [if_neg hd]
          exact ⟨_, rfl⟩
        · rw [if_neg hroom]
          exact ⟨s, rfl⟩

theorem get2_set2_isSome {α : Type} (xs : List (List α)) (i j a b : Nat) (v : α) :
    (get2 (set2 xs i j v) a b).isSome = (get2 xs a b).isSome := by
  rw [get2_set2]
  by_cases h : i = a ∧ j = b
  · obtain ⟨rfl, rfl⟩ := h
    cases hg : get2 xs i j <;> simp
  · simp [h]

theorem transferLoop_ejected (subnet output : Nat) :
    ∀ (n : Nat) (s s1 : Interface),
      (List.range n).foldlM (fun s vc => s.transferVC subnet output vc) s = .ok s1 →
      ∀ a b, (get2 s1.ejected_flit_queue a b).isSome = (get2 s.ejected_flit_queue a b).isSome := by
  intro n
  induction n with
  | zero =>
    intro s s1 h a b
    simp only [List.range_zero, List.foldlM_nil, pure, Except.pure, Except.ok.injEq] at h
    rw [h]
  | succ n ih =>
    intro s s1 h a b
    rw [List.range_succ, List.foldlM_append] at h
    cases hmid : (List.range n).foldlM (fun s vc => s.transferVC subnet output vc) s with
    | error e => simp [hmid, bind, Except.bind] at h
    | ok s2 =>
      simp only [hmid, bind, Except.bind, List.foldlM_cons, List.foldlM_nil, pure,
        Except.pure] at h
      have hstep : s2.transferVC subnet output n = .ok s1 := by
        cases hx : s2.transferVC subnet output n with
        | error e => simp [hx] at h
        | ok s3 => simp only [hx, Except.ok.injEq] at h; rw [h]
      rw [← ih s s2 hmid a b]
      obtain ⟨_, hm⟩ := transferVC_ok s2 s1 subnet output n hstep
      cases hmv : movesAt s2 subnet output n with
      | none => rw [hmv] at hm; rw [hm]
      | some f =>
        rw [hmv] at hm
        obtain ⟨rest, item, q, _, _, _, _, _, e6⟩ := hm
        rw [e6]
        exact get2_set2_isSome _ _ _ _ _ _

theorem transferLoop_succeeds (subnet output : Nat) :
    ∀ (n : Nat) (s : Interface), (∀ k, k < n → transferOK s subnet output k) →
      ∃ s1, (List.range n).foldlM (fun s vc => s.transferVC subnet output vc) s = .ok s1 := by
  intro n
  induction n with
  | zero => intro s _; exact ⟨s, rfl⟩
  | succ n ih =>
    intro s hok
    obtain ⟨s2, hmid⟩ := ih s (fun k hk => hok k (by omega))
    obtain ⟨hcfg, _, _, hej, hbb⟩ := transferLoop_effect subnet output n s s2 hmid
    have hq := transferLoop_ejected subnet output n s s2 hmid subnet output
    have hokn : transferOK s2 subnet output n := by
      have := hok n (by omega)
      unfold transferOK at this ⊢
      have e1 : get3 s2.ejection_buffer subnet output n = get3 s.ejection_buffer subnet output n := by
        rw [hej]; simp
      have e2 : get3 s2.boundary_buffer subnet output n = get3 s.boundary_buffer subnet output n := by
        rw [hbb]; simp
      rw [e1, e2, hq, hcfg.2.2.2.2.2.2.1]
      exact this
    obtain ⟨s1, hstep⟩ := transferVC_succeeds s2 subnet output n hokn
    refine ⟨s1, ?_⟩
    rw [List.range_succ, List.foldlM_append, hmid]
    simp only [bind, Except.bind, List.foldlM_cons, List.foldlM_nil, pure, Except.pure, hstep]

/-! ### Single-flit round trip -/

theorem get2_of_get3 {α : Type} (xs : List (List (List α))) (i j : Nat) (row : List α)
    (k0 : Nat) (x0 : α) (h0 : get3 xs i j k0 = some x0)
    (h : ∀ k, get3 xs i j k = row[k]?) : get2 xs i j = some row := by
  cases hg : get2 xs i j with
  | none => simp [get3, hg] at h0
  | some row1 =>
    have : row1 = row := by
      apply List.ext_getElem?
      intro k
      rw [← h k, get3_eq xs i j k row1 hg]
    rw [this]

theorem is_empty_false_of_mem (s : Interface) (nid subnet : Nat)
    (slots : List BoundaryBufferItem) (item : BoundaryBufferItem)
    (hslots : get2 s.boundary_buffer subnet nid = some slots) (hmem : item ∈ slots)
    (hne : item.is_empty = false) : s.is_empty nid subnet = .ok false := by
  simp only [Interface.is_empty, hslots, Except.ok.injEq]
  cases hf : slots.find? (fun item => !item.is_empty) with
  | some x => rfl
  | none =>
    rw [List.find?_eq_none] at hf
    have := hf item hmem
    simp [hne] at this

theorem is_empty_true_of_all (s : Interface) (nid subnet : Nat)
    (slots : List BoundaryBufferItem)
    (hslots : get2 s.boundary_buffer subnet nid = some slots)
    (hall : ∀ item ∈ slots, item.is_empty = true) : s.is_empty nid subnet = .ok true := by
  simp only [Interface.is_empty, hslots, Except.ok.injEq, Option.isNone_iff_eq_none,
    List.find?_eq_none]
  intro item hmem
  simp [hall item hmem]

/-- C10: let the boundary and ejection slots of `(subnet, node)` all be empty, the cursor lie in
`[0, vcs)` and `boundary_buffer_capacity` be non-zero (as the constructor asserts). If a
single-flit packet (tail set, destination `node`, non-null payload `p`; the head flag, set for
such a packet, is only used by the destination check, which passes for either value) is written
with `WriteOutBuffer` on a VC `v` of the node, then one `Transfer2BoundaryBuffer(subnet, node)` call
returns, after it `is_empty(node, subnet)` is false and `top(node, subnet)` returns `p`, one
`pop(node, subnet)` returns, and after it `is_empty(node, subnet)` is true again. -/
theorem single_flit_round_trip (s s1 : Interface) (subnet node v : Nat) (c : Int) (p : Nat)
    (f : Flit)
    (hv : (v : Int) < s.vcs) (hnode : node < 2 ^ 32)
    (hfvc : f.vc = (v : Int)) (hft : f.tail = true)
    (hfd : f.dest = (node : Int)) (hfp : f.data = p) (hp : p ≠ 0)
    (hturn : get2 s.round_robin_turn subnet node = some c)
    (hc : 0 ≤ c ∧ c < s.vcs)
    (hslots : get2 s.boundary_buffer subnet node
      = some (List.replicate s.vcs.toNat BoundaryBufferItem.new))
    (hejs : get2 s.ejection_buffer subnet node = some (List.replicate s.vcs.toNat []))
    (hq : (get2 s.ejected_flit_queue subnet node).isSome = true)
    (hcap : 0 < s.boundary_buffer_capacity)
    (hw : s.WriteOutBuffer subnet (node : Int) (some f) = .ok s1) :
    ∃ s2 s3, s1.Transfer2BoundaryBuffer subnet node = .ok s2 ∧
      s2.is_empty node subnet = .ok false ∧
      s2.top node subnet = .ok p ∧
      s2.pop node subnet = .ok s3 ∧
      s3.is_empty node subnet = .ok true := by
  have hvN : v < s.vcs.toNat := by omega
  -- the write
  obtain ⟨f1, q0, hf1, _, _, hq0, _, hs1⟩ := WriteOutBuffer_ok s s1 subnet node (some f) hw
  simp only [Option.some.injEq] at hf1
  subst hf1
  simp only [Int.toNat_ofNat, hfvc] at hq0 hs1
  have hq0nil : q0 = [] := by
    rw [get3_eq _ _ _ _ _ hejs, List.getElem?_replicate, if_pos hvN] at hq0
    exact (Option.some.inj hq0).symm
  subst hq0nil
  simp only [List.nil_append] at hs1
  have hej1 : ∀ k, get3 s1.ejection_buffer subnet node k =
      if k = v then some [some f] else (List.replicate s.vcs.toNat ([] : EjectionBufferItem))[k]? := by
    intro k
    rw [hs1]
    simp only [get3_set3, true_and]
    by_cases hk : v = k
    · subst hk; simp [get3_eq _ _ _ _ _ hejs, List.getElem?_replicate, hvN]
    · have : ¬ k = v := fun h => hk h.symm
      simp [hk, this, get3_eq _ _ _ _ _ hejs]
  have hbb1 : ∀ k, get3 s1.boundary_buffer subnet node k =
      (List.replicate s.vcs.toNat BoundaryBufferItem.new)[k]? := by
    intro k
    rw [hs1]
    exact get3_eq _ _ _ _ _ hslots
  have hcap1 : s1.boundary_buffer_capacity = s.boundary_buffer_capacity := by rw [hs1]
  have hvcs1 : s1.vcs = s.vcs := by rw [hs1]
  have hq1 : (get2 s1.ejected_flit_queue subnet node).isSome = true := by rw [hs1]; exact hq
  have hdest : (f.dest % 2 ^ 32).toNat = node := by
    rw [hfd, Int.emod_eq_of_lt (by omega) (by exact_mod_cast hnode)]
    simp
  -- the transfer returns
  have hok : ∀ k, k < s1.vcs.toNat → transferOK s1 subnet node k := by
    intro k hk
    rw [hvcs1] at hk
    by_cases hkv : k = v
    · subst hkv
      refine ⟨[some f], by rw [hej1]; simp, Or.inr ⟨BoundaryBufferItem.new, ?_, Or.inr
        ⟨f, [], rfl, hq1, ?_⟩⟩⟩
      · rw [hbb1, List.getElem?_replicate, if_pos hk]
      · intro hh; exact hh.2 hdest
    · refine ⟨[], ?_, Or.inl rfl⟩
      rw [hej1, if_neg hkv, List.getElem?_replicate, if_pos hk]
  obtain ⟨s2, hs2⟩ := transferLoop_succeeds subnet node s1.vcs.toNat s1 hok
  obtain ⟨hcfg2, hrr2, _, _, hbb2⟩ := transferLoop_effect subnet node s1.vcs.toNat s1 s2 hs2
  have hvcs2 : s2.vcs = s.vcs := by rw [hcfg2.2.2.2.1, hvcs1]
  have hmv : ∀ k, movesAt s1 subnet node k = if k = v then some f else none := by
    intro k
    unfold movesAt
    rw [hej1, hbb1]
    by_cases hkv : k = v
    · subst hkv
      simp only [if_true, List.getElem?_replicate, if_pos hvN]
      have : BoundaryBufferItem.new.size < s1.boundary_buffer_capacity := by
        rw [hcap1]; exact hcap
      simp [this]
    · simp only [if_neg hkv, List.getElem?_replicate]
      by_cases hk : k < s.vcs.toNat
      · simp [hk]
      · simp [hk]
  have hslots2 : get2 s2.boundary_buffer subnet node
      = some ((List.replicate s.vcs.toNat BoundaryBufferItem.new).set v ⟨[⟨p, true⟩], 1⟩) := by
    have hk : ∀ k, get3 s2.boundary_buffer subnet node k =
        ((List.replicate s.vcs.toNat BoundaryBufferItem.new).set v ⟨[⟨p, true⟩], 1⟩)[k]? := by
      intro k
      rw [hbb2, hmv, hbb1, hvcs1, List.getElem?_set]
      by_cases hkv : k = v
      · subst hkv
        simp [hvN, List.getElem?_replicate, BoundaryBufferItem.push, BoundaryBufferItem.new,
          hfp, hft]
      · have : ¬ v = k := fun h => hkv h.symm
        simp [hkv, this]
    refine get2_of_get3 _ _ _ _ v ⟨[⟨p, true⟩], 1⟩ ?_ hk
    rw [hk, List.getElem?_set]
    simp [hvN]
  have hturn2 : get2 s2.round_robin_turn subnet node = some c := by
    rw [hrr2, hs1]; exact hturn
  have hlen2 : ((((List.replicate s.vcs.toNat BoundaryBufferItem.new).set v
      ⟨[⟨p, true⟩], 1⟩).length : Nat) : Int) = s2.vcs := by
    rw [List.length_set, List.length_replicate, hvcs2]
    omega
  have hcnt2 : ∀ item ∈ (List.replicate s.vcs.toNat BoundaryBufferItem.new).set v
      ⟨[⟨p, true⟩], 1⟩, Counted item := by
    intro item hmem
    rcases List.mem_or_eq_of_mem_set hmem with h | rfl
    · rw [List.eq_of_mem_replicate h]
      exact ⟨rfl, by norm_num [BoundaryBufferItem.new]⟩
    · exact ⟨rfl, by norm_num⟩
  have hmem2 : (⟨[⟨p, true⟩], 1⟩ : BoundaryBufferItem) ∈
      (List.replicate s.vcs.toNat BoundaryBufferItem.new).set v ⟨[⟨p, true⟩], 1⟩ :=
    List.mem_set _ _ (by rw [List.length_replicate]; exact hvN) _
  have hfirst : firstReady ((List.replicate s.vcs.toNat BoundaryBufferItem.new).set v
      ⟨[⟨p, true⟩], 1⟩) c.toNat = some v := by
    obtain ⟨v1, item1, hv1, hitem1, hpos1⟩ := firstReady_isSome _ c.toNat
      (by rw [List.length_set, List.length_replicate]; omega)
      ⟨_, hmem2, by simp [completePackets]⟩
    rw [hv1]
    by_cases hvv : v1 = v
    · rw [hvv]
    · rw [List.getElem?_set] at hitem1
      have : ¬ v = v1 := fun h => hvv h.symm
      simp only [this, if_false] at hitem1
      have := List.getElem?_mem hitem1
      rw [List.eq_of_mem_replicate this] at hpos1
      simp [completePackets, BoundaryBufferItem.new] at hpos1
  have hitem : ((List.replicate s.vcs.toNat BoundaryBufferItem.new).set v
      ⟨[⟨p, true⟩], 1⟩)[v]? = some ⟨[⟨p, true⟩], 1⟩ := by
    rw [List.getElem?_set]; simp [hvN]
  have hc2 : 0 ≤ c ∧ c < s2.vcs := by rw [hvcs2]; exact hc
  have htop := top_eq s2 node subnet c _ hturn2 hc2 hslots2 hlen2 hcnt2
  have hpop := pop_eq s2 node subnet c _ hturn2 hc2 hslots2 hlen2 hcnt2
  rw [hfirst] at htop hpop
  simp only [hitem] at htop hpop
  have htopv : BoundaryBufferItem.top ⟨[⟨p, true⟩], 1⟩ = .ok p := by
    simp [BoundaryBufferItem.top, BoundaryBufferItem.is_empty, hp]
  have hpopv : BoundaryBufferItem.pop ⟨[⟨p, true⟩], 1⟩ = .ok ⟨[], 0⟩ := by
    have hne : BoundaryBufferItem.is_empty ⟨[⟨p, true⟩], 1⟩ = false := rfl
    unfold BoundaryBufferItem.pop
    rw [hne]
    simp only [Bool.false_eq_true, if_false, List.dropWhile_cons, Bool.not_true,
      List.dropWhile_nil, hp]
    rfl
  rw [htopv] at htop
  rw [hpopv] at hpop
  simp only [] at hpop
  refine ⟨s2, _, hs2, ?_, htop, hpop, ?_⟩
  · exact is_empty_false_of_mem s2 node subnet _ _ hslots2 hmem2 rfl
  · refine is_empty_true_of_all _ node subnet _
      (get2_set3_self _ _ _ _ _ _ hslots2) ?_
    intro item hmem
    rw [List.set_set] at hmem
    rcases List.mem_or_eq_of_mem_set hmem with h | rfl
    · rw [List.eq_of_mem_replicate h]; rfl
    · rfl

/-- C10 (witness): the scenario of the specification: four nodes, a single-flit packet with
payload 77 on VC 0 to node 3 of subnet 0. -/
theorem single_flit_round_trip_witness :
    fourNodes.WriteOutBuffer 0 3 (some flitTo3)
      = .ok (stateOf (fourNodes.WriteOutBuffer 0 3 (some flitTo3)) fourNodes) ∧
    flitTo3.head = true ∧ flitTo3.tail = true ∧
    ∃ s2 s3,
      (stateOf (fourNodes.WriteOutBuffer 0 3 (some flitTo3)) fourNodes).Transfer2BoundaryBuffer
        0 3 = .ok s2 ∧
      s2.is_empty 3 0 = .ok false ∧
      s2.top 3 0 = .ok 77 ∧
      s2.pop 3 0 = .ok s3 ∧
      s3.is_empty 3 0 = .ok true :=
  ⟨rfl, rfl, rfl,
    single_flit_round_trip fourNodes _ 0 3 0 0 77 flitTo3 (by decide) (by decide) rfl rfl rfl
      rfl (by decide) rfl (by decide) rfl rfl rfl (by decide) rfl⟩

/-! ### Two-VC delivery order -/

theorem firstReady_here (slots : List BoundaryBufferItem) (t : Nat) (ht : t < slots.length)
    (h : readyAt slots t = true) : firstReady slots t = some t := by
  unfold firstReady cyclicOrder
  obtain ⟨n, hn⟩ : ∃ n, slots.length = n + 1 := ⟨slots.length - 1, by omega⟩
  rw [hn, cyclic_shift, ← hn, Nat.mod_eq_of_lt ht, List.find?_cons, h]

theorem firstReady_second (slots : List BoundaryBufferItem) (h2 : 2 ≤ slots.length)
    (h0 : readyAt slots 0 = false) (h1 : readyAt slots 1 = true) :
    firstReady slots 0 = some 1 := by
  unfold firstReady cyclicOrder
  obtain ⟨n, hn⟩ : ∃ n, slots.length = n + 1 + 1 := ⟨slots.length - 2, by omega⟩
  rw [hn, cyclic_shift, cyclic_shift, ← hn]
  have e0 : 0 % slots.length = 0 := Nat.zero_mod _
  have e1 : (0 + 1) % slots.length % slots.length = 1 := by
    rw [Nat.mod_mod, Nat.zero_add, Nat.mod_eq_of_lt (by omega)]
  rw [e0, e1, List.find?_cons, h0, List.find?_cons, h1]

/-- C11 (counterexample): both VCs hold exactly one complete packet and the cursor is 0, but
the tail fragment on VC 0 carries a null payload: `top(0, 0)` and the first `pop(0, 0)` stop
on the assertion `it->packet != nullptr` instead of delivering VC 0's packet. -/
theorem two_vc_null_first_aborts :
    slots00 twoVCnullFirst = .ok (some [⟨[⟨0, true⟩], 1⟩, ⟨[⟨21, true⟩], 1⟩]) ∧
      cursor00 twoVCnullFirst = .ok (some 0) ∧
      (twoVCnullFirst >>= fun s => s.top 0 0) = .error .assertion ∧
      slots00 (twoVCnullFirst >>= fun s => s.pop 0 0) = .error .assertion := by
  refine ⟨?_, ?_, ?_, ?_⟩ <;> rfl

/-- C11 (amended): for a node with at least two VCs whose cursor is 0, whose slots satisfy the
counting invariant, with exactly one complete packet on VC 0, exactly one on VC 1 and none on
any other VC, and with non-null payloads `b0`, `b1` on the two tail fragments: `top` returns
VC 0's payload and the first `pop` removes VC 0's packet (fragments from the head through the
tail fragment) and nothing else; then `top` returns VC 1's payload and the second `pop` removes
VC 1's packet and nothing else; after that `is_empty` is true. -/
theorem two_vc_delivery_order (s : Interface) (nid subnet : Nat)
    (slots : List BoundaryBufferItem) (i0 i1 : BoundaryBufferItem) (b0 b1 : Buffer)
    (hturn : get2 s.round_robin_turn subnet nid = some 0)
    (hvcs : 2 ≤ s.vcs)
    (hslots : get2 s.boundary_buffer subnet nid = some slots)
    (hlen : (slots.length : Int) = s.vcs)
    (hcnt : ∀ item ∈ slots, Counted item)
    (h0 : slots[0]? = some i0) (hc0 : completePackets i0 = 1)
    (h1 : slots[1]? = some i1) (hc1 : completePackets i1 = 1)
    (hrest : ∀ k item, 2 ≤ k → slots[k]? = some item → completePackets item = 0)
    (hb0 : firstTail i0.buffer = some b0) (hn0 : b0.packet ≠ 0)
    (hb1 : firstTail i1.buffer = some b1) (hn1 : b1.packet ≠ 0) :
    s.top nid subnet = .ok b0.packet ∧
    ∃ s1 j0 pre0, s.pop nid subnet = .ok s1 ∧
      get2 s1.boundary_buffer subnet nid = some (slots.set 0 j0) ∧
      i0.buffer = pre0 ++ b0 :: j0.buffer ∧ (∀ b ∈ pre0, b.is_tail = false) ∧
      completePackets j0 = 0 ∧
      s1.top nid subnet = .ok b1.packet ∧
      ∃ s2 j1 pre1, s1.pop nid subnet = .ok s2 ∧
        get2 s2.boundary_buffer subnet nid = some ((slots.set 0 j0).set 1 j1) ∧
        i1.buffer = pre1 ++ b1 :: j1.buffer ∧ (∀ b ∈ pre1, b.is_tail = false) ∧
        completePackets j1 = 0 ∧
        s2.is_empty nid subnet = .ok true := by
  have hN : 2 ≤ slots.length := by omega
  have hc : (0 : Int) ≤ 0 ∧ (0 : Int) < s.vcs := ⟨le_refl _, by omega⟩
  have hci0 := hcnt i0 (List.getElem?_mem h0)
  have hci1 := hcnt i1 (List.getElem?_mem h1)
  -- first top and pop
  have hr0 : readyAt slots 0 = true := by simp [readyAt, h0, hc0]
  have hf0 : firstReady slots (0 : Int).toNat = some 0 :=
    firstReady_here slots 0 (by omega) hr0
  have htop := top_eq s nid subnet 0 slots hturn hc hslots hlen hcnt
  have hpop := pop_eq s nid subnet 0 slots hturn hc hslots hlen hcnt
  rw [hf0] at htop hpop
  simp only [h0] at htop hpop
  obtain ⟨t0, ht0, _, htop0⟩ := item_top_eq i0 hci0 (by omega)
  obtain ⟨pre0, t0', rest0, e1, e2, _, e4, e5, e6, e7⟩ := item_pop_eq i0 hci0 (by omega)
  have ht0b : t0 = b0 := by rw [hb0] at ht0; exact (Option.some.inj ht0).symm
  have ht0b' : t0' = b0 := by rw [hb0] at e4; exact (Option.some.inj e4).symm
  subst ht0b
  subst ht0b'
  rw [htop0, if_neg hn0] at htop
  rw [e7, if_neg hn0] at hpop
  simp only [] at hpop
  have hcj0 : completePackets ⟨rest0, i0.num_packets - 1⟩ = 0 := by omega
  -- the state after the first pop
  have hslots1 := get2_set3_self s.boundary_buffer subnet nid 0
    ⟨rest0, i0.num_packets - 1⟩ slots hslots
  have hcnt1 : ∀ item ∈ slots.set 0 ⟨rest0, i0.num_packets - 1⟩, Counted item := by
    intro item hmem
    rcases List.mem_or_eq_of_mem_set hmem with h | rfl
    · exact hcnt item h
    · exact e6
  have hlen1 : (((slots.set 0 ⟨rest0, i0.num_packets - 1⟩).length : Nat) : Int) = s.vcs := by
    rw [List.length_set]; exact hlen
  have hr10 : readyAt (slots.set 0 ⟨rest0, i0.num_packets - 1⟩) 0 = false := by
    have : (slots.set 0 ⟨rest0, i0.num_packets - 1⟩)[0]?
        = some ⟨rest0, i0.num_packets - 1⟩ := by
      rw [List.getElem?_set, if_pos rfl, if_pos (by omega)]
    simp [readyAt, this, hcj0]
  have h11 : (slots.set 0 ⟨rest0, i0.num_packets - 1⟩)[1]? = some i1 := by
    rw [List.getElem?_set]; simp [h1]
  have hr11 : readyAt (slots.set 0 ⟨rest0, i0.num_packets - 1⟩) 1 = true := by
    simp [readyAt, h11, hc1]
  have hf1 : firstReady (slots.set 0 ⟨rest0, i0.num_packets - 1⟩) (0 : Int).toNat = some 1 :=
    firstReady_second _ (by rw [List.length_set]; exact hN) hr10 hr11
  have htop1 := top_eq
    { s with
      boundary_buffer := set3 s.boundary_buffer subnet nid 0 ⟨rest0, i0.num_packets - 1⟩ }
    nid subnet 0 _ hturn hc hslots1 hlen1 hcnt1
  have hpop1 := pop_eq
    { s with
      boundary_buffer := set3 s.boundary_buffer subnet nid 0 ⟨rest0, i0.num_packets - 1⟩ }
    nid subnet 0 _ hturn hc hslots1 hlen1 hcnt1
  rw [hf1] at htop1 hpop1
  simp only [h11] at htop1 hpop1
  obtain ⟨t1, ht1, _, htop1v⟩ := item_top_eq i1 hci1 (by omega)
  obtain ⟨pre1, t1', rest1, f1, f2, _, f4, f5, f6, f7⟩ := item_pop_eq i1 hci1 (by omega)
  have ht1b : t1 = b1 := by rw [hb1] at ht1; exact (Option.some.inj ht1).symm
  have ht1b' : t1' = b1 := by rw [hb1] at f4; exact (Option.some.inj f4).symm
  subst ht1b
  subst ht1b'
  rw [htop1v, if_neg hn1] at htop1
  rw [f7, if_neg hn1] at hpop1
  simp only [] at hpop1
  have hcj1 : completePackets ⟨rest1, i1.num_packets - 1⟩ = 0 := by omega
  have hslots2 := get2_set3_self
    (set3 s.boundary_buffer subnet nid 0 ⟨rest0, i0.num_packets - 1⟩) subnet nid 1
    ⟨rest1, i1.num_packets - 1⟩ _ hslots1
  refine ⟨htop, _, ⟨rest0, i0.num_packets - 1⟩, pre0, hpop, hslots1, e1, e2, hcj0, htop1,
    _, ⟨rest1, i1.num_packets - 1⟩, pre1, hpop1, hslots2, f1, f2, hcj1, ?_⟩
  refine is_empty_true_of_all _ nid subnet _ hslots2 ?_
  intro item hmem
  obtain ⟨k, hk⟩ := List.mem_iff_getElem?.mp hmem
  have hz : item.num_packets = 0 := by
    rw [List.getElem?_set] at hk
    by_cases hk1 : 1 = k
    · subst hk1
      rw [if_pos rfl] at hk
      split at hk
      · simp only [Option.some.injEq] at hk
        rw [← hk]
        show i1.num_packets - 1 = 0
        have := hci1.1
        omega
      · cases hk
    · rw [if_neg hk1, List.getElem?_set] at hk
      by_cases hk0 : 0 = k
      · subst hk0
        rw [if_pos rfl] at hk
        split at hk
        · simp only [Option.some.injEq] at hk
          rw [← hk]
          show i0.num_packets - 1 = 0
          have := hci0.1
          omega
        · cases hk
      · rw [if_neg hk0] at hk
        have hmem0 := List.getElem?_mem hk
        rw [(hcnt item hmem0).1]
        exact hrest k item (by omega) hk
  simp [BoundaryBufferItem.is_empty, hz]

/-- C11 (witness): VC 0 holds a two-fragment packet (tail payload 8), VC 1 a packet with payload
9 followed by a tail-less fragment; cursor 0. -/
theorem two_vc_delivery_order_witness :
    (demoNode demoSlots 0).top 0 0 = .ok 8 ∧
    ∃ s1 j0 pre0, (demoNode demoSlots 0).pop 0 0 = .ok s1 ∧
      get2 s1.boundary_buffer 0 0 = some (demoSlots.set 0 j0) ∧
      [(⟨7, false⟩ : Buffer), ⟨8, true⟩] = pre0 ++ ⟨8, true⟩ :: j0.buffer ∧
      (∀ b ∈ pre0, b.is_tail = false) ∧
      completePackets j0 = 0 ∧
      s1.top 0 0 = .ok 9 ∧
      ∃ s2 j1 pre1, s1.pop 0 0 = .ok s2 ∧
        get2 s2.boundary_buffer 0 0 = some ((demoSlots.set 0 j0).set 1 j1) ∧
        [(⟨9, true⟩ : Buffer), ⟨10, false⟩] = pre1 ++ ⟨9, true⟩ :: j1.buffer ∧
        (∀ b ∈ pre1, b.is_tail = false) ∧
        completePackets j1 = 0 ∧
        s2.is_empty 0 0 = .ok true :=
  two_vc_delivery_order (demoNode demoSlots 0) 0 0 demoSlots
    ⟨[⟨7, false⟩, ⟨8, true⟩], 1⟩ ⟨[⟨9, true⟩, ⟨10, false⟩], 1⟩ ⟨8, true⟩ ⟨9, true⟩
    rfl (by decide) rfl rfl demoSlots_counted rfl (by decide) rfl (by decide)
    (by
      intro k item hk h
      have : demoSlots[k]? = none := by
        apply List.getElem?_eq_none
        simp only [demoSlots, List.length_cons, List.length_nil]
        omega
      rw [this] at h
      cases h)
    rfl (by decide) rfl (by decide)

/-! ### Ejection staging -/

theorem WriteOutBuffer_eq (s : Interface) (subnet : Nat) (output : Int) (f : Flit)
    (q : EjectionBufferItem) (ho : 0 ≤ output) (hvc : 0 ≤ f.vc)
    (hq : get3 s.ejection_buffer subnet output.toNat f.vc.toNat = some q) :
    s.WriteOutBuffer subnet output (some f) =
      if q.length < s.ejection_buffer_capacity then
        .ok { s with
              ejection_buffer :=
                set3 s.ejection_buffer subnet output.toNat f.vc.toNat (q ++ [some f]) }
      else .error .assertion := by
  have ho1 : ¬ output < 0 := by omega
  have hvc1 : ¬ f.vc < 0 := by omega
  simp only [Interface.WriteOutBuffer, ho1, if_false, get3i, hvc1, hq]

/-- C12: when the flit is non-null and ejection slot `[subnet][output][flit.vc]` exists and
holds the queue `q`, `WriteOutBuffer` fails its assertion if and only if `q` already holds at
least `ejection_buffer_capacity` flits; otherwise it returns, and whenever it returns the flit
is stored at the back of that slot. -/
theorem write_overflow_detected (s : Interface) (subnet : Nat) (output : Int) (f : Flit)
    (q : EjectionBufferItem) (ho : 0 ≤ output) (hvc : 0 ≤ f.vc)
    (hq : get3 s.ejection_buffer subnet output.toNat f.vc.toNat = some q) :
    (s.WriteOutBuffer subnet output (some f) = .error .assertion ↔
      s.ejection_buffer_capacity ≤ q.length) ∧
    (q.length < s.ejection_buffer_capacity →
      ∃ s1, s.WriteOutBuffer subnet output (some f) = .ok s1) ∧
    (∀ s1, s.WriteOutBuffer subnet output (some f) = .ok s1 →
      get3 s1.ejection_buffer subnet output.toNat f.vc.toNat = some (q ++ [some f])) := by
  have heq := WriteOutBuffer_eq s subnet output f q ho hvc hq
  refine ⟨?_, ?_, ?_⟩
  · rw [heq]
    by_cases hlt : q.length < s.ejection_buffer_capacity
    · simp only [hlt, if_true]
      constructor
      · intro h; cases h
      · intro h; omega
    · simp only [hlt, if_false, true_iff]
      omega
  · intro hlt
    rw [heq, if_pos hlt]
    exact ⟨_, rfl⟩
  · intro s1 h1
    rw [heq] at h1
    by_cases hlt : q.length < s.ejection_buffer_capacity
    · rw [if_pos hlt] at h1
      simp only [Except.ok.injEq] at h1
      rw [← h1, get3_set3]
      simp [hq]
    · rw [if_neg hlt] at h1
      cases h1

/-- C12 (witness): with capacity 4 and an empty slot the write returns and stores the flit. -/
theorem write_overflow_detected_witness :
    ((demoNode emptySlots 0).WriteOutBuffer 0 0 (some (flit0 true true 5)) = .error .assertion ↔
      (demoNode emptySlots 0).ejection_buffer_capacity ≤ ([] : EjectionBufferItem).length) ∧
    (([] : EjectionBufferItem).length < (demoNode emptySlots 0).ejection_buffer_capacity →
      ∃ s1, (demoNode emptySlots 0).WriteOutBuffer 0 0 (some (flit0 true true 5)) = .ok s1) ∧
    (∀ s1, (demoNode emptySlots 0).WriteOutBuffer 0 0 (some (flit0 true true 5)) = .ok s1 →
      get3 s1.ejection_buffer 0 0 0 = some ([] ++ [some (flit0 true true 5)])) :=
  write_overflow_detected (demoNode emptySlots 0) 0 0 (flit0 true true 5) [] (by decide)
    (by decide) rfl

/-- C13: when the flit is non-null and ejection slot `[subnet][output][flit.vc]` exists and
holds fewer than `ejection_buffer_capacity` flits, `WriteOutBuffer` returns a state in which
that slot is the old queue with the flit appended at the back, and every other ejection slot,
every boundary slot, every ejected-flit queue, every round-robin cursor and the configuration
are unchanged. -/
theorem write_appends_and_frames (s : Interface) (subnet : Nat) (output : Int) (f : Flit)
    (q : EjectionBufferItem) (ho : 0 ≤ output) (hvc : 0 ≤ f.vc)
    (hq : get3 s.ejection_buffer subnet output.toNat f.vc.toNat = some q)
    (hlt : q.length < s.ejection_buffer_capacity) :
    ∃ s1, s.WriteOutBuffer subnet output (some f) = .ok s1 ∧
      get3 s1.ejection_buffer subnet output.toNat f.vc.toNat = some (q ++ [some f]) ∧
      (q ++ [some f]).length = q.length + 1 ∧
      (∀ a b k, ¬ (a = subnet ∧ b = output.toNat ∧ k = f.vc.toNat) →
        get3 s1.ejection_buffer a b k = get3 s.ejection_buffer a b k) ∧
      s1.boundary_buffer = s.boundary_buffer ∧
      s1.ejected_flit_queue = s.ejected_flit_queue ∧
      s1.round_robin_turn = s.round_robin_turn ∧
      SameConfig s s1 := by
  refine ⟨{ s with
            ejection_buffer :=
              set3 s.ejection_buffer subnet output.toNat f.vc.toNat (q ++ [some f]) },
    by rw [WriteOutBuffer_eq s subnet output f q ho hvc hq, if_pos hlt], ?_, ?_, ?_,
    rfl, rfl, rfl, SameConfig.refl _⟩
  · rw [get3_set3]; simp [hq]
  · simp
  · intro a b k hne
    rw [get3_set3]
    have : ¬ (subnet = a ∧ output.toNat = b ∧ f.vc.toNat = k) :=
      fun h => hne ⟨h.1.symm, h.2.1.symm, h.2.2.symm⟩
    simp [this]

/-- C13 (witness): a write to the empty slot of VC 0 of a node with capacity 4. -/
theorem write_appends_and_frames_witness :
    ∃ s1, (demoNode emptySlots 0).WriteOutBuffer 0 0 (some (flit0 true true 5)) = .ok s1 ∧
      get3 s1.ejection_buffer 0 0 0 = some ([] ++ [some (flit0 true true 5)]) ∧
      (([] : EjectionBufferItem) ++ [some (flit0 true true 5)]).length
        = ([] : EjectionBufferItem).length + 1 ∧
      (∀ a b k, ¬ (a = 0 ∧ b = 0 ∧ k = 0) →
        get3 s1.ejection_buffer a b k = get3 (demoNode emptySlots 0).ejection_buffer a b k) ∧
      s1.boundary_buffer = (demoNode emptySlots 0).boundary_buffer ∧
      s1.ejected_flit_queue = (demoNode emptySlots 0).ejected_flit_queue ∧
      s1.round_robin_turn = (demoNode emptySlots 0).round_robin_turn ∧
      SameConfig (demoNode emptySlots 0) s1 :=
  write_appends_and_frames (demoNode emptySlots 0) 0 0 (flit0 true true 5) [] (by decide)
    (by decide) rfl (by decide)

/-! ### The transfer step -/

theorem transferLoop_movesAt (subnet output : Nat) (n : Nat) (s s2 : Interface)
    (hmid : (List.range n).foldlM (fun s vc => s.transferVC subnet output vc) s = .ok s2) :
    movesAt s2 subnet output n = movesAt s subnet output n := by
  obtain ⟨c1, _, _, ej1, bb1⟩ := transferLoop_effect subnet output n s s2 hmid
  have hejn : get3 s2.ejection_buffer subnet output n = get3 s.ejection_buffer subnet output n := by
    rw [ej1]; simp
  have hbbn : get3 s2.boundary_buffer subnet output n = get3 s.boundary_buffer subnet output n := by
    rw [bb1]; simp
  unfold movesAt
  rw [hejn, hbbn, c1.2.2.2.2.2.2.1]

theorem movedFlits_succ (s : Interface) (subnet output n : Nat) :
    movedFlits s subnet output (n + 1)
      = movedFlits s subnet output n ++ (movesAt s subnet output n).toList := by
  unfold movedFlits
  rw [List.range_succ, List.filterMap_append]
  cases h : movesAt s subnet output n <;> simp [List.filterMap_cons, h]

theorem transferLoop_queue (subnet output : Nat) :
    ∀ (n : Nat) (s s1 : Interface),
      (List.range n).foldlM (fun s vc => s.transferVC subnet output vc) s = .ok s1 →
      ∀ a b, get2 s1.ejected_flit_queue a b =
        if a = subnet ∧ b = output then
          (get2 s.ejected_flit_queue a b).map
            (fun q => q ++ (movedFlits s subnet output n).map some)
        else get2 s.ejected_flit_queue a b := by
  intro n
  induction n with
  | zero =>
    intro s s1 h a b
    simp only [List.range_zero, List.foldlM_nil, pure, Except.pure, Except.ok.injEq] at h
    subst h
    by_cases hab : a = subnet ∧ b = output
    · rw [if_pos hab]
      cases get2 s.ejected_flit_queue a b <;> simp [movedFlits]
    · rw [if_neg hab]
  | succ n ih =>
    intro s s1 h a b
    rw [List.range_succ, List.foldlM_append] at h
    cases hmid : (List.range n).foldlM (fun s vc => s.transferVC subnet output vc) s with
    | error e => simp [hmid, bind, Except.bind] at h
    | ok s2 =>
      simp only [hmid, bind, Except.bind, List.foldlM_cons, List.foldlM_nil, pure,
        Except.pure] at h
      have hstep : s2.transferVC subnet output n = .ok s1 := by
        cases hx : s2.transferVC subnet output n with
        | error e => simp [hx] at h
        | ok s3 => simp only [hx, Except.ok.injEq] at h; rw [h]
      have hmv := transferLoop_movesAt subnet output n s s2 hmid
      have hih := ih s s2 hmid
      obtain ⟨_, hm⟩ := transferVC_ok s2 s1 subnet output n hstep
      rw [movedFlits_succ]
      cases hmv2 : movesAt s2 subnet output n with
      | none =>
        rw [hmv2] at hm
        rw [← hmv, hmv2, hm, hih a b]
        simp
      | some f =>
        rw [hmv2] at hm
        obtain ⟨rest, item, q, _, _, _, hq, _, e6⟩ := hm
        rw [← hmv, hmv2, e6]
        simp only [get2_set2, Option.toList_some, List.map_append, List.map_cons, List.map_nil]
        by_cases hab : a = subnet ∧ b = output
        · obtain ⟨rfl, rfl⟩ := hab
          have := hih a b
          rw [if_pos ⟨rfl, rfl⟩] at this
          rw [hq] at this
          simp only [and_self, if_true, hq, Option.isSome_some]
          cases hq0 : get2 s.ejected_flit_queue a b with
          | none => simp [hq0] at this
          | some q0 =>
            simp only [hq0, Option.map_some', Option.some.injEq] at this ⊢
            rw [this, List.append_assoc]
        · have hne : ¬ (subnet = a ∧ output = b) := fun h => hab ⟨h.1.symm, h.2.symm⟩
          rw [if_neg hne, if_neg hab, hih a b, if_neg hab]

theorem waitingNode_ok : ∀ k, k < waitingNode.vcs.toNat → transferOK waitingNode 0 0 k := by
  intro k hk
  have hk2 : k < 2 := hk
  rcases k with _ | _ | k
  · exact ⟨[pkt 0 5], rfl, Or.inr ⟨BoundaryBufferItem.new, rfl, Or.inr
      ⟨_, [], rfl, rfl, by decide⟩⟩⟩
  · exact ⟨[pkt 1 6], rfl, Or.inr ⟨BoundaryBufferItem.new, rfl, Or.inr
      ⟨_, [], rfl, rfl, by decide⟩⟩⟩
  · omega

/-- C14: let every loop iteration of `Transfer2BoundaryBuffer(subnet, output)` meet its
non-failure conditions and the boundary slots of the node hold fewer than `2^32` fragments.
Then the call returns, and for every VC `k < vcs` independently: when the ejection slot is
non-empty and the boundary slot holds fewer than `boundary_buffer_capacity` fragments, exactly
the front flit `f` leaves the ejection slot and `(f.data, f.tail)` is appended at the back of
the boundary slot; otherwise both slots of that VC are unchanged. The ejected-flit queue of
`(subnet, output)` receives the moved flits at its back in increasing VC order; all other
slots and queues, the cursors and the configuration are unchanged. -/
theorem transfer_step (s : Interface) (subnet output : Nat)
    (hok : ∀ k, k < s.vcs.toNat → transferOK s subnet output k)
    (hsz : ∀ k item, get3 s.boundary_buffer subnet output k = some item →
      item.buffer.length < 2 ^ 32) :
    ∃ s1, s.Transfer2BoundaryBuffer subnet output = .ok s1 ∧
      (∀ k ej item, k < s.vcs.toNat →
        get3 s.ejection_buffer subnet output k = some ej →
        get3 s.boundary_buffer subnet output k = some item →
        (ej ≠ [] ∧ item.buffer.length < s.boundary_buffer_capacity →
          ∃ f rest, ej = some f :: rest ∧ movesAt s subnet output k = some f ∧
            get3 s1.ejection_buffer subnet output k = some rest ∧
            get3 s1.boundary_buffer subnet output k
              = some ⟨item.buffer ++ [⟨f.data, f.tail⟩],
                  (item.num_packets + (if f.tail then 1 else 0)) % 2 ^ 32⟩) ∧
        (¬ (ej ≠ [] ∧ item.buffer.length < s.boundary_buffer_capacity) →
          movesAt s subnet output k = none ∧
          get3 s1.ejection_buffer subnet output k = some ej ∧
          get3 s1.boundary_buffer subnet output k = some item)) ∧
      get2 s1.ejected_flit_queue subnet output =
        (get2 s.ejected_flit_queue subnet output).map
          (fun q => q ++ (movedFlits s subnet output s.vcs.toNat).map some) ∧
      (∀ a b k, ¬ (a = subnet ∧ b = output ∧ k < s.vcs.toNat) →
        get3 s1.ejection_buffer a b k = get3 s.ejection_buffer a b k ∧
        get3 s1.boundary_buffer a b k = get3 s.boundary_buffer a b k) ∧
      (∀ a b, ¬ (a = subnet ∧ b = output) →
        get2 s1.ejected_flit_queue a b = get2 s.ejected_flit_queue a b) ∧
      s1.round_robin_turn = s.round_robin_turn ∧ SameConfig s s1 := by
  obtain ⟨s1, hs1⟩ := transferLoop_succeeds subnet output s.vcs.toNat s hok
  obtain ⟨hcfg, hrr, _, hej, hbb⟩ := transferLoop_effect subnet output s.vcs.toNat s s1 hs1
  have hqueue := transferLoop_queue subnet output s.vcs.toNat s s1 hs1
  refine ⟨s1, hs1, ?_, ?_, ?_, ?_, hrr, hcfg⟩
  · intro k ej item hk hejk hbbk
    have hit : subnet = subnet ∧ output = output ∧ k < s.vcs.toNat := ⟨rfl, rfl, hk⟩
    have hej1 := hej subnet output k
    have hbb1 := hbb subnet output k
    rw [if_pos hit] at hej1 hbb1
    have hsize : item.size = item.buffer.length := by
      unfold BoundaryBufferItem.size
      exact Nat.mod_eq_of_lt (hsz k item hbbk)
    constructor
    · intro ⟨hne, hroom⟩
      obtain ⟨ej', hej', hcase⟩ := hok k hk
      rw [hejk] at hej'
      simp only [Option.some.injEq] at hej'
      subst hej'
      rcases hcase with h | ⟨item', hitem', hcase⟩
      · exact absurd h hne
      · rw [hbbk] at hitem'
        simp only [Option.some.injEq] at hitem'
        subst hitem'
        rcases hcase with h | ⟨f, rest, hcons, _, _⟩
        · rw [hsize] at h
          exact absurd hroom h
        · have hmv : movesAt s subnet output k = some f := by
            unfold movesAt
            rw [hejk, hbbk, hcons]
            simp only [hsize, hroom, if_true]
          rw [hmv] at hej1 hbb1
          refine ⟨f, rest, hcons, hmv, ?_, ?_⟩
          · rw [hej1, hejk, hcons]; rfl
          · rw [hbb1, hbbk]; rfl
    · intro hnot
      have hmv : movesAt s subnet output k = none := by
        unfold movesAt
        rw [hejk, hbbk]
        cases ej with
        | nil => rfl
        | cons flit rest =>
          have hfull : ¬ item.size < s.boundary_buffer_capacity := by
            rw [hsize]
            intro h
            exact hnot ⟨by simp, h⟩
          cases flit <;> simp [hfull]
      rw [hmv] at hej1 hbb1
      exact ⟨hmv, by rw [hej1, hejk], by rw [hbb1, hbbk]⟩
  · have := hqueue subnet output
    rw [if_pos ⟨rfl, rfl⟩] at this
    exact this
  · intro a b k hne
    rw [hej, hbb, if_neg hne, if_neg hne]
    exact ⟨rfl, rfl⟩
  · intro a b hne
    rw [hqueue, if_neg hne]

/-- C14 (witness): a node with one flit waiting on each of its two VCs and empty boundary
slots; one call moves both flits, the one of VC 0 first. -/
theorem transfer_step_witness :
    movedFlits waitingNode 0 0 waitingNode.vcs.toNat
      = [⟨0, true, true, 0, 5⟩, ⟨1, true, true, 0, 6⟩] ∧
    ∃ s1, waitingNode.Transfer2BoundaryBuffer 0 0 = .ok s1 ∧
      (∀ k ej item, k < waitingNode.vcs.toNat →
        get3 waitingNode.ejection_buffer 0 0 k = some ej →
        get3 waitingNode.boundary_buffer 0 0 k = some item →
        (ej ≠ [] ∧ item.buffer.length < waitingNode.boundary_buffer_capacity →
          ∃ f rest, ej = some f :: rest ∧ movesAt waitingNode 0 0 k = some f ∧
            get3 s1.ejection_buffer 0 0 k = some rest ∧
            get3 s1.boundary_buffer 0 0 k
              = some ⟨item.buffer ++ [⟨f.data, f.tail⟩],
                  (item.num_packets + (if f.tail then 1 else 0)) % 2 ^ 32⟩) ∧
        (¬ (ej ≠ [] ∧ item.buffer.length < waitingNode.boundary_buffer_capacity) →
          movesAt waitingNode 0 0 k = none ∧
          get3 s1.ejection_buffer 0 0 k = some ej ∧
          get3 s1.boundary_buffer 0 0 k = some item)) ∧
      get2 s1.ejected_flit_queue 0 0 =
        (get2 waitingNode.ejected_flit_queue 0 0).map
          (fun q => q ++ (movedFlits waitingNode 0 0 waitingNode.vcs.toNat).map some) ∧
      (∀ a b k, ¬ (a = 0 ∧ b = 0 ∧ k < waitingNode.vcs.toNat) →
        get3 s1.ejection_buffer a b k = get3 waitingNode.ejection_buffer a b k ∧
        get3 s1.boundary_buffer a b k = get3 waitingNode.boundary_buffer a b k) ∧
      (∀ a b, ¬ (a = 0 ∧ b = 0) →
        get2 s1.ejected_flit_queue a b = get2 waitingNode.ejected_flit_queue a b) ∧
      s1.round_robin_turn = waitingNode.round_robin_turn ∧ SameConfig waitingNode s1 :=
  ⟨rfl, transfer_step waitingNode 0 0 waitingNode_ok (by
    intro k item h
    have hk : k < 2 ∨ 2 ≤ k := by omega
    rcases hk with hk | hk
    · rcases k with _ | _ | k
      · have : item = BoundaryBufferItem.new := (Option.some.inj h).symm
        rw [this]; decide
      · have : item = BoundaryBufferItem.new := (Option.some.inj h).symm
        rw [this]; decide
      · omega
    · have : get3 waitingNode.boundary_buffer 0 0 k = none := by
        show ([BoundaryBufferItem.new, BoundaryBufferItem.new] : List BoundaryBufferItem)[k]?
          = none
        apply List.getElem?_eq_none
        simp only [List.length_cons, List.length_nil]
        omega
      rw [this] at h
      cases h)⟩

/-! ### Per-VC FIFO order -/

theorem item_pop_split (item item1 : BoundaryBufferItem) (h : item.pop = .ok item1) :
    ∃ removed, item.buffer = removed ++ item1.buffer ∧ removed ≠ [] := by
  unfold BoundaryBufferItem.pop at h
  by_cases he : item.is_empty = true
  · simp [he] at h
  · rw [if_neg he] at h
    have hsplit := List.takeWhile_append_dropWhile (fun buf : Buffer => !buf.is_tail) item.buffer
    cases hd : item.buffer.dropWhile (fun buf => !buf.is_tail) with
    | nil => simp [hd] at h
    | cons it rest =>
      simp only [hd] at h
      by_cases hz : it.packet = 0
      · simp [hz] at h
      · simp only [hz, if_false, Except.ok.injEq] at h
        refine ⟨item.buffer.takeWhile (fun buf => !buf.is_tail) ++ [it], ?_, by simp⟩
        rw [← h]
        simp only [List.append_assoc, List.singleton_append]
        rw [← hd, hsplit]

theorem fifo_step (a b k : Nat) (op : Op) (s s1 : Interface) (fs0 : List Flit)
    (item0 : BoundaryBufferItem)
    (hej : get3 s.ejection_buffer a b k = some (fs0.map some))
    (hbb : get3 s.boundary_buffer a b k = some item0)
    (hrun : op.run s = .ok s1) :
    ∃ (fs1 : List Flit) (item1 : BoundaryBufferItem), get3 s1.ejection_buffer a b k = some (fs1.map some) ∧
      get3 s1.boundary_buffer a b k = some item1 ∧
      removedBy op s s1 a b k ++ item1.buffer ++ fs1.map frag
        = item0.buffer ++ fs0.map frag ++ (writesTo a b k [op]).map frag := by
  cases op with
  | WriteOutBuffer sn out flit =>
    obtain ⟨f, q, rfl, ho, hvc, hq, _, rfl⟩ := WriteOutBuffer_ok s s1 sn out flit hrun
    by_cases hm : sn = a ∧ out = (b : Int) ∧ f.vc = (k : Int)
    · obtain ⟨rfl, rfl, hfv⟩ := hm
      simp only [Int.toNat_ofNat, hfv] at hq
      rw [hej] at hq
      simp only [Option.some.injEq] at hq
      subst hq
      refine ⟨fs0 ++ [f], item0, ?_, hbb, ?_⟩
      · simp only [get3_set3, Int.toNat_ofNat, hfv, and_self, if_true, hej,
          Option.isSome_some, List.map_append, List.map_cons, List.map_nil]
      · simp [removedBy, writesTo, hfv]
    · refine ⟨fs0, item0, ?_, hbb, ?_⟩
      · simp only [get3_set3]
        have : ¬ (sn = a ∧ out.toNat = b ∧ f.vc.toNat = k) := by
          intro hh
          exact hm ⟨hh.1, by omega, by omega⟩
        simp [this, hej]
      · simp [removedBy, writesTo, hm]
  | Transfer2BoundaryBuffer sn out =>
    obtain ⟨_, _, _, hej1, hbb1⟩ := transferLoop_effect sn out s.vcs.toNat s s1 hrun
    have hej1 := hej1 a b k
    have hbb1 := hbb1 a b k
    have hw : writesTo a b k [Op.Transfer2BoundaryBuffer sn out] = [] := rfl
    have hr : removedBy (Op.Transfer2BoundaryBuffer sn out) s s1 a b k = [] := by
      unfold removedBy; rfl
    rw [hw, hr]
    by_cases hit : a = sn ∧ b = out ∧ k < s.vcs.toNat
    · rw [if_pos hit] at hej1 hbb1
      cases hmv : movesAt s a b k with
      | none =>
        rw [hmv] at hej1 hbb1
        exact ⟨fs0, item0, by rw [hej1, hej], by rw [hbb1, hbb], by simp⟩
      | some f =>
        rw [hmv] at hej1 hbb1
        simp only [] at hej1 hbb1
        cases fs0 with
        | nil => simp [movesAt, hej] at hmv
        | cons f0 rest =>
          have hf : f = f0 := by
            unfold movesAt at hmv
            rw [hej, hbb] at hmv
            simp only [List.map_cons] at hmv
            by_cases hroom : item0.size < s.boundary_buffer_capacity
            · simp only [hroom, if_true, Option.some.injEq] at hmv
              exact hmv.symm
            · simp only [hroom, if_false] at hmv
              cases hmv
          subst hf
          refine ⟨rest, item0.push f.data f.tail, ?_, ?_, ?_⟩
          · rw [hej1, hej]; rfl
          · rw [hbb1, hbb]; rfl
          · simp [BoundaryBufferItem.push, frag]
    · rw [if_neg hit] at hej1 hbb1
      exact ⟨fs0, item0, by rw [hej1, hej], by rw [hbb1, hbb], by simp⟩
  | GetEjectedFlit sn nid =>
    simp only [Op.run] at hrun
    cases hg : s.GetEjectedFlit sn nid with
    | error e => simp [hg] at hrun
    | ok r =>
      obtain ⟨fl, s2⟩ := r
      simp only [hg, Except.ok.injEq] at hrun
      subst hrun
      obtain ⟨_, hej2, hbb2, _⟩ := GetEjectedFlit_effect s s2 sn nid fl hg
      refine ⟨fs0, item0, by rw [hej2, hej], by rw [hbb2, hbb], ?_⟩
      simp [removedBy, writesTo]
  | top nid sn =>
    simp only [Op.run] at hrun
    cases hg : s.top nid sn with
    | error e => simp [hg] at hrun
    | ok r =>
      simp only [hg, Except.ok.injEq] at hrun
      subst hrun
      exact ⟨fs0, item0, hej, hbb, by simp [removedBy, writesTo]⟩
  | pop nid sn =>
    obtain ⟨_, hej2, _, hcase⟩ := pop_effect s s1 nid sn hrun
    have hw : writesTo a b k [Op.pop nid sn] = [] := rfl
    rw [hw]
    have hsame : ∀ item1, get3 s1.boundary_buffer a b k = some item1 → item1 = item0 →
        removedBy (Op.pop nid sn) s s1 a b k = [] := by
      intro item1 h1 h2
      unfold removedBy
      rw [hbb, h1, h2]
      simp
    rcases hcase with hbb2 | ⟨w, i0, i1, hi0, _, hp, hset⟩
    · have h1 : get3 s1.boundary_buffer a b k = some item0 := by rw [hbb2, hbb]
      refine ⟨fs0, item0, by rw [hej2, hej], h1, ?_⟩
      rw [hsame item0 h1 rfl]
      simp
    · by_cases hit : sn = a ∧ nid = b ∧ w = k
      · obtain ⟨rfl, rfl, rfl⟩ := hit
        rw [hbb] at hi0
        simp only [Option.some.injEq] at hi0
        subst hi0
        have h1 : get3 s1.boundary_buffer sn nid w = some i1 := by
          rw [hset, get3_set3]; simp [hbb]
        obtain ⟨removed, hsplit, _⟩ := item_pop_split item0 i1 hp
        refine ⟨fs0, i1, by rw [hej2, hej], h1, ?_⟩
        have hrem : removedBy (Op.pop nid sn) s s1 sn nid w = removed := by
          unfold removedBy
          rw [hbb, h1]
          simp only [hsplit, List.length_append]
          rw [Nat.add_sub_cancel, List.take_left']
          rfl
        rw [hrem, hsplit]
        simp
      · have h1 : get3 s1.boundary_buffer a b k = some item0 := by
          rw [hset, get3_set3]; simp [hit, hbb]
        refine ⟨fs0, item0, by rw [hej2, hej], h1, ?_⟩
        rw [hsame item0 h1 rfl]
        simp

theorem fifo_run (a b k : Nat) :
    ∀ (ops : List Op) (s s1 : Interface) (fs0 : List Flit) (item0 : BoundaryBufferItem),
      get3 s.ejection_buffer a b k = some (fs0.map some) →
      get3 s.boundary_buffer a b k = some item0 →
      runOps ops s = .ok s1 →
      ∃ (fs1 : List Flit) (item1 : BoundaryBufferItem), get3 s1.ejection_buffer a b k = some (fs1.map some) ∧
        get3 s1.boundary_buffer a b k = some item1 ∧
        poppedFrom a b k ops s ++ item1.buffer ++ fs1.map frag
          = item0.buffer ++ fs0.map frag ++ (writesTo a b k ops).map frag := by
  intro ops
  induction ops with
  | nil =>
    intro s s1 fs0 item0 hej hbb hrun
    simp only [runOps, Except.ok.injEq] at hrun
    subst hrun
    exact ⟨fs0, item0, hej, hbb, by simp [poppedFrom, writesTo]⟩
  | cons op ops ih =>
    intro s s1 fs0 item0 hej hbb hrun
    simp only [runOps] at hrun
    cases hop : op.run s with
    | error e => simp [hop] at hrun
    | ok s2 =>
      simp only [hop] at hrun
      obtain ⟨fs2, item2, hej2, hbb2, h2⟩ := fifo_step a b k op s s2 fs0 item0 hej hbb hop
      obtain ⟨fs1, item1, hej1, hbb1, h1⟩ := ih s2 s1 fs2 item2 hej2 hbb2 hrun
      refine ⟨fs1, item1, hej1, hbb1, ?_⟩
      have hp : poppedFrom a b k (op :: ops) s
          = removedBy op s s2 a b k ++ poppedFrom a b k ops s2 := by
        simp only [poppedFrom, hop]
      rw [hp, writesTo_cons, List.map_append]
      simp only [List.append_assoc] at h1 h2 ⊢
      rw [h1]
      have h3 := congrArg (fun l => l ++ List.map frag (writesTo a b k ops)) h2
      simpa only [List.append_assoc] using h3

/-- C15: for every sequence of calls (`WriteOutBuffer`, `Transfer2BoundaryBuffer`, `pop`, and
also `top` and `GetEjectedFlit`) that all return, started with ejection and boundary slot
`[a][b][k]` empty, the fragments removed from the boundary slot by the `pop` calls so far,
followed by the fragments now in the boundary slot, followed by the `(payload, tail)` fragments
of the flits now in the ejection slot, are exactly the fragments of the flits written to that VC,
in write order. -/
theorem per_vc_fifo (s0 s : Interface) (a b k : Nat) (ops : List Op)
    (hej0 : get3 s0.ejection_buffer a b k = some [])
    (hbb0 : get3 s0.boundary_buffer a b k = some BoundaryBufferItem.new)
    (hrun : runOps ops s0 = .ok s) :
    ∃ (fs1 : List Flit) (item1 : BoundaryBufferItem),
      get3 s.ejection_buffer a b k = some (fs1.map some) ∧
      get3 s.boundary_buffer a b k = some item1 ∧
      poppedFrom a b k ops s0 ++ item1.buffer ++ fs1.map frag
        = (writesTo a b k ops).map frag := by
  obtain ⟨fs1, item1, h1, h2, h3⟩ :=
    fifo_run a b k ops s0 s [] BoundaryBufferItem.new hej0 hbb0 hrun
  refine ⟨fs1, item1, h1, h2, ?_⟩
  rw [h3]
  simp [BoundaryBufferItem.new]

/-- C15 (witness): two single-flit packets (payloads 5, 6) written to VC 0; after a transfer,
a `pop` and another transfer, the first was removed by the `pop` and the second sits in the
boundary slot. -/
theorem per_vc_fifo_witness :
    poppedFrom 0 0 0 demoTraffic (demoNode emptySlots 0) = [⟨5, true⟩] ∧
    (writesTo 0 0 0 demoTraffic).map frag = [⟨5, true⟩, ⟨6, true⟩] ∧
    ∃ (fs1 : List Flit) (item1 : BoundaryBufferItem),
      get3 (stateOf (runOps demoTraffic (demoNode emptySlots 0))
        (demoNode emptySlots 0)).ejection_buffer 0 0 0 = some (fs1.map some) ∧
      get3 (stateOf (runOps demoTraffic (demoNode emptySlots 0))
        (demoNode emptySlots 0)).boundary_buffer 0 0 0 = some item1 ∧
      poppedFrom 0 0 0 demoTraffic (demoNode emptySlots 0) ++ item1.buffer ++ fs1.map frag
        = (writesTo 0 0 0 demoTraffic).map frag :=
  ⟨rfl, rfl, per_vc_fifo (demoNode emptySlots 0) _ 0 0 0 demoTraffic rfl rfl rfl⟩

/-! ### Ejected-flit retrieval -/

theorem GetEjectedFlit_nil (s : Interface) (subnet nid : Nat)
    (hq : get2 s.ejected_flit_queue subnet nid = some []) :
    s.GetEjectedFlit subnet nid = .ok (none, s) := by
  unfold Interface.GetEjectedFlit
  rw [hq]

theorem GetEjectedFlit_cons (s : Interface) (subnet nid : Nat) (fl : Option Flit)
    (rest : List (Option Flit))
    (hq : get2 s.ejected_flit_queue subnet nid = some (fl :: rest)) :
    s.GetEjectedFlit subnet nid =
      .ok (fl, { s with
                 ejected_flit_queue := set2 s.ejected_flit_queue subnet nid rest }) := by
  unfold Interface.GetEjectedFlit
  rw [hq]

theorem getEjectedFlits_eq (subnet nid : Nat) :
    ∀ (n : Nat) (s : Interface) (q : List (Option Flit)),
      get2 s.ejected_flit_queue subnet nid = some q →
      ∃ s2, getEjectedFlits subnet nid n s
          = .ok (q.take n ++ List.replicate (n - q.length) none, s2) ∧
        get2 s2.ejected_flit_queue subnet nid = some (q.drop n) ∧
        s2.boundary_buffer = s.boundary_buffer ∧ s2.ejection_buffer = s.ejection_buffer ∧
        s2.round_robin_turn = s.round_robin_turn := by
  intro n
  induction n with
  | zero =>
    intro s q hq
    exact ⟨s, by simp [getEjectedFlits], by simpa using hq, rfl, rfl, rfl⟩
  | succ n ih =>
    intro s q hq
    unfold getEjectedFlits
    cases q with
    | nil =>
      rw [GetEjectedFlit_nil s subnet nid hq]
      simp only []
      obtain ⟨s2, h1, h2, h3, h4, h5⟩ := ih s [] hq
      refine ⟨s2, ?_, by simpa using h2, h3, h4, h5⟩
      rw [h1]
      simp [List.replicate_succ]
    | cons fl rest =>
      rw [GetEjectedFlit_cons s subnet nid fl rest hq]
      simp only []
      have hq1 : get2 (set2 s.ejected_flit_queue subnet nid rest) subnet nid = some rest :=
        get2_set2_self _ _ _ _ _ hq
      obtain ⟨s2, h1, h2, h3, h4, h5⟩ := ih
        { s with
          ejected_flit_queue := set2 s.ejected_flit_queue subnet nid rest } rest hq1
      refine ⟨s2, ?_, by simpa using h2, h3, h4, h5⟩
      rw [h1]
      simp

/-- C16: let `q` be the ejected-flit queue of `(subnet, nid)`. If `q` is empty,
`GetEjectedFlit` returns null and the unchanged state. Otherwise it returns the oldest flit and
a state that differs only in that queue, which has lost its front. Hence `n` successive calls
return the first `n` entries of `q` in queue order (and null once the queue is exhausted),
touching no boundary or ejection slot and no cursor. The queue order is the order of
enqueueing: a `Transfer2BoundaryBuffer` call appends the flits it moves at the back, and a
`pop` leaves every ejected-flit queue as it is (`top` has no effect on the state at all). -/
theorem get_ejected_flit_order (s : Interface) (subnet nid : Nat) (q : List (Option Flit))
    (hq : get2 s.ejected_flit_queue subnet nid = some q) :
    (q = [] → s.GetEjectedFlit subnet nid = .ok (none, s)) ∧
    (∀ fl rest, q = fl :: rest →
      ∃ s1, s.GetEjectedFlit subnet nid = .ok (fl, s1) ∧
        get2 s1.ejected_flit_queue subnet nid = some rest ∧
        (∀ a b, ¬ (a = subnet ∧ b = nid) →
          get2 s1.ejected_flit_queue a b = get2 s.ejected_flit_queue a b) ∧
        s1.boundary_buffer = s.boundary_buffer ∧ s1.ejection_buffer = s.ejection_buffer ∧
        s1.round_robin_turn = s.round_robin_turn) ∧
    (∀ n, ∃ s2, getEjectedFlits subnet nid n s
        = .ok (q.take n ++ List.replicate (n - q.length) none, s2) ∧
      get2 s2.ejected_flit_queue subnet nid = some (q.drop n) ∧
      s2.boundary_buffer = s.boundary_buffer ∧ s2.ejection_buffer = s.ejection_buffer ∧
      s2.round_robin_turn = s.round_robin_turn) ∧
    (∀ s1, s.Transfer2BoundaryBuffer subnet nid = .ok s1 →
      get2 s1.ejected_flit_queue subnet nid
        = some (q ++ (movedFlits s subnet nid s.vcs.toNat).map some)) ∧
    (∀ a b s1, s.pop a b = .ok s1 → s1.ejected_flit_queue = s.ejected_flit_queue) := by
  refine ⟨?_, ?_, ?_, ?_, ?_⟩
  · intro h
    subst h
    exact GetEjectedFlit_nil s subnet nid hq
  · intro fl rest h
    subst h
    refine ⟨_, GetEjectedFlit_cons s subnet nid fl rest hq, get2_set2_self _ _ _ _ _ hq, ?_,
      rfl, rfl, rfl⟩
    intro a b hne
    rw [get2_set2]
    have : ¬ (subnet = a ∧ nid = b) := fun h => hne ⟨h.1.symm, h.2.symm⟩
    simp [this]
  · intro n
    exact getEjectedFlits_eq subnet nid n s q hq
  · intro s1 h1
    have := transferLoop_queue subnet nid s.vcs.toNat s s1 h1 subnet nid
    rw [if_pos ⟨rfl, rfl⟩, hq] at this
    exact this
  · intro a b s1 h1
    exact (pop_effect s s1 a b h1).2.2.1

/-- C16 (witness): after one transfer the queue holds the flits of VC 0 and VC 1 in that
order; three successive calls return them in that order and then null. -/
theorem get_ejected_flit_order_witness :
    get2 transferredNode.ejected_flit_queue 0 0 = some [pkt 0 5, pkt 1 6] ∧
    (∃ s2, getEjectedFlits 0 0 3 transferredNode = .ok ([pkt 0 5, pkt 1 6, none], s2)) ∧
    (([pkt 0 5, pkt 1 6] : List (Option Flit)) = [] →
      transferredNode.GetEjectedFlit 0 0 = .ok (none, transferredNode)) ∧
    (∀ fl rest, ([pkt 0 5, pkt 1 6] : List (Option Flit)) = fl :: rest →
      ∃ s1, transferredNode.GetEjectedFlit 0 0 = .ok (fl, s1) ∧
        get2 s1.ejected_flit_queue 0 0 = some rest ∧
        (∀ a b, ¬ (a = 0 ∧ b = 0) →
          get2 s1.ejected_flit_queue a b = get2 transferredNode.ejected_flit_queue a b) ∧
        s1.boundary_buffer = transferredNode.boundary_buffer ∧
        s1.ejection_buffer = transferredNode.ejection_buffer ∧
        s1.round_robin_turn = transferredNode.round_robin_turn) ∧
    (∀ n, ∃ s2, getEjectedFlits 0 0 n transferredNode
        = .ok (([pkt 0 5, pkt 1 6] : List (Option Flit)).take n
            ++ List.replicate (n - ([pkt 0 5, pkt 1 6] : List (Option Flit)).length) none, s2) ∧
      get2 s2.ejected_flit_queue 0 0 = some (([pkt 0 5, pkt 1 6] : List (Option Flit)).drop n) ∧
      s2.boundary_buffer = transferredNode.boundary_buffer ∧
      s2.ejection_buffer = transferredNode.ejection_buffer ∧
      s2.round_robin_turn = transferredNode.round_robin_turn) ∧
    (∀ s1, transferredNode.Transfer2BoundaryBuffer 0 0 = .ok s1 →
      get2 s1.ejected_flit_queue 0 0
        = some ([pkt 0 5, pkt 1 6]
            ++ (movedFlits transferredNode 0 0 transferredNode.vcs.toNat).map some)) ∧
    (∀ a b s1, transferredNode.pop a b = .ok s1 →
      s1.ejected_flit_queue = transferredNode.ejected_flit_queue) :=
  ⟨rfl, ⟨_, rfl⟩, get_ejected_flit_order transferredNode 0 0 [pkt 0 5, pkt 1 6] rfl⟩

/-! ### The destination check -/

theorem dest_ne_iff (dest : Int) (output : Nat) (hout : output < 2 ^ 31)
    (hd : -(2 ^ 31) ≤ dest ∧ dest < 2 ^ 31) :
    (dest % 2 ^ 32).toNat ≠ output ↔ dest ≠ (output : Int) := by
  constructor
  · intro h heq
    apply h
    rw [heq, Int.emod_eq_of_lt (by omega) (by omega)]
    simp
  · intro h heq
    apply h
    by_cases hneg : dest < 0
    · have h1 : dest % 2 ^ 32 = dest + 2 ^ 32 := by
        rw [← Int.add_emod_self, Int.emod_eq_of_lt (by omega) (by omega)]
      rw [h1] at heq
      omega
    · rw [Int.emod_eq_of_lt (by omega) (by omega)] at heq
      omega

theorem transferOK_iff_not_bad (s : Interface) (subnet output k : Nat)
    (hshape : NodeShape s subnet output) (hk : k < s.vcs.toNat) (hout : output < 2 ^ 31)
    (hrange : ∀ j f rest, get3 s.ejection_buffer subnet output j = some (some f :: rest) →
      -(2 ^ 31) ≤ f.dest ∧ f.dest < 2 ^ 31) :
    transferOK s subnet output k ↔ ¬ transferBad s subnet output k := by
  obtain ⟨hslots, hq⟩ := hshape
  obtain ⟨hej, hbb⟩ := hslots k hk
  obtain ⟨ej, hej⟩ := Option.isSome_iff_exists.mp hej
  obtain ⟨item, hbb⟩ := Option.isSome_iff_exists.mp hbb
  constructor
  · rintro ⟨ej1, hej1, hcase⟩ ⟨flit, rest, item1, b1, b2, b3, b4⟩
    rw [hej] at hej1 b1
    rw [hbb] at b2
    simp only [Option.some.injEq] at hej1 b1 b2
    subst hej1
    subst b2
    rcases hcase with h | ⟨item2, h2, hcase⟩
    · rw [h] at b1; cases b1
    · rw [hbb] at h2
      simp only [Option.some.injEq] at h2
      subst h2
      rcases hcase with h | ⟨f, rest1, hcons, _, hd⟩
      · exact h b3
      · rw [hcons] at b1
        simp only [List.cons.injEq] at b1
        obtain ⟨rfl, rfl⟩ := b1
        rcases b4 with h | ⟨f1, hf1, hhead, hdest⟩
        · cases h
        · simp only [Option.some.injEq] at hf1
          subst hf1
          apply hd
          refine ⟨hhead, ?_⟩
          rw [dest_ne_iff _ _ hout (hrange k f rest1 (by rw [hej, hcons]))]
          exact hdest
  · intro hnb
    refine ⟨ej, hej, ?_⟩
    cases ej with
    | nil => exact Or.inl rfl
    | cons flit rest =>
      refine Or.inr ⟨item, hbb, ?_⟩
      by_cases hroom : item.size < s.boundary_buffer_capacity
      · right
        cases flit with
        | none => exact absurd ⟨none, rest, item, hej, hbb, hroom, Or.inl rfl⟩ hnb
        | some f =>
          refine ⟨f, rest, rfl, hq, ?_⟩
          intro ⟨hhead, hdest⟩
          apply hnb
          refine ⟨some f, rest, item, hej, hbb, hroom, Or.inr ⟨f, rfl, hhead, ?_⟩⟩
          rw [← dest_ne_iff _ _ hout (hrange k f rest hej)]
          exact hdest
      · exact Or.inl hroom

theorem transferVC_bad (s : Interface) (subnet output k : Nat) (hout : output < 2 ^ 31)
    (hq : (get2 s.ejected_flit_queue subnet output).isSome = true)
    (hrange : ∀ f rest, get3 s.ejection_buffer subnet output k = some (some f :: rest) →
      -(2 ^ 31) ≤ f.dest ∧ f.dest < 2 ^ 31)
    (hbad : transferBad s subnet output k) :
    s.transferVC subnet output k = .error .assertion := by
  obtain ⟨flit, rest, item, b1, b2, b3, b4⟩ := hbad
  unfold Interface.transferVC
  rw [b1]
  simp only [b2, b3, if_true]
  rcases b4 with rfl | ⟨f, rfl, hhead, hdest⟩
  · rfl
  · obtain ⟨q, hq1⟩ := Option.isSome_iff_exists.mp hq
    simp only [hq1]
    have hd : (f.dest % 2 ^ 32).toNat ≠ output :=
      (dest_ne_iff _ _ hout (hrange f rest b1)).mpr hdest
    rw [if_pos ⟨hhead, hd⟩]

theorem transferLoop_fails_iff (s : Interface) (subnet output : Nat)
    (hshape : NodeShape s subnet output) (hout : output < 2 ^ 31)
    (hrange : ∀ j f rest, get3 s.ejection_buffer subnet output j = some (some f :: rest) →
      -(2 ^ 31) ≤ f.dest ∧ f.dest < 2 ^ 31) :
    ∀ n, n ≤ s.vcs.toNat →
      ((∃ k, k < n ∧ transferBad s subnet output k) →
        (List.range n).foldlM (fun s vc => s.transferVC subnet output vc) s
          = .error .assertion) ∧
      ((¬ ∃ k, k < n ∧ transferBad s subnet output k) →
        ∃ s1, (List.range n).foldlM (fun s vc => s.transferVC subnet output vc) s
          = .ok s1) := by
  intro n
  induction n with
  | zero =>
    intro _
    refine ⟨?_, fun _ => ⟨s, rfl⟩⟩
    rintro ⟨k, hk, _⟩
    omega
  | succ n ih =>
    intro hn
    obtain ⟨ih1, ih2⟩ := ih (by omega)
    have hgood : (¬ ∃ k, k < n + 1 ∧ transferBad s subnet output k) →
        ∃ s1, (List.range (n + 1)).foldlM (fun s vc => s.transferVC subnet output vc) s
          = .ok s1 := by
      intro hnb
      apply transferLoop_succeeds
      intro k hk
      rw [transferOK_iff_not_bad s subnet output k hshape (by omega) hout hrange]
      exact fun hb => hnb ⟨k, hk, hb⟩
    refine ⟨?_, hgood⟩
    rintro ⟨k, hk, hbad⟩
    rw [List.range_succ, List.foldlM_append]
    by_cases hprev : ∃ k, k < n ∧ transferBad s subnet output k
    · rw [ih1 hprev]
      rfl
    · obtain ⟨s2, hmid⟩ := ih2 hprev
      have hkn : k = n := by
        by_contra hne
        exact hprev ⟨k, by omega, hbad⟩
      subst hkn
      rw [hmid]
      simp only [bind, Except.bind, List.foldlM_cons, List.foldlM_nil]
      obtain ⟨hcfg, _, _, hej, hbb⟩ := transferLoop_effect subnet output k s s2 hmid
      have hq2 := transferLoop_ejected subnet output k s s2 hmid subnet output
      have e1 : get3 s2.ejection_buffer subnet output k = get3 s.ejection_buffer subnet output k := by
        rw [hej]; simp
      have e2 : get3 s2.boundary_buffer subnet output k = get3 s.boundary_buffer subnet output k := by
        rw [hbb]; simp
      have hbad2 : transferBad s2 subnet output k := by
        unfold transferBad at hbad ⊢
        rw [e1, e2, hcfg.2.2.2.2.2.2.1]
        exact hbad
      have hrange2 : ∀ f rest,
          get3 s2.ejection_buffer subnet output k = some (some f :: rest) →
          -(2 ^ 31) ≤ f.dest ∧ f.dest < 2 ^ 31 := by
        intro f rest hj
        rw [e1] at hj
        exact hrange k f rest hj
      rw [transferVC_bad s2 subnet output k hout (by rw [hq2]; exact hshape.2) hrange2 hbad2]

theorem misroutedNode_shape : NodeShape misroutedNode 0 0 := by
  refine ⟨?_, rfl⟩
  intro k hk
  have hk2 : k < 2 := hk
  rcases k with _ | _ | k
  · exact ⟨rfl, rfl⟩
  · exact ⟨rfl, rfl⟩
  · omega

theorem misroutedNode_range : ∀ j f rest,
    get3 misroutedNode.ejection_buffer 0 0 j = some (some f :: rest) →
    -(2 ^ 31) ≤ f.dest ∧ f.dest < 2 ^ 31 := by
  intro j f rest h
  rcases j with _ | _ | j
  · have h1 : (some [some (⟨0, true, true, 3, 5⟩ : Flit)] : Option EjectionBufferItem)
        = some (some f :: rest) := h
    simp only [Option.some.injEq, List.cons.injEq] at h1
    rw [← h1.1]
    decide
  · have h1 : (some [some (⟨1, false, true, 3, 6⟩ : Flit)] : Option EjectionBufferItem)
        = some (some f :: rest) := h
    simp only [Option.some.injEq, List.cons.injEq] at h1
    rw [← h1.1]
    decide
  · have h1 : (none : Option EjectionBufferItem) = some (some f :: rest) := h
    cases h1

/-- C17: for a node whose slots and ejected-flit queue exist, whose index is below `2^31` (node
indices are below `num_nodes`, an `int`) and whose front flits carry a destination in the `int`
range, `Transfer2BoundaryBuffer(subnet, output)` fails its assertion if and only if for some VC
below `vcs` it transfers a flit (ejection slot non-empty, boundary slot with room) that is null
or is a head flit whose destination differs from `output`; otherwise it returns. In
particular, when every front flit is a non-null non-head flit the call returns whatever the
destinations are: the destination of a non-head flit is not checked. -/
theorem transfer_fails_iff (s : Interface) (subnet output : Nat)
    (hshape : NodeShape s subnet output) (hout : output < 2 ^ 31)
    (hrange : ∀ j f rest, get3 s.ejection_buffer subnet output j = some (some f :: rest) →
      -(2 ^ 31) ≤ f.dest ∧ f.dest < 2 ^ 31) :
    (s.Transfer2BoundaryBuffer subnet output = .error .assertion ↔
      ∃ k, k < s.vcs.toNat ∧ transferBad s subnet output k) ∧
    ((¬ ∃ k, k < s.vcs.toNat ∧ transferBad s subnet output k) →
      ∃ s1, s.Transfer2BoundaryBuffer subnet output = .ok s1) ∧
    ((∀ k flit rest, k < s.vcs.toNat →
        get3 s.ejection_buffer subnet output k = some (flit :: rest) →
        ∃ f, flit = some f ∧ f.head = false) →
      ∃ s1, s.Transfer2BoundaryBuffer subnet output = .ok s1) := by
  obtain ⟨h1, h2⟩ :=
    transferLoop_fails_iff s subnet output hshape hout hrange s.vcs.toNat (le_refl _)
  refine ⟨⟨?_, h1⟩, h2, ?_⟩
  · intro herr
    by_contra hnb
    obtain ⟨s1, hs1⟩ := h2 hnb
    unfold Interface.Transfer2BoundaryBuffer at herr
    rw [hs1] at herr
    cases herr
  · intro hbody
    apply h2
    rintro ⟨k, hk, flit, rest, item, b1, _, _, b4⟩
    obtain ⟨f, hf, hhead⟩ := hbody k flit rest hk b1
    rcases b4 with h | ⟨f1, hf1, hh1, _⟩
    · rw [h] at hf; cases hf
    · rw [hf] at hf1
      simp only [Option.some.injEq] at hf1
      rw [hf1, hh1] at hhead
      cases hhead

/-- C17 (witness): node 0 receives on VC 0 a head flit recorded for node 3: the call fails its
assertion. -/
theorem transfer_fails_iff_witness :
    misroutedNode.Transfer2BoundaryBuffer 0 0 = .error .assertion ∧
    transferBad misroutedNode 0 0 0 ∧
    (misroutedNode.Transfer2BoundaryBuffer 0 0 = .error .assertion ↔
      ∃ k, k < misroutedNode.vcs.toNat ∧ transferBad misroutedNode 0 0 k) ∧
    ((¬ ∃ k, k < misroutedNode.vcs.toNat ∧ transferBad misroutedNode 0 0 k) →
      ∃ s1, misroutedNode.Transfer2BoundaryBuffer 0 0 = .ok s1) ∧
    ((∀ k flit rest, k < misroutedNode.vcs.toNat →
        get3 misroutedNode.ejection_buffer 0 0 k = some (flit :: rest) →
        ∃ f, flit = some f ∧ f.head = false) →
      ∃ s1, misroutedNode.Transfer2BoundaryBuffer 0 0 = .ok s1) :=
  ⟨rfl,
    ⟨some ⟨0, true, true, 3, 5⟩, [], BoundaryBufferItem.new, rfl, rfl, by decide,
      Or.inr ⟨_, rfl, rfl, by decide⟩⟩,
    transfer_fails_iff misroutedNode 0 0 misroutedNode_shape (by decide) misroutedNode_range⟩

/-! ### Counting invariant of a boundary slot -/

theorem counted_mod_step (item item1 : BoundaryBufferItem) (op : ItemOp)
    (hinv : item.num_packets = completePackets item % 2 ^ 32)
    (hrun : op.run item = .ok item1) :
    item1.num_packets = completePackets item1 % 2 ^ 32 := by
  cases op with
  | push packet is_tail =>
    simp only [ItemOp.run, Except.ok.injEq] at hrun
    subst hrun
    unfold completePackets at hinv ⊢
    simp only [BoundaryBufferItem.push, List.countP_append, List.countP_singleton]
    cases is_tail
    · simp only [Bool.false_eq_true, if_false, Nat.add_zero]
      omega
    · simp only [if_true]
      omega
  | pop =>
    simp only [ItemOp.run] at hrun
    unfold BoundaryBufferItem.pop at hrun
    by_cases he : item.is_empty = true
    · rw [if_pos he] at hrun
      cases hrun
    · rw [if_neg he] at hrun
      have hnp : item.num_packets ≠ 0 := by
        simpa [BoundaryBufferItem.is_empty] using he
      have hpos : 0 < item.buffer.countP (fun buf => buf.is_tail) := by
        unfold completePackets at hinv
        by_contra hcon
        have : item.buffer.countP (fun buf => buf.is_tail) = 0 := by omega
        rw [this] at hinv
        exact hnp hinv
      obtain ⟨pre, t, rest, _, _, _, e4, _, e6⟩ := dropWhile_of_tail item.buffer hpos
      rw [e4] at hrun
      simp only [] at hrun
      by_cases hz : t.packet = 0
      · rw [if_pos hz] at hrun
        cases hrun
      · rw [if_neg hz] at hrun
        simp only [Except.ok.injEq] at hrun
        subst hrun
        unfold completePackets at hinv ⊢
        show (item.num_packets + (2 ^ 32 - 1)) % 2 ^ 32
          = rest.countP (fun buf => buf.is_tail) % 2 ^ 32
        omega

theorem counted_mod_run : ∀ (ops : List ItemOp) (item item1 : BoundaryBufferItem),
    item.num_packets = completePackets item % 2 ^ 32 →
    runItemOps ops item = .ok item1 →
    item1.num_packets = completePackets item1 % 2 ^ 32 := by
  intro ops
  induction ops with
  | nil =>
    intro item item1 hinv hrun
    simp only [runItemOps, Except.ok.injEq] at hrun
    subst hrun
    exact hinv
  | cons op ops ih =>
    intro item item1 hinv hrun
    simp only [runItemOps] at hrun
    cases hop : op.run item with
    | error e => simp [hop] at hrun
    | ok item2 =>
      simp only [hop] at hrun
      exact ih item2 item1 (counted_mod_step item item2 op hinv hop) hrun

/-- C18: in every state reached from the constructed interface by non-failing calls (the
boundary slots start as empty `BoundaryBufferItem`s and change only through `push`, called by
`Transfer2BoundaryBuffer`, and `pop`, called by `Interface::pop`), every boundary slot has
`num_packets` equal to the number of tail-marked entries of its `buffer`. Consequently,
whenever `is_empty()` is false a tail-marked entry exists, so the search in `top()` and `pop()`
finds the first one (their result depends only on whether its payload is null, never on the
'tail found' assertion), and a `pop()` that returns lowers `num_packets` by exactly one without
underflow, to the number of tail-marked entries that remain. -/
theorem counting_invariant (num_nodes num_subnets vcs : Int)
    (flit_size ejection_buffer_size vc_buf_size input_buffer_size boundary_buffer_size : Nat)
    (s0 s : Interface) (ops : List Op)
    (hc : Interface.construct num_nodes num_subnets vcs flit_size ejection_buffer_size
      vc_buf_size input_buffer_size boundary_buffer_size = .ok s0)
    (hrun : runOps ops s0 = .ok s) :
    ∀ a b k item, get3 s.boundary_buffer a b k = some item →
      item.num_packets = completePackets item ∧
      (item.is_empty = false →
        ∃ t rest, firstTail item.buffer = some t ∧ t.is_tail = true ∧
          item.buffer.dropWhile (fun buf => !buf.is_tail) = t :: rest ∧
          item.top = (if t.packet = 0 then .error .assertion else .ok t.packet) ∧
          item.pop = (if t.packet = 0 then .error .assertion
                      else .ok ⟨rest, item.num_packets - 1⟩) ∧
          0 < item.num_packets ∧
          item.num_packets - 1 = completePackets ⟨rest, item.num_packets - 1⟩) := by
  obtain ⟨_, hbb, _⟩ :=
    CapacityInv_run ops s0 s (construct_capacityInv _ _ _ _ _ _ _ _ s0 hc) hrun
  intro a b k item hitem
  obtain ⟨_, hcnt, hlt⟩ := hbb a b k item hitem
  refine ⟨hcnt, ?_⟩
  intro hne
  have hnp : item.num_packets ≠ 0 := by
    simpa [BoundaryBufferItem.is_empty] using hne
  have hpos : 0 < item.buffer.countP (fun buf => buf.is_tail) := by
    unfold completePackets at hcnt
    omega
  obtain ⟨pre, t, rest, e1, _, e3, e4, e5, e6⟩ := dropWhile_of_tail item.buffer hpos
  have hdec : (item.num_packets + (2 ^ 32 - 1)) % 2 ^ 32 = item.num_packets - 1 := by
    omega
  refine ⟨t, rest, e5, e3, e4, ?_, ?_, by omega, ?_⟩
  · unfold BoundaryBufferItem.top
    rw [hne, e4]
    simp
  · unfold BoundaryBufferItem.pop
    rw [hne, e4]
    simp only [Bool.false_eq_true, if_false]
    rw [hdec]
  · unfold completePackets at hcnt ⊢
    show item.num_packets - 1 = rest.countP (fun buf => buf.is_tail)
    omega

/-- C18 (witness): after `supplyOps` on the constructed two-VC interface, slot 0 of node 0
holds two single-fragment packets and counts two. -/
theorem counting_invariant_witness :
    Interface.construct 1 1 2 1 4 4 4 4 = .ok twoVCstate ∧
    runOps supplyOps twoVCstate = .ok suppliedState ∧
    get3 suppliedState.boundary_buffer 0 0 0 = some ⟨[⟨11, true⟩, ⟨12, true⟩], 2⟩ ∧
    ((2 : Nat) = completePackets ⟨[⟨11, true⟩, ⟨12, true⟩], 2⟩ ∧
      (BoundaryBufferItem.is_empty ⟨[⟨11, true⟩, ⟨12, true⟩], 2⟩ = false →
        ∃ t rest, firstTail [(⟨11, true⟩ : Buffer), ⟨12, true⟩] = some t ∧ t.is_tail = true ∧
          [(⟨11, true⟩ : Buffer), ⟨12, true⟩].dropWhile (fun buf => !buf.is_tail) = t :: rest ∧
          BoundaryBufferItem.top ⟨[⟨11, true⟩, ⟨12, true⟩], 2⟩
            = (if t.packet = 0 then .error .assertion else .ok t.packet) ∧
          BoundaryBufferItem.pop ⟨[⟨11, true⟩, ⟨12, true⟩], 2⟩
            = (if t.packet = 0 then .error .assertion else .ok ⟨rest, 2 - 1⟩) ∧
          0 < 2 ∧
          2 - 1 = completePackets ⟨rest, 2 - 1⟩)) :=
  ⟨rfl, rfl, rfl,
    counting_invariant 1 1 2 1 4 4 4 4 twoVCstate suppliedState supplyOps rfl rfl
      0 0 0 ⟨[⟨11, true⟩, ⟨12, true⟩], 2⟩ rfl⟩

/-! ### The cursor never moves -/

theorem popLoop_counter (s : Interface) (nid subnet N : Nat) (hN : s.vcs = (N : Int)) :
    ∀ (n : Nat) (vc : Int) (t : Nat) (s1 : Interface) (vc1 turn1 : Int), t < N →
      s.popLoop nid subnet n vc (t : Int) = .ok (s1, vc1, turn1) →
      (vc1 = vc + n ∧ turn1 = (((t + n) % N : Nat) : Int)) ∨ (vc ≤ vc1 ∧ vc1 < vc + n) := by
  intro n
  induction n with
  | zero =>
    intro vc t s1 vc1 turn1 ht h
    simp only [Interface.popLoop, Except.ok.injEq, Prod.mk.injEq] at h
    left
    refine ⟨by rw [← h.2.1]; simp, ?_⟩
    rw [← h.2.2, Nat.add_zero, Nat.mod_eq_of_lt ht]
  | succ n ih =>
    intro vc t s1 vc1 turn1 ht h
    unfold Interface.popLoop at h
    cases hg : get3i s.boundary_buffer subnet nid (t : Int) with
    | none => simp [hg] at h
    | some item =>
      simp only [hg] at h
      by_cases he : item.is_empty = true
      · simp only [he, Bool.not_true, Bool.false_eq_true, if_false] at h
        rw [hN, tmod_succ_natCast] at h
        have hmod : ((t + 1) % N + n) % N = (t + (n + 1)) % N := by
          rw [Nat.add_mod ((t + 1) % N), Nat.mod_mod, ← Nat.add_mod]
          congr 1
          omega
        rcases ih (vc + 1) ((t + 1) % N) s1 vc1 turn1 (Nat.mod_lt _ (by omega)) h with
          ⟨h1, h2⟩ | ⟨h1, h2⟩
        · left
          refine ⟨by rw [h1]; push_cast; omega, ?_⟩
          rw [h2, hmod]
        · right
          exact ⟨by omega, by push_cast; omega⟩
      · simp only [Bool.not_eq_true] at he
        simp only [he, Bool.not_false, if_true] at h
        cases hp : item.pop with
        | error e => simp [hp] at h
        | ok item1 =>
          simp only [hp, Except.ok.injEq, Prod.mk.injEq] at h
          right
          exact ⟨by omega, by push_cast; omega⟩

theorem pop_cursor_fixed (s s1 : Interface) (nid subnet : Nat) (c : Int)
    (hturn : get2 s.round_robin_turn subnet nid = some c)
    (hc : (0 ≤ c ∧ c < s.vcs) ∨ s.vcs ≤ 0)
    (hpop : s.pop nid subnet = .ok s1) :
    s1.round_robin_turn = s.round_robin_turn := by
  unfold Interface.pop at hpop
  rw [hturn] at hpop
  simp only [] at hpop
  cases hl : s.popLoop nid subnet s.vcs.toNat 0 c with
  | error e => simp [hl] at hpop
  | ok r =>
    obtain ⟨s2, vc1, turn1⟩ := r
    simp only [hl] at hpop
    have hrr2 : s2.round_robin_turn = s.round_robin_turn := by
      rcases popLoop_effect s nid subnet _ _ _ _ _ _ hl with rfl | ⟨_, _, _, _, _, _, rfl⟩
      · rfl
      · rfl
    by_cases hv : vc1 = s.vcs
    · rw [if_pos hv] at hpop
      simp only [Except.ok.injEq] at hpop
      have hturn1 : turn1 = c := by
        rcases hc with ⟨hc0, hc1⟩ | hle
        · have hct : c = ((c.toNat : Nat) : Int) := (Int.toNat_of_nonneg hc0).symm
          have hN : s.vcs = ((s.vcs.toNat : Nat) : Int) := by omega
          rw [hct] at hl
          rcases popLoop_counter s nid subnet s.vcs.toNat hN _ _ _ _ _ _ (by omega) hl with
            ⟨_, h2⟩ | ⟨_, h2⟩
          · rw [h2, Nat.add_mod_right, Nat.mod_eq_of_lt (by omega)]
            exact hct.symm
          · omega
        · have h0 : s.vcs.toNat = 0 := by omega
          rw [h0] at hl
          simp only [Interface.popLoop, Except.ok.injEq, Prod.mk.injEq] at hl
          exact hl.2.2.symm
      rw [← hpop, hturn1]
      show set2 s2.round_robin_turn subnet nid c = s.round_robin_turn
      rw [hrr2]
      exact set2_get2_self _ _ _ _ hturn
    · rw [if_neg hv] at hpop
      simp only [Except.ok.injEq] at hpop
      rw [← hpop]
      exact hrr2

theorem popLoop_lowest (s : Interface) (nid subnet N : Nat) (hN : s.vcs = (N : Int)) :
    ∀ (n : Nat) (vc : Int) (t : Nat) (s1 : Interface) (vc1 turn1 : Int), t + n ≤ N →
      s.popLoop nid subnet n vc (((t % N : Nat)) : Int) = .ok (s1, vc1, turn1) →
      ((∀ k, t ≤ k → k < t + n →
          ∃ item, get3 s.boundary_buffer subnet nid k = some item ∧ item.is_empty = true) ∧
        s1 = s) ∨
      (∃ w item item1, t ≤ w ∧ w < t + n ∧
        get3 s.boundary_buffer subnet nid w = some item ∧ item.is_empty = false ∧
        (∀ k, t ≤ k → k < w →
          ∃ itemk, get3 s.boundary_buffer subnet nid k = some itemk ∧
            itemk.is_empty = true) ∧
        item.pop = .ok item1 ∧
        s1 = { s with boundary_buffer := set3 s.boundary_buffer subnet nid w item1 }) := by
  intro n
  induction n with
  | zero =>
    intro vc t s1 vc1 turn1 _ h
    simp only [Interface.popLoop, Except.ok.injEq, Prod.mk.injEq] at h
    left
    exact ⟨fun k h1 h2 => by omega, h.1.symm⟩
  | succ n ih =>
    intro vc t s1 vc1 turn1 htn h
    have ht : t < N := by omega
    rw [Nat.mod_eq_of_lt ht] at h
    unfold Interface.popLoop at h
    rw [get3i_natCast] at h
    cases hg : get3 s.boundary_buffer subnet nid t with
    | none => simp [hg] at h
    | some item =>
      simp only [hg] at h
      by_cases he : item.is_empty = true
      · simp only [he, Bool.not_true, Bool.false_eq_true, if_false] at h
        rw [hN, tmod_succ_natCast] at h
        rcases ih (vc + 1) (t + 1) s1 vc1 turn1 (by omega) h with
          ⟨h1, h2⟩ | ⟨w, itemw, item1, h1, h2, h3, h4, h5, h6, h7⟩
        · left
          refine ⟨?_, h2⟩
          intro k hk1 hk2
          by_cases hkt : k = t
          · subst hkt
            exact ⟨item, hg, he⟩
          · exact h1 k (by omega) (by omega)
        · right
          refine ⟨w, itemw, item1, by omega, by omega, h3, h4, ?_, h6, h7⟩
          intro k hk1 hk2
          by_cases hkt : k = t
          · subst hkt
            exact ⟨item, hg, he⟩
          · exact h5 k (by omega) hk2
      · simp only [Bool.not_eq_true] at he
        simp only [he, Bool.not_false, if_true] at h
        cases hp : item.pop with
        | error e => simp [hp] at h
        | ok item1 =>
          simp only [hp, Except.ok.injEq, Prod.mk.injEq, Int.toNat_ofNat] at h
          right
          exact ⟨t, item, item1, le_refl _, by omega, hg, he,
            fun k h1 h2 => by omega, hp, h.1.symm⟩

theorem pop_ok_turn (s s1 : Interface) (nid subnet : Nat) (h : s.pop nid subnet = .ok s1) :
    ∃ c, get2 s.round_robin_turn subnet nid = some c := by
  unfold Interface.pop at h
  cases ht : get2 s.round_robin_turn subnet nid with
  | none => simp [ht] at h
  | some c => exact ⟨c, rfl⟩

theorem Op.run_config_cursor (op : Op) (s s1 : Interface)
    (hcur : ∀ a b c, get2 s.round_robin_turn a b = some c → c = 0)
    (hrun : op.run s = .ok s1) :
    SameConfig s s1 ∧ s1.round_robin_turn = s.round_robin_turn := by
  cases op with
  | WriteOutBuffer sn out flit =>
    obtain ⟨f, q, _, _, _, _, _, rfl⟩ := WriteOutBuffer_ok s s1 sn out flit hrun
    exact ⟨SameConfig.refl _, rfl⟩
  | Transfer2BoundaryBuffer sn out =>
    obtain ⟨hcfg, hrr, _, _, _⟩ := transferLoop_effect sn out s.vcs.toNat s s1 hrun
    exact ⟨hcfg, hrr⟩
  | GetEjectedFlit sn nid =>
    simp only [Op.run] at hrun
    cases hg : s.GetEjectedFlit sn nid with
    | error e => simp [hg] at hrun
    | ok r =>
      obtain ⟨fl, s2⟩ := r
      simp only [hg, Except.ok.injEq] at hrun
      subst hrun
      obtain ⟨hcfg, _, _, hrr⟩ := GetEjectedFlit_effect s s2 sn nid fl hg
      exact ⟨hcfg, hrr⟩
  | top nid sn =>
    simp only [Op.run] at hrun
    cases hg : s.top nid sn with
    | error e => simp [hg] at hrun
    | ok r =>
      simp only [hg, Except.ok.injEq] at hrun
      subst hrun
      exact ⟨SameConfig.refl _, rfl⟩
  | pop nid sn =>
    obtain ⟨hcfg, _, _, _⟩ := pop_effect s s1 nid sn hrun
    obtain ⟨c, hturn⟩ := pop_ok_turn s s1 nid sn hrun
    have hc0 : c = 0 := hcur sn nid c hturn
    refine ⟨hcfg, pop_cursor_fixed s s1 nid sn c hturn ?_ hrun⟩
    by_cases hpos : 0 < s.vcs
    · exact Or.inl ⟨by omega, by omega⟩
    · exact Or.inr (by omega)

theorem runOps_config_cursor : ∀ (ops : List Op) (s s1 : Interface),
    (∀ a b c, get2 s.round_robin_turn a b = some c → c = 0) →
    runOps ops s = .ok s1 →
    SameConfig s s1 ∧ s1.round_robin_turn = s.round_robin_turn := by
  intro ops
  induction ops with
  | nil =>
    intro s s1 _ hrun
    simp only [runOps, Except.ok.injEq] at hrun
    subst hrun
    exact ⟨SameConfig.refl _, rfl⟩
  | cons op ops ih =>
    intro s s1 hcur hrun
    simp only [runOps] at hrun
    cases hop : op.run s with
    | error e => simp [hop] at hrun
    | ok s2 =>
      simp only [hop] at hrun
      obtain ⟨c1, r1⟩ := Op.run_config_cursor op s s2 hcur hop
      obtain ⟨c2, r2⟩ := ih s2 s1 (by rw [r1]; exact hcur) hrun
      exact ⟨c1.trans c2, r2.trans r1⟩

theorem get2_replicate {α : Type} (x y : α) (n1 n2 a b : Nat)
    (h : get2 (List.replicate n1 (List.replicate n2 x)) a b = some y) : y = x := by
  unfold get2 at h
  rw [List.getElem?_replicate] at h
  by_cases h1 : a < n1
  · simp only [h1, if_true] at h
    rw [List.getElem?_replicate] at h
    by_cases h2 : b < n2
    · simp only [h2, if_true, Option.some.injEq] at h
      exact h.symm
    · simp [h2] at h
  · simp [h1] at h

theorem construct_cursor (num_nodes num_subnets vcs : Int)
    (flit_size ejection_buffer_size vc_buf_size input_buffer_size boundary_buffer_size : Nat)
    (s0 : Interface)
    (h : Interface.construct num_nodes num_subnets vcs flit_size ejection_buffer_size
      vc_buf_size input_buffer_size boundary_buffer_size = .ok s0) :
    (0 ≤ s0.vcs ∨ ∀ a b, get2 s0.round_robin_turn a b = none) ∧
    ∀ a b c, get2 s0.round_robin_turn a b = some c → c = 0 := by
  obtain ⟨_, _, _, h4, h5, h⟩ := construct_ok _ _ _ _ _ _ _ _ s0 h
  subst h
  refine ⟨?_, ?_⟩
  · by_cases hv : 0 ≤ vcs
    · exact Or.inl hv
    · right
      intro a b
      have hn : num_nodes.toNat = 0 := by omega
      simp only [hn, List.replicate_zero]
      unfold get2
      rw [List.getElem?_replicate]
      split_ifs <;> rfl
  · intro a b c hc
    exact get2_replicate _ _ _ _ _ _ hc

/-- C19: (1) for every state whose cursor `round_robin_turn[subnet][nid]` lies in `[0, vcs)`,
a `pop(nid, subnet)` that returns leaves the whole `round_robin_turn` table, and so that
cursor, as it was, whether or not it removed a packet. (2) In every state reached from the
constructed interface by non-failing calls every cursor is 0, and (3) a `pop` that returns
there either finds `is_empty()` true for every VC below `vcs` (no complete packet anywhere) and
changes nothing, or removes a packet from the lowest-indexed VC `w` whose slot holds a complete
packet (every VC below `w` holds none), the new state differing from the old one only in that
slot. -/
theorem cursor_never_moves (num_nodes num_subnets vcs : Int)
    (flit_size ejection_buffer_size vc_buf_size input_buffer_size boundary_buffer_size : Nat)
    (s0 s : Interface) (ops : List Op)
    (hc : Interface.construct num_nodes num_subnets vcs flit_size ejection_buffer_size
      vc_buf_size input_buffer_size boundary_buffer_size = .ok s0)
    (hrun : runOps ops s0 = .ok s) :
    (∀ (t t1 : Interface) (nid subnet : Nat) (c : Int),
      get2 t.round_robin_turn subnet nid = some c → 0 ≤ c → c < t.vcs →
      t.pop nid subnet = .ok t1 →
      t1.round_robin_turn = t.round_robin_turn ∧
      get2 t1.round_robin_turn subnet nid = some c) ∧
    (∀ a b c, get2 s.round_robin_turn a b = some c → c = 0) ∧
    (∀ nid subnet s1, s.pop nid subnet = .ok s1 →
      s1.round_robin_turn = s.round_robin_turn ∧
      (((∀ k, k < s.vcs.toNat →
            ∃ item, get3 s.boundary_buffer subnet nid k = some item ∧
              item.is_empty = true ∧ completePackets item = 0) ∧
          s1 = s) ∨
        (∃ w item item1, w < s.vcs.toNat ∧
          get3 s.boundary_buffer subnet nid w = some item ∧ item.is_empty = false ∧
          0 < completePackets item ∧
          (∀ k, k < w →
            ∃ itemk, get3 s.boundary_buffer subnet nid k = some itemk ∧
              itemk.is_empty = true ∧ completePackets itemk = 0) ∧
          item.pop = .ok item1 ∧
          s1 = { s with boundary_buffer := set3 s.boundary_buffer subnet nid w item1 }))) := by
  obtain ⟨hv0, hcur0⟩ := construct_cursor _ _ _ _ _ _ _ _ s0 hc
  obtain ⟨hcfg, hrr⟩ := runOps_config_cursor ops s0 s hcur0 hrun
  have hcur : ∀ a b c, get2 s.round_robin_turn a b = some c → c = 0 := by
    rw [hrr]; exact hcur0
  obtain ⟨_, hbb, _⟩ :=
    CapacityInv_run ops s0 s (construct_capacityInv _ _ _ _ _ _ _ _ s0 hc) hrun
  refine ⟨?_, hcur, ?_⟩
  · intro t t1 nid subnet c hturn h0 h1 hpop
    have := pop_cursor_fixed t t1 nid subnet c hturn (Or.inl ⟨h0, h1⟩) hpop
    exact ⟨this, by rw [this]; exact hturn⟩
  · intro nid subnet s1 hpop
    obtain ⟨c, hturn⟩ := pop_ok_turn s s1 nid subnet hpop
    have hc0 : c = 0 := hcur subnet nid c hturn
    subst hc0
    have hfix : s1.round_robin_turn = s.round_robin_turn := by
      refine pop_cursor_fixed s s1 nid subnet 0 hturn ?_ hpop
      by_cases hpos : 0 < s.vcs
      · exact Or.inl ⟨le_refl _, hpos⟩
      · exact Or.inr (by omega)
    refine ⟨hfix, ?_⟩
    have hv : 0 ≤ s.vcs := by
      rw [hcfg.2.2.2.1]
      rcases hv0 with hv0 | hv0
      · exact hv0
      · rw [hrr, hv0] at hturn
        cases hturn
    have hN : s.vcs = ((s.vcs.toNat : Nat) : Int) := by omega
    have hempty : ∀ k item, get3 s.boundary_buffer subnet nid k = some item →
        item.is_empty = true → completePackets item = 0 := by
      intro k item hitem he
      exact (is_empty_iff_of_counted item (hbb subnet nid k item hitem).2).mp he
    -- the loop, started at turn 0
    unfold Interface.pop at hpop
    rw [hturn] at hpop
    simp only [] at hpop
    cases hl : s.popLoop nid subnet s.vcs.toNat 0 0 with
    | error e => simp [hl] at hpop
    | ok r =>
      obtain ⟨s2, vc1, turn1⟩ := r
      have hl0 : s.popLoop nid subnet s.vcs.toNat 0 (((0 % s.vcs.toNat : Nat)) : Int)
          = .ok (s2, vc1, turn1) := by
        rw [Nat.zero_mod]; exact hl
      have hcase := popLoop_lowest s nid subnet s.vcs.toNat hN s.vcs.toNat 0 0 s2 vc1 turn1
        (by omega) hl0
      have hs12 : s1.boundary_buffer = s2.boundary_buffer ∧
          s1.ejection_buffer = s2.ejection_buffer ∧
          s1.ejected_flit_queue = s2.ejected_flit_queue ∧ SameConfig s2 s1 := by
        simp only [hl] at hpop
        by_cases hvv : vc1 = s.vcs
        · rw [if_pos hvv] at hpop
          simp only [Except.ok.injEq] at hpop
          rw [← hpop]
          exact ⟨rfl, rfl, rfl, SameConfig.refl _⟩
        · rw [if_neg hvv] at hpop
          simp only [Except.ok.injEq] at hpop
          rw [← hpop]
          exact ⟨rfl, rfl, rfl, SameConfig.refl _⟩
      have hs1eq : ∀ t : Interface, s2 = t → t.round_robin_turn = s.round_robin_turn →
          s1 = t := by
        intro t h2 hrt
        subst h2
        obtain ⟨e1, e2, e3, c1, c2, c3, c4, c5, c6, c7, c8⟩ := hs12
        cases s1
        cases s2
        simp only [] at e1 e2 e3 c1 c2 c3 c4 c5 c6 c7 c8 hfix hrt
        simp only [Interface.mk.injEq]
        exact ⟨c1, c2, c3, c4, c5, c6, c7, e1, c8, e2, e3, by rw [hfix, hrt]⟩
      rcases hcase with ⟨h1, h2⟩ | ⟨w, item, item1, _, hw, h3, h4, h5, h6, h7⟩
      · left
        refine ⟨?_, hs1eq s h2 rfl⟩
        intro k hk
        obtain ⟨item, hi, he⟩ := h1 k (Nat.zero_le _) (by omega)
        exact ⟨item, hi, he, hempty k item hi he⟩
      · right
        have hpos : 0 < completePackets item := by
          have hcnt := (hbb subnet nid w item h3).2
          have := is_empty_iff_of_counted item hcnt
          by_contra hcon
          have h0 : completePackets item = 0 := by omega
          rw [this.mpr h0] at h4
          cases h4
        refine ⟨w, item, item1, by omega, h3, h4, hpos, ?_, h6, hs1eq _ h7 rfl⟩
        intro k hk
        obtain ⟨itemk, hi, he⟩ := h5 k (Nat.zero_le _) hk
        exact ⟨itemk, hi, he, hempty k itemk hi he⟩

/-- C19 (witness): the constructed two-VC interface after both VCs were supplied with two
packets each. -/
theorem cursor_never_moves_witness :
    Interface.construct 1 1 2 1 4 4 4 4 = .ok twoVCstate ∧
    runOps supplyOps twoVCstate = .ok suppliedState ∧
    get2 suppliedState.boundary_buffer 0 0
      = some [⟨[⟨11, true⟩, ⟨12, true⟩], 2⟩, ⟨[⟨21, true⟩, ⟨22, true⟩], 2⟩] ∧
    ((∀ (t t1 : Interface) (nid subnet : Nat) (c : Int),
      get2 t.round_robin_turn subnet nid = some c → 0 ≤ c → c < t.vcs →
      t.pop nid subnet = .ok t1 →
      t1.round_robin_turn = t.round_robin_turn ∧
      get2 t1.round_robin_turn subnet nid = some c) ∧
    (∀ a b c, get2 suppliedState.round_robin_turn a b = some c → c = 0) ∧
    (∀ nid subnet s1, suppliedState.pop nid subnet = .ok s1 →
      s1.round_robin_turn = suppliedState.round_robin_turn ∧
      (((∀ k, k < suppliedState.vcs.toNat →
            ∃ item, get3 suppliedState.boundary_buffer subnet nid k = some item ∧
              item.is_empty = true ∧ completePackets item = 0) ∧
          s1 = suppliedState) ∨
        (∃ w item item1, w < suppliedState.vcs.toNat ∧
          get3 suppliedState.boundary_buffer subnet nid w = some item ∧
          item.is_empty = false ∧
          0 < completePackets item ∧
          (∀ k, k < w →
            ∃ itemk, get3 suppliedState.boundary_buffer subnet nid k = some itemk ∧
              itemk.is_empty = true ∧ completePackets itemk = 0) ∧
          item.pop = .ok item1 ∧
          s1 = { suppliedState with
                 boundary_buffer :=
                   set3 suppliedState.boundary_buffer subnet nid w item1 })))) :=
  ⟨rfl, rfl, rfl,
    cursor_never_moves 1 1 2 1 4 4 4 4 twoVCstate suppliedState supplyOps rfl rfl⟩

/-! ### Oversized packets -/

theorem OversizeInv_congr (S : List Flit) (cap : Nat) (s s1 : Interface) (a b k j : Nat)
    (hcfg : s1.boundary_buffer_capacity = s.boundary_buffer_capacity)
    (hej : get3 s1.ejection_buffer a b k = get3 s.ejection_buffer a b k)
    (hbb : get3 s1.boundary_buffer a b k = get3 s.boundary_buffer a b k)
    (h : OversizeInv S cap s a b k j) : OversizeInv S cap s1 a b k j := by
  unfold OversizeInv at *
  rw [hej, hbb, hcfg]
  exact h

theorem OversizeInv_step (S : List Flit) (cap : Nat) (hcap : cap < 2 ^ 32)
    (hbig : ∀ i f, i < cap → S[i]? = some f → f.tail = false)
    (s s1 : Interface) (a b k j : Nat) (op : Op)
    (hinv : OversizeInv S cap s a b k j)
    (hrun : op.run s = .ok s1)
    (hw : ∃ rest, writesTo a b k [op] ++ rest = S.drop j) :
    OversizeInv S cap s1 a b k (j + (writesTo a b k [op]).length) := by
  cases op with
  | WriteOutBuffer sn out flit =>
    obtain ⟨f, q, rfl, ho, hvc, hq, _, rfl⟩ := WriteOutBuffer_ok s s1 sn out flit hrun
    by_cases hm : sn = a ∧ out = (b : Int) ∧ f.vc = (k : Int)
    · obtain ⟨rfl, rfl, hfv⟩ := hm
      simp only [writesTo, hfv, and_self, if_true, List.length_singleton] at hw ⊢
      obtain ⟨rest, hrest⟩ := hw
      have hjlt : j < S.length := by
        by_contra hcon
        rw [List.drop_eq_nil_of_le (by omega)] at hrest
        simp at hrest
      have hfj : S[j] = f := by
        have := List.drop_eq_getElem_cons hjlt
        rw [this] at hrest
        simp only [List.singleton_append, List.cons.injEq] at hrest
        exact hrest.1.symm
      simp only [Int.toNat_ofNat, hfv] at hq
      obtain ⟨hc, m, hmj, hmc, hjn, hej, hbb⟩ := hinv
      refine ⟨hc, m, by omega, hmc, by omega, ?_, hbb⟩
      simp only [get3_set3, Int.toNat_ofNat, hfv, and_self, if_true, hq, Option.isSome_some]
      rw [hej] at hq
      simp only [Option.some.injEq] at hq
      rw [← hq, List.take_succ, List.getElem?_eq_getElem hjlt, hfj]
      simp [List.drop_append_of_le_length, hmj, List.length_take,
        Nat.min_eq_left (Nat.le_of_lt hjlt)]
    · have hl : writesTo a b k [Op.WriteOutBuffer sn out (some f)] = [] := by
        simp [writesTo, hm]
      rw [hl, List.length_nil, Nat.add_zero]
      refine OversizeInv_congr S cap s _ a b k j rfl ?_ rfl hinv
      simp only [get3_set3]
      have : ¬ (sn = a ∧ out.toNat = b ∧ f.vc.toNat = k) := by
        intro hh
        exact hm ⟨hh.1, by omega, by omega⟩
      simp [this]
  | Transfer2BoundaryBuffer sn out =>
    have hl : writesTo a b k [Op.Transfer2BoundaryBuffer sn out] = [] := rfl
    rw [hl, List.length_nil, Nat.add_zero]
    obtain ⟨hcfg, _, _, hej1, hbb1⟩ := transferLoop_effect sn out s.vcs.toNat s s1 hrun
    have hc7 := hcfg.2.2.2.2.2.2.1
    have hej1 := hej1 a b k
    have hbb1 := hbb1 a b k
    by_cases hit : a = sn ∧ b = out ∧ k < s.vcs.toNat
    · rw [if_pos hit] at hej1 hbb1
      cases hmv : movesAt s a b k with
      | none =>
        rw [hmv] at hej1 hbb1
        exact OversizeInv_congr S cap s s1 a b k j hc7 hej1 hbb1 hinv
      | some f =>
        rw [hmv] at hej1 hbb1
        simp only [] at hej1 hbb1
        obtain ⟨hc, m, hmj, hmc, hjn, hej, hbb⟩ := hinv
        have hmlt : m < j := by
          by_contra hcon
          have : List.drop m (List.take j S) = [] :=
            List.drop_eq_nil_of_le (by rw [List.length_take]; omega)
          simp [movesAt, hej, this] at hmv
        have hlen : m < (List.take j S).length := by rw [List.length_take]; omega
        have hdrop : List.drop m (List.take j S)
            = S[m] :: List.drop (m + 1) (List.take j S) := by
          rw [List.drop_eq_getElem_cons hlen, List.getElem_take]
        have hsize : BoundaryBufferItem.size ⟨List.map frag (List.take m S), 0⟩ = m := by
          unfold BoundaryBufferItem.size
          simp only [List.length_map, List.length_take]
          rw [Nat.min_eq_left (by omega)]
          exact Nat.mod_eq_of_lt (by omega)
        have hfr : f = S[m] ∧ m < cap := by
          simp only [movesAt, hej, hbb, hdrop, List.map_cons, hsize, hc] at hmv
          by_cases hroom : m < cap
          · simp only [hroom, if_true, Option.some.injEq] at hmv
            exact ⟨hmv.symm, hroom⟩
          · simp only [hroom, if_false] at hmv
            cases hmv
        obtain ⟨hf, hroom⟩ := hfr
        have htl : S[m].tail = false :=
          hbig m S[m] hroom (List.getElem?_eq_getElem (by omega))
        refine ⟨by rw [hc7]; exact hc, m + 1, by omega, by omega, hjn, ?_, ?_⟩
        · rw [hej1, hej, hdrop]
          simp
        · rw [hbb1, hbb, hf]
          simp only [Option.map_some', BoundaryBufferItem.push, Option.some.injEq,
            BoundaryBufferItem.mk.injEq, htl]
          constructor
          · rw [List.take_succ, List.getElem?_eq_getElem (by omega), List.map_append]
            simp [frag, htl]
          · rfl
    · rw [if_neg hit] at hej1 hbb1
      exact OversizeInv_congr S cap s s1 a b k j hc7 hej1 hbb1 hinv
  | GetEjectedFlit sn nid =>
    simp only [Op.run] at hrun
    cases hg : s.GetEjectedFlit sn nid with
    | error e => simp [hg] at hrun
    | ok r =>
      obtain ⟨fl, s2⟩ := r
      simp only [hg, Except.ok.injEq] at hrun
      subst hrun
      obtain ⟨hcfg, hej, hbb, _⟩ := GetEjectedFlit_effect s s2 sn nid fl hg
      simpa [writesTo] using
        OversizeInv_congr S cap s s2 a b k j hcfg.2.2.2.2.2.2.1 (by rw [hej]) (by rw [hbb]) hinv
  | top nid sn =>
    simp only [Op.run] at hrun
    cases hg : s.top nid sn with
    | error e => simp [hg] at hrun
    | ok r =>
      simp only [hg, Except.ok.injEq] at hrun
      subst hrun
      simpa [writesTo] using hinv
  | pop nid sn =>
    have hl : writesTo a b k [Op.pop nid sn] = [] := rfl
    rw [hl, List.length_nil, Nat.add_zero]
    obtain ⟨hcfg, hej, _, hbb⟩ := pop_effect s s1 nid sn hrun
    have hc7 := hcfg.2.2.2.2.2.2.1
    rcases hbb with hbb | ⟨w, item, item1, hitem, hne, _, hbb⟩
    · exact OversizeInv_congr S cap s s1 a b k j hc7 (by rw [hej]) (by rw [hbb]) hinv
    · refine OversizeInv_congr S cap s s1 a b k j hc7 (by rw [hej]) ?_ hinv
      rw [hbb, get3_set3]
      by_cases hit : sn = a ∧ nid = b ∧ w = k
      · obtain ⟨rfl, rfl, rfl⟩ := hit
        obtain ⟨_, m, _, _, _, _, hbb0⟩ := hinv
        rw [hitem] at hbb0
        simp only [Option.some.injEq] at hbb0
        subst hbb0
        simp [BoundaryBufferItem.is_empty] at hne
      · simp [hit]

theorem OversizeInv_run (S : List Flit) (cap : Nat) (hcap : cap < 2 ^ 32)
    (hbig : ∀ i f, i < cap → S[i]? = some f → f.tail = false) (a b k : Nat) :
    ∀ (ops : List Op) (s s1 : Interface) (j : Nat),
      OversizeInv S cap s a b k j → runOps ops s = .ok s1 →
      (∃ rest, writesTo a b k ops ++ rest = S.drop j) →
      OversizeInv S cap s1 a b k (j + (writesTo a b k ops).length) := by
  intro ops
  induction ops with
  | nil =>
    intro s s1 j hinv hrun _
    simp only [runOps, Except.ok.injEq] at hrun
    subst hrun
    simpa [writesTo] using hinv
  | cons op ops ih =>
    intro s s1 j hinv hrun hw
    simp only [runOps] at hrun
    cases hop : op.run s with
    | error e => simp [hop] at hrun
    | ok s2 =>
      simp only [hop] at hrun
      obtain ⟨rest, hrest⟩ := hw
      rw [writesTo_cons, List.append_assoc] at hrest
      have h1 := OversizeInv_step S cap hcap hbig s s2 a b k j op hinv hop ⟨_, hrest⟩
      have hdrop : writesTo a b k ops ++ rest
          = S.drop (j + (writesTo a b k [op]).length) := by
        rw [← List.drop_drop, ← hrest, List.drop_left]
      have h2 := ih s2 s1 _ h1 hrun ⟨rest, hdrop⟩
      rw [writesTo_cons, List.length_append, ← Nat.add_assoc]
      exact h2

/-- C20: let boundary slot `[a][b][k]` be empty, its ejection slot hold the flits `fs0`, and let
the first `boundary_buffer_capacity` flits of the VC's stream (`fs0` followed by the flits
later written to the VC) carry no tail, as when the stream begins with a packet of more than
`boundary_buffer_capacity` flits. Then after any sequence of `WriteOutBuffer`,
`Transfer2BoundaryBuffer`, `GetEjectedFlit`, `top` and `pop` calls that return, the boundary
slot holds the first `m ≤ boundary_buffer_capacity` fragments of the stream, all tail-less, its
complete-packet count is 0 and `is_empty()` is true; the flits after them wait in the ejection
slot. Once `m = boundary_buffer_capacity` a transfer moves nothing for that VC; a `pop` at the
node never changes the slot and the result of `top` at the node does not depend on it. -/
theorem oversized_never_delivered (s0 s : Interface) (a b k : Nat) (fs0 : List Flit)
    (ops : List Op)
    (hcap : s0.boundary_buffer_capacity < 2 ^ 32)
    (hej0 : get3 s0.ejection_buffer a b k = some (fs0.map some))
    (hbb0 : get3 s0.boundary_buffer a b k = some BoundaryBufferItem.new)
    (hbig : ∀ i f, i < s0.boundary_buffer_capacity →
      (fs0 ++ writesTo a b k ops)[i]? = some f → f.tail = false)
    (hrun : runOps ops s0 = .ok s) :
    ∃ m item, m ≤ s.boundary_buffer_capacity ∧
      s.boundary_buffer_capacity = s0.boundary_buffer_capacity ∧
      get3 s.boundary_buffer a b k = some item ∧
      item.buffer = ((fs0 ++ writesTo a b k ops).take m).map frag ∧
      (∀ x ∈ item.buffer, x.is_tail = false) ∧
      item.num_packets = 0 ∧ completePackets item = 0 ∧ item.is_empty = true ∧
      get3 s.ejection_buffer a b k = some (((fs0 ++ writesTo a b k ops).drop m).map some) ∧
      (m = s.boundary_buffer_capacity →
        movesAt s a b k = none ∧
        ∀ s1, s.Transfer2BoundaryBuffer a b = .ok s1 →
          get3 s1.boundary_buffer a b k = some item ∧
          get3 s1.ejection_buffer a b k = get3 s.ejection_buffer a b k) ∧
      (∀ s1, s.pop b a = .ok s1 → get3 s1.boundary_buffer a b k = some item) ∧
      Interface.top
        { s with
          boundary_buffer := set3 s.boundary_buffer a b k BoundaryBufferItem.new }
        b a = s.top b a := by
  have h0 : OversizeInv (fs0 ++ writesTo a b k ops) s0.boundary_buffer_capacity s0 a b k
      fs0.length := by
    refine ⟨rfl, 0, Nat.zero_le _, Nat.zero_le _, by simp, ?_, ?_⟩
    · rw [hej0, List.take_left', List.drop_zero]
      rfl
    · rw [hbb0]; rfl
  have hinv := OversizeInv_run (fs0 ++ writesTo a b k ops) s0.boundary_buffer_capacity hcap
    hbig a b k ops s0 s fs0.length h0 hrun ⟨[], by simp⟩
  obtain ⟨hc, m, hmj, hmc, _, hej, hbb⟩ := hinv
  have htake : List.take (fs0.length + (writesTo a b k ops).length)
      (fs0 ++ writesTo a b k ops) = fs0 ++ writesTo a b k ops := by
    apply List.take_of_length_le
    simp
  rw [htake] at hej
  have htl : ∀ x ∈ ((fs0 ++ writesTo a b k ops).take m).map frag, x.is_tail = false := by
    intro x hx
    obtain ⟨f, hf, rfl⟩ := List.mem_map.mp hx
    obtain ⟨i, hi⟩ := List.mem_iff_getElem?.mp hf
    rw [List.getElem?_take] at hi
    by_cases him : i < m
    · rw [if_pos him] at hi
      exact hbig i f (by omega) hi
    · rw [if_neg him] at hi
      cases hi
  have hcp : completePackets ⟨((fs0 ++ writesTo a b k ops).take m).map frag, 0⟩ = 0 := by
    unfold completePackets
    rw [List.countP_eq_zero]
    intro x hx
    simp [htl x hx]
  have he : BoundaryBufferItem.is_empty
      ⟨((fs0 ++ writesTo a b k ops).take m).map frag, 0⟩ = true := rfl
  refine ⟨m, _, by omega, hc, hbb, rfl, htl, rfl, hcp, he, hej, ?_, ?_, ?_⟩
  · intro hm
    have hsz : BoundaryBufferItem.size
        ⟨((fs0 ++ writesTo a b k ops).take m).map frag, 0⟩ = m := by
      unfold BoundaryBufferItem.size
      simp only [List.length_map, List.length_take, List.length_append]
      rw [Nat.min_eq_left hmj]
      exact Nat.mod_eq_of_lt (by omega)
    have hmv : movesAt s a b k = none := by
      unfold movesAt
      rw [hej, hbb]
      have hfull : ¬ BoundaryBufferItem.size
          ⟨((fs0 ++ writesTo a b k ops).take m).map frag, 0⟩
            < s.boundary_buffer_capacity := by
        rw [hsz]; omega
      cases hd : List.map some (List.drop m (fs0 ++ writesTo a b k ops)) with
      | nil => rfl
      | cons flit rest =>
        cases flit with
        | none => rfl
        | some f =>
          simp only []
          rw [if_neg hfull]
    refine ⟨hmv, ?_⟩
    intro s1 h1
    obtain ⟨_, _, _, hej1, hbb1⟩ := transferLoop_effect a b s.vcs.toNat s s1 h1
    have hej1 := hej1 a b k
    have hbb1 := hbb1 a b k
    rw [hmv] at hej1 hbb1
    simp only [ite_self] at hej1 hbb1
    exact ⟨by rw [hbb1, hbb], hej1⟩
  · intro s1 h1
    exact pop_keeps_empty_slot s s1 b a k _ hbb he h1
  · unfold Interface.top
    cases get2 s.round_robin_turn a b with
    | none => rfl
    | some turn => exact topLoop_skip s b a k _ hbb he _ _

theorem oversize_no_tail : ∀ i f, i < oversizeNode.boundary_buffer_capacity →
    (oversizeHead ++ writesTo 0 0 0 oversizeOps)[i]? = some f → f.tail = false := by
  intro i f hi h
  have hi4 : i < 4 := hi
  have hlist : oversizeHead ++ writesTo 0 0 0 oversizeOps
      = [flit0 true false 1, body0 2, body0 3, body0 4, flit0 false true 5] := rfl
  rw [hlist] at h
  rcases i with _ | _ | _ | _ | i
  · simp only [List.getElem?_cons_zero, Option.some.injEq] at h
    rw [← h]; rfl
  · simp only [List.getElem?_cons_succ, List.getElem?_cons_zero, Option.some.injEq] at h
    rw [← h]; rfl
  · simp only [List.getElem?_cons_succ, List.getElem?_cons_zero, Option.some.injEq] at h
    rw [← h]; rfl
  · simp only [List.getElem?_cons_succ, List.getElem?_cons_zero, Option.some.injEq] at h
    rw [← h]; rfl
  · omega

/-- C20 (witness): boundary capacity 4 and a five-flit packet on VC 0: after four transfers the
boundary slot holds the four tail-less fragments, the tail flit stays in the ejection slot, and
later transfers, `pop` and `top` change nothing for that VC. -/
theorem oversized_never_delivered_witness :
    runOps oversizeOps oversizeNode = .ok oversizeAfter ∧
    get3 oversizeAfter.boundary_buffer 0 0 0
      = some ⟨[⟨1, false⟩, ⟨2, false⟩, ⟨3, false⟩, ⟨4, false⟩], 0⟩ ∧
    get3 oversizeAfter.ejection_buffer 0 0 0 = some [some (flit0 false true 5)] ∧
    ∃ m item, m ≤ oversizeAfter.boundary_buffer_capacity ∧
      oversizeAfter.boundary_buffer_capacity = oversizeNode.boundary_buffer_capacity ∧
      get3 oversizeAfter.boundary_buffer 0 0 0 = some item ∧
      item.buffer = ((oversizeHead ++ writesTo 0 0 0 oversizeOps).take m).map frag ∧
      (∀ x ∈ item.buffer, x.is_tail = false) ∧
      item.num_packets = 0 ∧ completePackets item = 0 ∧ item.is_empty = true ∧
      get3 oversizeAfter.ejection_buffer 0 0 0
        = some (((oversizeHead ++ writesTo 0 0 0 oversizeOps).drop m).map some) ∧
      (m = oversizeAfter.boundary_buffer_capacity →
        movesAt oversizeAfter 0 0 0 = none ∧
        ∀ s1, oversizeAfter.Transfer2BoundaryBuffer 0 0 = .ok s1 →
          get3 s1.boundary_buffer 0 0 0 = some item ∧
          get3 s1.ejection_buffer 0 0 0 = get3 oversizeAfter.ejection_buffer 0 0 0) ∧
      (∀ s1, oversizeAfter.pop 0 0 = .ok s1 → get3 s1.boundary_buffer 0 0 0 = some item) ∧
      Interface.top
        { oversizeAfter with
          boundary_buffer := set3 oversizeAfter.boundary_buffer 0 0 0 BoundaryBufferItem.new }
        0 0 = oversizeAfter.top 0 0 :=
  ⟨rfl, rfl, rfl,
    oversized_never_delivered oversizeNode oversizeAfter 0 0 0 oversizeHead oversizeOps
      (by decide) rfl rfl oversize_no_tail rfl⟩

/-! ### Delivery of one packet -/

end booksim2
